import Mathlib

/-!
# wasm32/emscripten foreign function interface (`src/wasm32/ffi.c`)

A shallow embedding of the marshalling engine of `ffi.c`: the struct unboxing
helper `unbox_small_structs`, the forward call `ffi_call` with its variadic
block builder, and the closure binding `ffi_prep_closure_loc` with the
trampoline it generates.

Conventions of the embedding.

* Linear memory is a total map from byte addresses to bytes (`Mem`); the typed
  views `HEAPU8`, `HEAPU16`, `HEAPU32`, `HEAPF32`, `HEAPF64`, `HEAPU64` are
  little-endian readings of that one buffer, as on wasm32.
* Addresses are natural numbers.  The source coerces them to 32-bit integers in
  `addr >> k` and `addr & mask`; on a heap below 2 GiB those coercions are the
  identity, and that is the domain of this development.
* Subtraction on addresses is the truncated one of the naturals: the stack is
  taken to be deep enough that `stack -= size` does not pass address 0.
* A float is carried by its IEEE-754 bit pattern; no float arithmetic is
  performed by the source and none is modelled.
* The `while` loop of `unbox_small_structs` follows pointers held in memory and
  need not terminate on a cyclic descriptor graph; it is given fuel, and every
  function that calls it passes the fuel on and reports `outOfFuel`.
-/

namespace Wasm32

/-! ## Constants of `ffi.h` / `ffitarget.h` -/

/-- Modelled from the spec: the type-kind tags `FFI_TYPE_*` come from `ffi.h`,
which is not among the sources; the spec names the kinds only. The numbering is
the one of the libffi public header. Tag of kind void. -/
abbrev FFI_TYPE_VOID : Nat := 0
/-- Modelled from the spec: kind tag of `ffi.h` (header not among the sources); C `int`. -/
abbrev FFI_TYPE_INT : Nat := 1
/-- Modelled from the spec: kind tag of `ffi.h` (header not among the sources); 32-bit float. -/
abbrev FFI_TYPE_FLOAT : Nat := 2
/-- Modelled from the spec: kind tag of `ffi.h` (header not among the sources); 64-bit float. -/
abbrev FFI_TYPE_DOUBLE : Nat := 3
/-- Modelled from the spec: kind tag of `ffi.h` (header not among the sources); the
extended-precision float (128-bit `long double` on wasm32). -/
abbrev FFI_TYPE_LONGDOUBLE : Nat := 4
/-- Modelled from the spec: kind tag of `ffi.h` (header not among the sources). -/
abbrev FFI_TYPE_UINT8 : Nat := 5
/-- Modelled from the spec: kind tag of `ffi.h` (header not among the sources). -/
abbrev FFI_TYPE_SINT8 : Nat := 6
/-- Modelled from the spec: kind tag of `ffi.h` (header not among the sources). -/
abbrev FFI_TYPE_UINT16 : Nat := 7
/-- Modelled from the spec: kind tag of `ffi.h` (header not among the sources). -/
abbrev FFI_TYPE_SINT16 : Nat := 8
/-- Modelled from the spec: kind tag of `ffi.h` (header not among the sources). -/
abbrev FFI_TYPE_UINT32 : Nat := 9
/-- Modelled from the spec: kind tag of `ffi.h` (header not among the sources). -/
abbrev FFI_TYPE_SINT32 : Nat := 10
/-- Modelled from the spec: kind tag of `ffi.h` (header not among the sources). -/
abbrev FFI_TYPE_UINT64 : Nat := 11
/-- Modelled from the spec: kind tag of `ffi.h` (header not among the sources). -/
abbrev FFI_TYPE_SINT64 : Nat := 12
/-- Modelled from the spec: kind tag of `ffi.h` (header not among the sources); aggregate. -/
abbrev FFI_TYPE_STRUCT : Nat := 13
/-- Modelled from the spec: kind tag of `ffi.h` (header not among the sources). -/
abbrev FFI_TYPE_POINTER : Nat := 14
/-- Modelled from the spec: kind tag of `ffi.h` (header not among the sources). -/
abbrev FFI_TYPE_COMPLEX : Nat := 15
/-- Modelled from the spec: `FFI_TYPE_LAST` of `ffi.h` (header not among the sources),
the largest known kind tag. -/
abbrev FFI_TYPE_LAST : Nat := FFI_TYPE_COMPLEX

/-- Modelled from the spec: the tag of the one supported ABI, from `ffitarget.h`
(not among the sources). -/
abbrev FFI_WASM32_EMSCRIPTEN : Nat := 2

/-- Modelled from the spec: the status codes of `ffi.h` (header not among the
sources): OK and bad-ABI are the two that `ffi.c` returns. -/
inductive ffi_status where
  | FFI_OK
  | FFI_BAD_TYPEDEF
  | FFI_BAD_ABI
  | FFI_BAD_ARGTYPE
  deriving DecidableEq, Repr

/-! ## Linear memory and its typed views -/

/-- Linear memory: the byte stored at every address.  A view reads a cell modulo
256, so every map is a memory. -/
abbrev Mem := Nat → Nat

/-- The view `HEAPU8[i]`. -/
def HEAPU8 (mem : Mem) (i : Nat) : Nat := mem i % 256

/-- The view `HEAPU16[i]`: two bytes at byte address `2 * i`, little-endian. -/
def HEAPU16 (mem : Mem) (i : Nat) : Nat :=
  HEAPU8 mem (2 * i) + 256 * HEAPU8 mem (2 * i + 1)

/-- The view `HEAPU32[i]`: four bytes at byte address `4 * i`, little-endian. -/
def HEAPU32 (mem : Mem) (i : Nat) : Nat :=
  HEAPU8 mem (4 * i) + 256 * HEAPU8 mem (4 * i + 1)
    + 65536 * HEAPU8 mem (4 * i + 2) + 16777216 * HEAPU8 mem (4 * i + 3)

/-- The view `HEAPU64[i]`: eight bytes at byte address `8 * i`, little-endian. -/
def HEAPU64 (mem : Mem) (i : Nat) : Nat :=
  HEAPU32 mem (2 * i) + 4294967296 * HEAPU32 mem (2 * i + 1)

/-- The view `HEAPF32[i]`, as the bit pattern of the single it holds. -/
def HEAPF32 (mem : Mem) (i : Nat) : Nat := HEAPU32 mem i

/-- The view `HEAPF64[i]`, as the bit pattern of the double it holds. -/
def HEAPF64 (mem : Mem) (i : Nat) : Nat := HEAPU64 mem i

/-- One byte store. -/
def setByte (mem : Mem) (a v : Nat) : Mem := fun x => if x = a then v % 256 else mem x

/-- The store `HEAPU8[i] = v` (also `HEAP8[i] = v`: the same byte). -/
def HEAPU8_set (mem : Mem) (i v : Nat) : Mem := setByte mem i v

/-- The store `HEAPU16[i] = v`. -/
def HEAPU16_set (mem : Mem) (i v : Nat) : Mem :=
  setByte (setByte mem (2 * i) v) (2 * i + 1) (v / 256)

/-- The store `HEAPU32[i] = v`. -/
def HEAPU32_set (mem : Mem) (i v : Nat) : Mem :=
  setByte (setByte (setByte (setByte mem (4 * i) v) (4 * i + 1) (v / 256))
    (4 * i + 2) (v / 65536)) (4 * i + 3) (v / 16777216)

/-- The store `HEAPU64[i] = v` (and `HEAPF64[i] = v` on bit patterns). -/
def HEAPU64_set (mem : Mem) (i v : Nat) : Mem :=
  HEAPU32_set (HEAPU32_set mem (2 * i) v) (2 * i + 1) (v / 4294967296)

/-- Macro `DEREF_U8(addr, offset)`: `HEAPU8[addr + offset]`. -/
def DEREF_U8 (mem : Mem) (addr offset : Nat) : Nat := HEAPU8 mem (addr + offset)
/-- Macro `DEREF_U16(addr, offset)`: `HEAPU16[(addr >> 1) + offset]`. -/
def DEREF_U16 (mem : Mem) (addr offset : Nat) : Nat := HEAPU16 mem (addr / 2 + offset)
/-- Macro `DEREF_U32(addr, offset)`: `HEAPU32[(addr >> 2) + offset]`. -/
def DEREF_U32 (mem : Mem) (addr offset : Nat) : Nat := HEAPU32 mem (addr / 4 + offset)
/-- Macro `DEREF_F32(addr, offset)`: `HEAPF32[(addr >> 2) + offset]`. -/
def DEREF_F32 (mem : Mem) (addr offset : Nat) : Nat := HEAPF32 mem (addr / 4 + offset)
/-- Macro `DEREF_F64(addr, offset)`: `HEAPF64[(addr >> 3) + offset]`. -/
def DEREF_F64 (mem : Mem) (addr offset : Nat) : Nat := HEAPF64 mem (addr / 8 + offset)
/-- Macro `DEREF_U64(addr, offset)` of the `WASM_BIGINT` build. -/
def DEREF_U64 (mem : Mem) (addr offset : Nat) : Nat := HEAPU64 mem (addr / 8 + offset)

/-- Assignment to `DEREF_U8(addr, offset)`. -/
def DEREF_U8_set (mem : Mem) (addr offset v : Nat) : Mem := HEAPU8_set mem (addr + offset) v
/-- Assignment to `DEREF_U16(addr, offset)`. -/
def DEREF_U16_set (mem : Mem) (addr offset v : Nat) : Mem := HEAPU16_set mem (addr / 2 + offset) v
/-- Assignment to `DEREF_U32(addr, offset)`. -/
def DEREF_U32_set (mem : Mem) (addr offset v : Nat) : Mem := HEAPU32_set mem (addr / 4 + offset) v
/-- Assignment to `DEREF_F32(addr, offset)`, on bit patterns. -/
def DEREF_F32_set (mem : Mem) (addr offset v : Nat) : Mem := HEAPU32_set mem (addr / 4 + offset) v
/-- Assignment to `DEREF_F64(addr, offset)`, on bit patterns. -/
def DEREF_F64_set (mem : Mem) (addr offset v : Nat) : Mem := HEAPU64_set mem (addr / 8 + offset) v
/-- Assignment to `DEREF_U64(addr, offset)` of the `WASM_BIGINT` build. -/
def DEREF_U64_set (mem : Mem) (addr offset v : Nat) : Mem := HEAPU64_set mem (addr / 8 + offset) v

/-- Macro `CIF__ABI`. -/
def CIF__ABI (mem : Mem) (addr : Nat) : Nat := DEREF_U32 mem addr 0
/-- Macro `CIF__NARGS`. -/
def CIF__NARGS (mem : Mem) (addr : Nat) : Nat := DEREF_U32 mem addr 1
/-- Macro `CIF__ARGTYPES`. -/
def CIF__ARGTYPES (mem : Mem) (addr : Nat) : Nat := DEREF_U32 mem addr 2
/-- Macro `CIF__RTYPE`. -/
def CIF__RTYPE (mem : Mem) (addr : Nat) : Nat := DEREF_U32 mem addr 3
/-- Macro `CIF__NFIXEDARGS`. -/
def CIF__NFIXEDARGS (mem : Mem) (addr : Nat) : Nat := DEREF_U32 mem addr 6

/-- Macro `FFI_TYPE__SIZE`. -/
def FFI_TYPE__SIZE (mem : Mem) (addr : Nat) : Nat := DEREF_U32 mem addr 0
/-- Macro `FFI_TYPE__ALIGN`. -/
def FFI_TYPE__ALIGN (mem : Mem) (addr : Nat) : Nat := DEREF_U16 mem (addr + 4) 0
/-- Macro `FFI_TYPE__TYPEID`. -/
def FFI_TYPE__TYPEID (mem : Mem) (addr : Nat) : Nat := DEREF_U16 mem (addr + 6) 0
/-- Macro `FFI_TYPE__ELEMENTS`. -/
def FFI_TYPE__ELEMENTS (mem : Mem) (addr : Nat) : Nat := DEREF_U32 mem (addr + 8) 0

/-- Macro `ALIGN_ADDRESS(addr, align)`: `addr & ~(align - 1)`, which for the
powers of two the source passes clears the low bits, i.e. rounds down to a
multiple of `align`. -/
def ALIGN_ADDRESS (addr align : Nat) : Nat := addr / align * align

/-- Macro `STACK_ALLOC(stack, size, align)`: align down, then move down by `size`.
The value is the new `stack`. -/
def STACK_ALLOC (stack size align : Nat) : Nat := ALIGN_ADDRESS stack align - size

/-! ## The type resolver -/

/-- The loop of `unbox_small_structs`, entered with the current `type_ptr` and
`type_id`; one unit of fuel per iteration. -/
def unbox_loop (mem : Mem) : Nat → Nat → Nat → Option (Nat × Nat)
  | fuel, type_ptr, type_id =>
    if type_id = FFI_TYPE_STRUCT then
      match fuel with
      | 0 => none
      | fuel + 1 =>
        let elements := FFI_TYPE__ELEMENTS mem type_ptr
        let first_element := DEREF_U32 mem elements 0
        if first_element = 0 then
          some (type_ptr, FFI_TYPE_VOID)
        else if DEREF_U32 mem elements 1 = 0 then
          unbox_loop mem fuel first_element (FFI_TYPE__TYPEID mem first_element)
        else
          some (type_ptr, type_id)
    else
      some (type_ptr, type_id)

/-- Function `unbox_small_structs(type_ptr)`: the pair `[type_ptr, type_id]`, or
`none` when the fuel does not suffice. -/
def unbox_small_structs (mem : Mem) (fuel : Nat) (type_ptr : Nat) : Option (Nat × Nat) :=
  unbox_loop mem fuel type_ptr (FFI_TYPE__TYPEID mem type_ptr)

/-- An aggregate descriptor whose member list is empty. -/
def IsEmptyStruct (mem : Mem) (t : Nat) : Prop :=
  FFI_TYPE__TYPEID mem t = FFI_TYPE_STRUCT ∧
    DEREF_U32 mem (FFI_TYPE__ELEMENTS mem t) 0 = 0

/-- An aggregate descriptor whose member list is exactly `[m]`. -/
def IsSingleMemberStruct (mem : Mem) (t m : Nat) : Prop :=
  FFI_TYPE__TYPEID mem t = FFI_TYPE_STRUCT ∧
    DEREF_U32 mem (FFI_TYPE__ELEMENTS mem t) 0 = m ∧ m ≠ 0 ∧
    DEREF_U32 mem (FFI_TYPE__ELEMENTS mem t) 1 = 0

/-- An aggregate descriptor with two or more members. -/
def HasTwoMembers (mem : Mem) (t : Nat) : Prop :=
  FFI_TYPE__TYPEID mem t = FFI_TYPE_STRUCT ∧
    DEREF_U32 mem (FFI_TYPE__ELEMENTS mem t) 0 ≠ 0 ∧
    DEREF_U32 mem (FFI_TYPE__ELEMENTS mem t) 1 ≠ 0

/-- Descriptor `t` reaches descriptor `m` through `n` single-member aggregates. -/
def Wraps (mem : Mem) : Nat → Nat → Nat → Prop
  | 0, t, m => t = m
  | n + 1, t, m => ∃ u, IsSingleMemberStruct mem t u ∧ Wraps mem n u m

/-! ## Host call values -/

/-- A value of the host (JavaScript) side of a call.

* `num n`: a Number with the integer value `n` (what the integer views yield,
  an address, or a 32-bit result);
* `f32 bits`, `f64 bits`: a Number read through `HEAPF32` / `HEAPF64`, carried by
  the bit pattern it was read from;
* `big n`: a BigInt (a 64-bit wasm value);
* `undefined`: `undefined`. -/
inductive JSVal where
  | num (n : Int)
  | f32 (bits : Nat)
  | f64 (bits : Nat)
  | big (n : Int)
  | undefined
  deriving DecidableEq, Repr

/-- The errors raised with `throw`.  The first five are the `throw new Error(..)`
statements of the source, with the kind tag that the message carries; the last is
the `TypeError` the host raises when a BigInt meets a Number view or a Number
meets a BigInt operation. -/
inductive Err where
  /-- Error message: complex ret marshalling nyi. -/
  | complexRet
  /-- Error message: Unexpected rtype, followed by the tag. -/
  | unexpectedRtype (rtype_id : Nat)
  /-- Error messages: complex marshalling nyi; complex arg marshalling nyi. -/
  | complexArg
  /-- Error message: Unexpected type, followed by the tag. -/
  | unexpectedType (arg_type_id : Nat)
  /-- Error message: Unexpected argtype, followed by the tag (absent when the variable is unset). -/
  | unexpectedArgtype (arg_type_id : Option Nat)
  | typeError
  deriving DecidableEq, Repr

/-- The captured variables of a generated `trampoline`: what the function
closes over when `ffi_prep_closure_loc_helper` compiles it. -/
structure Tramp where
  sig : List Char
  ret_by_arg : Bool
  nargs : Nat
  nfixedargs : Nat
  unboxed_arg_type_id_list : List Nat
  closure : Nat
  deriving DecidableEq, Repr

/-- The host capabilities that `ffi.c` consumes and does not define.

* `WASM_BIGINT`: the build flag selecting the 64-bit view `HEAPU64`;
* `callee`: the behaviour of `wasmTable.get(func).apply(null, args)` on the
  memory and stack pointer at the time of the call: the result, the memory and
  the stack pointer it leaves;
* `toInteger`, `toF32`, `toF64`: the host's numeric conversions when a Number of
  one class is stored through a view of another (float to integer view, integer
  to float view); they involve IEEE rounding and are left uninterpreted. -/
structure Host where
  WASM_BIGINT : Bool
  callee : Nat → List JSVal → Mem → Nat → JSVal × Mem × Nat
  toInteger : JSVal → Int
  toF32 : JSVal → Nat
  toF64 : JSVal → Nat

/-- One invocation of the host call primitive `CALL_FUNC_PTR(func, args)`,
with the memory and stack pointer at the moment of the call. -/
structure CallRecord where
  func : Nat
  args : List JSVal
  mem : Mem
  sp : Nat

/-- The mutable state the engine works on: linear memory, the auxiliary stack
pointer (`stackSave` / `stackRestore`), the trampolines installed into the call
table, the free list of table slots, (ghost) the host calls made so far, and the
length of the call table (`wasmTable.length`). -/
structure State where
  mem : Mem
  sp : Nat
  table : Nat → Option Tramp
  freeTableIndexes : List Nat
  calls : List CallRecord
  tableLength : Nat

/-- Outcome of a piece of JavaScript over a state `σ`: normal completion with a
value, a `throw` (the state is the one at the throw), or fuel exhausted. -/
inductive Res (σ α : Type) where
  | ok (v : α) (s : σ)
  | throw (e : Err) (s : σ)
  | outOfFuel

/-- Outcome of a piece of JavaScript that only reads the state. -/
inductive Outcome (α : Type) where
  | ok (v : α)
  | throw (e : Err)
  | outOfFuel
  deriving DecidableEq

/-- The integer a value becomes when stored through an integer view, before the
reduction modulo the width of the view: `undefined` is NaN and stores 0, a BigInt
is a `TypeError`. -/
def toIntegerView (h : Host) : JSVal → Except Err Int
  | .num n => .ok n
  | .f32 b => .ok (h.toInteger (.f32 b))
  | .f64 b => .ok (h.toInteger (.f64 b))
  | .undefined => .ok 0
  | .big _ => .error .typeError

/-- Conversion of a value stored through an integer view of `2 ^ w` values. -/
def toUint (h : Host) (w : Nat) (v : JSVal) : Except Err Nat :=
  match toIntegerView h v with
  | .ok n => .ok (n % (2 ^ w : Int)).toNat
  | .error e => .error e

/-- Conversion of a value stored through `HEAPF32`, as a bit pattern. -/
def toF32Bits (h : Host) : JSVal → Except Err Nat
  | .f32 b => .ok b
  | .big _ => .error .typeError
  | v => .ok (h.toF32 v)

/-- Conversion of a value stored through `HEAPF64`, as a bit pattern. -/
def toF64Bits (h : Host) : JSVal → Except Err Nat
  | .f64 b => .ok b
  | .big _ => .error .typeError
  | v => .ok (h.toF64 v)

/-- Macro `LOAD_U64(addr, offset)`.  With `WASM_BIGINT` it is `DEREF_U64`;
without, `BIGINT_FROM_PAIR(DEREF_U32(addr, offset*2), DEREF_U32(addr, offset*2 + 1))`,
where `BigInt(lower) | (BigInt(upper) << 32)` is `lower + 2^32 * upper` for two
32-bit words. -/
def LOAD_U64 (h : Host) (mem : Mem) (addr offset : Nat) : JSVal :=
  if h.WASM_BIGINT then
    .big (DEREF_U64 mem addr offset)
  else
    .big (DEREF_U32 mem addr (offset * 2) + 4294967296 * DEREF_U32 mem addr (offset * 2 + 1))

/-- Macro `BIGINT_LOWER(x)` as stored into a 32-bit view: `x & 0xffffffff`. -/
def BIGINT_LOWER (x : Int) : Nat := (x % 4294967296).toNat

/-- Macro `BIGINT_UPPER(x)` as stored into a 32-bit view: `x >> 32` (arithmetic
shift) reduced modulo `2^32`, for `x` a 64-bit value. -/
def BIGINT_UPPER (x : Int) : Nat := (x / 4294967296 % 4294967296).toNat

/-- Macro `STORE_U64(addr, offset, val)`.  Either form raises a `TypeError` when
`val` is not a BigInt. -/
def STORE_U64 (h : Host) (mem : Mem) (addr offset : Nat) (val : JSVal) : Except Err Mem :=
  match val with
  | .big x =>
    if h.WASM_BIGINT then
      .ok (DEREF_U64_set mem addr offset (x % 18446744073709551616).toNat)
    else
      .ok (DEREF_U32_set (DEREF_U32_set mem addr (offset * 2) (BIGINT_LOWER x))
        addr (offset * 2 + 1) (BIGINT_UPPER x))
  | _ => .error .typeError

/-! ## The forward call `ffi_call` -/

/-- The `switch (arg_type_id)` of the fixed-argument loop of `ffi_call`: the call
values pushed for one argument whose input buffer is at `arg_ptr`. -/
def ffi_call_arg (h : Host) (mem : Mem) (arg_type_id arg_ptr : Nat) : Except Err (List JSVal) :=
  if arg_type_id = FFI_TYPE_INT ∨ arg_type_id = FFI_TYPE_SINT32 ∨
      arg_type_id = FFI_TYPE_UINT32 ∨ arg_type_id = FFI_TYPE_POINTER then
    .ok [.num (DEREF_U32 mem arg_ptr 0)]
  else if arg_type_id = FFI_TYPE_FLOAT then
    .ok [.f32 (DEREF_F32 mem arg_ptr 0)]
  else if arg_type_id = FFI_TYPE_DOUBLE then
    .ok [.f64 (DEREF_F64 mem arg_ptr 0)]
  else if arg_type_id = FFI_TYPE_UINT8 ∨ arg_type_id = FFI_TYPE_SINT8 then
    .ok [.num (DEREF_U8 mem arg_ptr 0)]
  else if arg_type_id = FFI_TYPE_UINT16 ∨ arg_type_id = FFI_TYPE_SINT16 then
    .ok [.num (DEREF_U16 mem arg_ptr 0)]
  else if arg_type_id = FFI_TYPE_UINT64 ∨ arg_type_id = FFI_TYPE_SINT64 then
    .ok [LOAD_U64 h mem arg_ptr 0]
  else if arg_type_id = FFI_TYPE_LONGDOUBLE then
    .ok [LOAD_U64 h mem arg_ptr 0, LOAD_U64 h mem arg_ptr 1]
  else if arg_type_id = FFI_TYPE_STRUCT then
    .ok [.num arg_ptr]
  else if arg_type_id = FFI_TYPE_COMPLEX then
    .error .complexArg
  else
    .error (.unexpectedType arg_type_id)

/-- Body of the fixed-argument loop of `ffi_call` at index `i`: the call values
that iteration pushes. -/
def ffi_call_fixed_arg (h : Host) (fuel : Nat) (mem : Mem) (avalue arg_types_ptr i : Nat) :
    Outcome (List JSVal) :=
  let arg_ptr := DEREF_U32 mem avalue i
  match unbox_small_structs mem fuel (DEREF_U32 mem arg_types_ptr i) with
  | none => .outOfFuel
  | some (_, arg_type_id) =>
    match ffi_call_arg h mem arg_type_id arg_ptr with
    | .ok vs => .ok vs
    | .error e => .throw e

/-- The loop `for (var i = 0; i < nfixedargs; i++)` of `ffi_call`, with `n`
iterations left, the next index `i` and the list `args` built so far. -/
def ffi_call_fixed_args (h : Host) (fuel : Nat) (mem : Mem) (avalue arg_types_ptr : Nat) :
    Nat → Nat → List JSVal → Outcome (List JSVal)
  | 0, _, args => .ok args
  | n + 1, i, args =>
    match ffi_call_fixed_arg h fuel mem avalue arg_types_ptr i with
    | .ok vs => ffi_call_fixed_args h fuel mem avalue arg_types_ptr n (i + 1) (args ++ vs)
    | .throw e => .throw e
    | .outOfFuel => .outOfFuel

/-- The `switch (arg_type_id)` of the variadic loop of `ffi_call`: allocate the
slot below `varargs_addr` and copy the argument into it.  The value is the new
`varargs_addr` and the memory. -/
def ffi_call_vararg (mem : Mem) (arg_type_id arg_ptr varargs_addr : Nat) : Except Err (Nat × Mem) :=
  if arg_type_id = FFI_TYPE_UINT8 ∨ arg_type_id = FFI_TYPE_SINT8 then
    let va := STACK_ALLOC varargs_addr 1 1
    .ok (va, DEREF_U8_set mem va 0 (DEREF_U8 mem arg_ptr 0))
  else if arg_type_id = FFI_TYPE_UINT16 ∨ arg_type_id = FFI_TYPE_SINT16 then
    let va := STACK_ALLOC varargs_addr 2 2
    .ok (va, DEREF_U16_set mem va 0 (DEREF_U16 mem arg_ptr 0))
  else if arg_type_id = FFI_TYPE_INT ∨ arg_type_id = FFI_TYPE_UINT32 ∨
      arg_type_id = FFI_TYPE_SINT32 ∨ arg_type_id = FFI_TYPE_POINTER ∨
      arg_type_id = FFI_TYPE_FLOAT then
    let va := STACK_ALLOC varargs_addr 4 4
    .ok (va, DEREF_U32_set mem va 0 (DEREF_U32 mem arg_ptr 0))
  else if arg_type_id = FFI_TYPE_DOUBLE ∨ arg_type_id = FFI_TYPE_UINT64 ∨
      arg_type_id = FFI_TYPE_SINT64 then
    let va := STACK_ALLOC varargs_addr 8 8
    let mem1 := DEREF_U32_set mem va 0 (DEREF_U32 mem arg_ptr 0)
    .ok (va, DEREF_U32_set mem1 va 1 (DEREF_U32 mem1 arg_ptr 1))
  else if arg_type_id = FFI_TYPE_LONGDOUBLE then
    let va := STACK_ALLOC varargs_addr 16 16
    let mem1 := DEREF_U32_set mem va 0 (DEREF_U32 mem arg_ptr 0)
    let mem2 := DEREF_U32_set mem1 va 1 (DEREF_U32 mem1 arg_ptr 1)
    let mem3 := DEREF_U32_set mem2 va 2 (DEREF_U32 mem2 arg_ptr 1)
    .ok (va, DEREF_U32_set mem3 va 3 (DEREF_U32 mem3 arg_ptr 1))
  else if arg_type_id = FFI_TYPE_STRUCT then
    let va := STACK_ALLOC varargs_addr 4 4
    .ok (va, DEREF_U32_set mem va 0 arg_ptr)
  else if arg_type_id = FFI_TYPE_COMPLEX then
    .error .complexArg
  else
    .error (.unexpectedArgtype (some arg_type_id))

/-- The loop `for (var i = nargs - 1; i >= nfixedargs; i--)` of `ffi_call`, with
`n` iterations left: the next index is `nfixedargs + n - 1`.  Every read goes to
the memory as the earlier iterations left it. -/
def ffi_call_varargs (fuel : Nat) (avalue arg_types_ptr nfixedargs : Nat) :
    Nat → Nat → Mem → Res Mem Nat
  | 0, varargs_addr, mem => .ok varargs_addr mem
  | n + 1, varargs_addr, mem =>
    let i := nfixedargs + n
    let arg_ptr := DEREF_U32 mem avalue i
    match unbox_small_structs mem fuel (DEREF_U32 mem arg_types_ptr i) with
    | none => .outOfFuel
    | some (_, arg_type_id) =>
      match ffi_call_vararg mem arg_type_id arg_ptr varargs_addr with
      | .ok (va, mem1) => ffi_call_varargs fuel avalue arg_types_ptr nfixedargs n va mem1
      | .error e => .throw e mem

/-- The final `switch (rtype_id)` of `ffi_call`: the result of the host call
written to the return buffer. -/
def ffi_call_result (h : Host) (mem : Mem) (rtype_id rvalue : Nat) (result : JSVal) :
    Except Err Mem :=
  if rtype_id = FFI_TYPE_VOID then
    .ok mem
  else if rtype_id = FFI_TYPE_INT ∨ rtype_id = FFI_TYPE_UINT32 ∨
      rtype_id = FFI_TYPE_SINT32 ∨ rtype_id = FFI_TYPE_POINTER then
    match toUint h 32 result with
    | .ok v => .ok (DEREF_U32_set mem rvalue 0 v)
    | .error e => .error e
  else if rtype_id = FFI_TYPE_FLOAT then
    match toF32Bits h result with
    | .ok v => .ok (DEREF_F32_set mem rvalue 0 v)
    | .error e => .error e
  else if rtype_id = FFI_TYPE_DOUBLE then
    match toF64Bits h result with
    | .ok v => .ok (DEREF_F64_set mem rvalue 0 v)
    | .error e => .error e
  else if rtype_id = FFI_TYPE_UINT8 ∨ rtype_id = FFI_TYPE_SINT8 then
    match toUint h 8 result with
    | .ok v => .ok (HEAPU8_set mem rvalue v)
    | .error e => .error e
  else if rtype_id = FFI_TYPE_UINT16 ∨ rtype_id = FFI_TYPE_SINT16 then
    match toUint h 16 result with
    | .ok v => .ok (DEREF_U16_set mem rvalue 0 v)
    | .error e => .error e
  else if rtype_id = FFI_TYPE_UINT64 ∨ rtype_id = FFI_TYPE_SINT64 then
    STORE_U64 h mem rvalue 0 result
  else if rtype_id = FFI_TYPE_COMPLEX then
    .error .complexRet
  else
    .error (.unexpectedRtype rtype_id)

/-- The tail of `ffi_call` from `CALL_FUNC_PTR(fn, args)` on: the host call on
state `s`, `stackRestore(orig_stack_ptr)`, and the conversion of the result
unless `ret_by_arg`. -/
def ffi_call_invoke (h : Host) (fn rvalue rtype_id : Nat) (ret_by_arg : Bool)
    (orig_stack_ptr : Nat) (args : List JSVal) (s : State) : Res State Unit :=
  let r := h.callee fn args s.mem s.sp
  let result := r.1
  let s1 : State := { s with mem := r.2.1, sp := orig_stack_ptr,
                             calls := s.calls ++ [⟨fn, args, s.mem, s.sp⟩] }
  if ret_by_arg then
    .ok () s1
  else
    match ffi_call_result h s1.mem rtype_id rvalue result with
    | .ok mem2 => .ok () { s1 with mem := mem2 }
    | .error e => .throw e s1

/-- Function `ffi_call(cif, fn, rvalue, avalue)`. -/
def ffi_call (h : Host) (fuel : Nat) (cif fn rvalue avalue : Nat) (s : State) : Res State Unit :=
  let nargs := CIF__NARGS s.mem cif
  let nfixedargs := CIF__NFIXEDARGS s.mem cif
  let arg_types_ptr := CIF__ARGTYPES s.mem cif
  match unbox_small_structs s.mem fuel (CIF__RTYPE s.mem cif) with
  | none => .outOfFuel
  | some (_, rtype_id) =>
    if rtype_id = FFI_TYPE_COMPLEX then
      .throw .complexRet s
    else if rtype_id > FFI_TYPE_LAST then
      .throw (.unexpectedRtype rtype_id) s
    else
      let ret_by_arg : Bool := rtype_id = FFI_TYPE_LONGDOUBLE ∨ rtype_id = FFI_TYPE_STRUCT
      let args0 : List JSVal := if ret_by_arg then [.num rvalue] else []
      match ffi_call_fixed_args h fuel s.mem avalue arg_types_ptr nfixedargs 0 args0 with
      | .outOfFuel => .outOfFuel
      | .throw e => .throw e s
      | .ok args =>
        let orig_stack_ptr := s.sp
        if nfixedargs ≠ nargs then
          match ffi_call_varargs fuel avalue arg_types_ptr nfixedargs (nargs - nfixedargs)
              orig_stack_ptr s.mem with
          | .outOfFuel => .outOfFuel
          | .throw e mem1 => .throw e { s with mem := mem1 }
          | .ok varargs_addr mem1 =>
            ffi_call_invoke h fn rvalue rtype_id ret_by_arg orig_stack_ptr
              (args ++ [.num varargs_addr]) { s with mem := mem1, sp := varargs_addr }
        else
          ffi_call_invoke h fn rvalue rtype_id ret_by_arg orig_stack_ptr args s

/-! ## Closures: `ffi_prep_closure_loc` and the generated trampoline -/

/-- Macro `CLOSURE__wrapper`. -/
def CLOSURE__wrapper (mem : Mem) (addr : Nat) : Nat := DEREF_U32 mem addr 0
/-- Macro `CLOSURE__cif`. -/
def CLOSURE__cif (mem : Mem) (addr : Nat) : Nat := DEREF_U32 mem addr 1
/-- Macro `CLOSURE__fun`. -/
def CLOSURE__fun (mem : Mem) (addr : Nat) : Nat := DEREF_U32 mem addr 2
/-- Macro `CLOSURE__user_data`. -/
def CLOSURE__user_data (mem : Mem) (addr : Nat) : Nat := DEREF_U32 mem addr 3

/-- The `switch (rtype_id)` of `ffi_prep_closure_loc_helper`: the initial `sig`
and the flag `ret_by_arg`. -/
def closure_ret_sig (rtype_id : Nat) : Except Err (List Char × Bool) :=
  if rtype_id = FFI_TYPE_VOID then
    .ok (['v'], false)
  else if rtype_id = FFI_TYPE_STRUCT ∨ rtype_id = FFI_TYPE_LONGDOUBLE then
    .ok (['v', 'i'], true)
  else if rtype_id = FFI_TYPE_INT ∨ rtype_id = FFI_TYPE_UINT8 ∨ rtype_id = FFI_TYPE_SINT8 ∨
      rtype_id = FFI_TYPE_UINT16 ∨ rtype_id = FFI_TYPE_SINT16 ∨ rtype_id = FFI_TYPE_UINT32 ∨
      rtype_id = FFI_TYPE_SINT32 ∨ rtype_id = FFI_TYPE_POINTER then
    .ok (['i'], false)
  else if rtype_id = FFI_TYPE_FLOAT then
    .ok (['f'], false)
  else if rtype_id = FFI_TYPE_DOUBLE then
    .ok (['d'], false)
  else if rtype_id = FFI_TYPE_UINT64 ∨ rtype_id = FFI_TYPE_SINT64 then
    .ok (['j'], false)
  else if rtype_id = FFI_TYPE_COMPLEX then
    .error .complexRet
  else
    .error (.unexpectedRtype rtype_id)

/-- The first loop over `i < nargs` of `ffi_prep_closure_loc_helper`, filling
`unboxed_arg_type_id_list`; `n` iterations left, next index `i`. -/
def closure_unbox_args (mem : Mem) (fuel : Nat) (arg_types_ptr : Nat) :
    Nat → Nat → List Nat → Option (List Nat)
  | 0, _, unboxed_arg_type_id_list => some unboxed_arg_type_id_list
  | n + 1, i, unboxed_arg_type_id_list =>
    match unbox_small_structs mem fuel (DEREF_U32 mem arg_types_ptr i) with
    | none => none
    | some (_, arg_type_id) =>
      closure_unbox_args mem fuel arg_types_ptr n (i + 1) (unboxed_arg_type_id_list ++ [arg_type_id])

/-- The `switch (unboxed_arg_type_id_list[i])` of the second loop: the signature
characters of one fixed argument.  An index past the list reads `undefined` and
takes the default case; the default case reports the variable `arg_type_id`,
which the first loop left at its last value. -/
def closure_arg_sig (entry : Option Nat) (arg_type_id : Option Nat) : Except Err (List Char) :=
  match entry with
  | none => .error (.unexpectedArgtype arg_type_id)
  | some id =>
    if id = FFI_TYPE_INT ∨ id = FFI_TYPE_UINT8 ∨ id = FFI_TYPE_SINT8 ∨ id = FFI_TYPE_UINT16 ∨
        id = FFI_TYPE_SINT16 ∨ id = FFI_TYPE_UINT32 ∨ id = FFI_TYPE_SINT32 ∨
        id = FFI_TYPE_POINTER ∨ id = FFI_TYPE_STRUCT then
      .ok ['i']
    else if id = FFI_TYPE_FLOAT then
      .ok ['f']
    else if id = FFI_TYPE_DOUBLE then
      .ok ['d']
    else if id = FFI_TYPE_LONGDOUBLE then
      .ok ['j', 'j']
    else if id = FFI_TYPE_UINT64 ∨ id = FFI_TYPE_SINT64 then
      .ok ['j']
    else if id = FFI_TYPE_COMPLEX then
      .error .complexArg
    else
      .error (.unexpectedArgtype arg_type_id)

/-- The second loop over `i < nfixedargs` of `ffi_prep_closure_loc_helper`,
appending to `sig`; `n` iterations left, next index `i`. -/
def closure_args_sig (unboxed_arg_type_id_list : List Nat) :
    Nat → Nat → List Char → Except Err (List Char)
  | 0, _, sig => .ok sig
  | n + 1, i, sig =>
    match closure_arg_sig (unboxed_arg_type_id_list.get? i) unboxed_arg_type_id_list.getLast? with
    | .ok cs => closure_args_sig unboxed_arg_type_id_list n (i + 1) (sig ++ cs)
    | .error e => .error e

/-- Function `ffi_prep_closure_loc_helper(closure, cif, fun, user_data, codeloc)`.
The compiled trampoline is recorded in the call table by the variables it
closes over. -/
def ffi_prep_closure_loc_helper (fuel : Nat) (closure cif fn user_data codeloc : Nat)
    (s : State) : Res State ffi_status :=
  let nargs := CIF__NARGS s.mem cif
  let nfixedargs := CIF__NFIXEDARGS s.mem cif
  let arg_types_ptr := CIF__ARGTYPES s.mem cif
  match unbox_small_structs s.mem fuel (CIF__RTYPE s.mem cif) with
  | none => .outOfFuel
  | some (_, rtype_id) =>
    match closure_ret_sig rtype_id with
    | .error e => .throw e s
    | .ok (sig0, ret_by_arg) =>
      match closure_unbox_args s.mem fuel arg_types_ptr nargs 0 [] with
      | none => .outOfFuel
      | some unboxed_arg_type_id_list =>
        match closure_args_sig unboxed_arg_type_id_list nfixedargs 0 sig0 with
        | .error e => .throw e s
        | .ok sig1 =>
          let sig := if nfixedargs < nargs then sig1 ++ ['i'] else sig1
          let wasm_trampoline : Tramp :=
            ⟨sig, ret_by_arg, nargs, nfixedargs, unboxed_arg_type_id_list, closure⟩
          let mem1 := DEREF_U32_set s.mem closure 1 cif
          let mem2 := DEREF_U32_set mem1 closure 2 fn
          let mem3 := DEREF_U32_set mem2 closure 3 user_data
          .ok .FFI_OK { s with
            table := fun i => if i = codeloc then some wasm_trampoline else s.table i,
            mem := mem3 }

/-- Function `ffi_prep_closure_loc(closure, cif, fun, user_data, codeloc)`; the
field `cif->abi` is the word that `CIF__ABI` reads. -/
def ffi_prep_closure_loc (fuel : Nat) (closure cif fn user_data codeloc : Nat)
    (s : State) : Res State ffi_status :=
  if CIF__ABI s.mem cif ≠ FFI_WASM32_EMSCRIPTEN then
    .ok .FFI_BAD_ABI s
  else
    ffi_prep_closure_loc_helper fuel closure cif fn user_data codeloc s

/-- The address a call value denotes when the trampoline uses it as one: the
variadic block address arrives as an `i` parameter, a Number; for a value of
another class the address arithmetic of the source is outside this embedding and
the address reads as 0. -/
def asAddr : JSVal → Nat
  | .num n => n.toNat
  | _ => 0

/-- The `switch (arg_type_id)` in the `while` loop of `trampoline`, for the
incoming value `cur_arg` of the argument with index `carg_idx`; `next_arg` is the
value `args[jsarg_idx]` that the extended-float case reads as its second half.
The switch has no default case.  The value is the new `cur_ptr`. -/
def trampoline_arg (h : Host) (mem : Mem) (arg_type_id : Option Nat)
    (args_ptr carg_idx cur_ptr : Nat) (cur_arg next_arg : JSVal) : Res Mem Nat :=
  match arg_type_id with
  | none => .ok cur_ptr mem
  | some id =>
    if id = FFI_TYPE_UINT8 ∨ id = FFI_TYPE_SINT8 then
      let cur_ptr := STACK_ALLOC cur_ptr 1 1
      let mem := DEREF_U32_set mem args_ptr carg_idx cur_ptr
      match toUint h 8 cur_arg with
      | .ok v => .ok cur_ptr (DEREF_U8_set mem cur_ptr 0 v)
      | .error e => .throw e mem
    else if id = FFI_TYPE_UINT16 ∨ id = FFI_TYPE_SINT16 then
      let cur_ptr := STACK_ALLOC cur_ptr 2 2
      let mem := DEREF_U32_set mem args_ptr carg_idx cur_ptr
      match toUint h 16 cur_arg with
      | .ok v => .ok cur_ptr (DEREF_U16_set mem cur_ptr 0 v)
      | .error e => .throw e mem
    else if id = FFI_TYPE_INT ∨ id = FFI_TYPE_UINT32 ∨ id = FFI_TYPE_SINT32 ∨
        id = FFI_TYPE_POINTER then
      let cur_ptr := STACK_ALLOC cur_ptr 4 4
      let mem := DEREF_U32_set mem args_ptr carg_idx cur_ptr
      match toUint h 32 cur_arg with
      | .ok v => .ok cur_ptr (DEREF_U32_set mem cur_ptr 0 v)
      | .error e => .throw e mem
    else if id = FFI_TYPE_STRUCT then
      match toUint h 32 cur_arg with
      | .ok v => .ok cur_ptr (DEREF_U32_set mem args_ptr carg_idx v)
      | .error e => .throw e mem
    else if id = FFI_TYPE_FLOAT then
      let cur_ptr := STACK_ALLOC cur_ptr 4 4
      let mem := DEREF_U32_set mem args_ptr carg_idx cur_ptr
      match toF32Bits h cur_arg with
      | .ok v => .ok cur_ptr (DEREF_F32_set mem cur_ptr 0 v)
      | .error e => .throw e mem
    else if id = FFI_TYPE_DOUBLE then
      let cur_ptr := STACK_ALLOC cur_ptr 8 8
      let mem := DEREF_U32_set mem args_ptr carg_idx cur_ptr
      match toF64Bits h cur_arg with
      | .ok v => .ok cur_ptr (DEREF_F64_set mem cur_ptr 0 v)
      | .error e => .throw e mem
    else if id = FFI_TYPE_UINT64 ∨ id = FFI_TYPE_SINT64 then
      let cur_ptr := STACK_ALLOC cur_ptr 8 8
      let mem := DEREF_U32_set mem args_ptr carg_idx cur_ptr
      match STORE_U64 h mem cur_ptr 0 cur_arg with
      | .ok mem1 => .ok cur_ptr mem1
      | .error e => .throw e mem
    else if id = FFI_TYPE_LONGDOUBLE then
      let cur_ptr := STACK_ALLOC cur_ptr 16 16
      let mem := DEREF_U32_set mem args_ptr carg_idx cur_ptr
      match STORE_U64 h mem cur_ptr 0 cur_arg with
      | .error e => .throw e mem
      | .ok mem1 =>
        match STORE_U64 h mem1 cur_ptr 1 next_arg with
        | .ok mem2 => .ok cur_ptr mem2
        | .error e => .throw e mem1
    else
      .ok cur_ptr mem

/-- The loop `while (jsarg_idx < args.length)` of `trampoline` over the incoming
values not yet read; `carg_idx` is the index of the argument the next value
belongs to.  The extended-float case reads two values. -/
def trampoline_args (h : Host) (unboxed_arg_type_id_list : List Nat) (args_ptr : Nat) :
    List JSVal → Nat → Nat → Mem → Res Mem Nat
  | [], _, cur_ptr, mem => .ok cur_ptr mem
  | cur_arg :: rest, carg_idx, cur_ptr, mem =>
    match trampoline_arg h mem (unboxed_arg_type_id_list.get? carg_idx) args_ptr carg_idx cur_ptr
        cur_arg (rest.headD .undefined) with
    | .outOfFuel => .outOfFuel
    | .throw e mem1 => .throw e mem1
    | .ok cur_ptr1 mem1 =>
      if unboxed_arg_type_id_list.get? carg_idx = some FFI_TYPE_LONGDOUBLE then
        match rest with
        | [] => .ok cur_ptr1 mem1
        | _ :: rest1 =>
          trampoline_args h unboxed_arg_type_id_list args_ptr rest1 (carg_idx + 1) cur_ptr1 mem1
      else
        trampoline_args h unboxed_arg_type_id_list args_ptr rest (carg_idx + 1) cur_ptr1 mem1

/-- The loop `for (var carg_idx = nfixedargs; carg_idx < nargs; carg_idx++)` of
`trampoline`, with `n` iterations left: one entry of the argument pointer array
per variadic argument, and `varargs += 4`. -/
def trampoline_varargs (unboxed_arg_type_id_list : List Nat) (args_ptr : Nat) :
    Nat → Nat → Nat → Mem → Mem
  | 0, _, _, mem => mem
  | n + 1, carg_idx, varargs, mem =>
    let mem1 :=
      if unboxed_arg_type_id_list.get? carg_idx = some FFI_TYPE_STRUCT then
        DEREF_U32_set mem args_ptr carg_idx (DEREF_U32 mem varargs 0)
      else
        DEREF_U32_set mem args_ptr carg_idx varargs
    trampoline_varargs unboxed_arg_type_id_list args_ptr n (carg_idx + 1) (varargs + 4) mem1

/-- The final `switch (sig[0])` of `trampoline`: the value handed back to the
host caller, read from the return buffer. -/
def trampoline_result (h : Host) (mem : Mem) (sig : List Char) (ret_ptr : Nat) : JSVal :=
  match sig.head? with
  | some 'i' => .num (DEREF_U32 mem ret_ptr 0)
  | some 'j' => LOAD_U64 h mem ret_ptr 0
  | some 'd' => .f64 (DEREF_F64 mem ret_ptr 0)
  | some 'f' => .f32 (DEREF_F32 mem ret_ptr 0)
  | _ => .undefined

/-- The marshalling part of `trampoline`, up to and including
`stackRestore(cur_ptr)`: the state in which the user handler is called, together
with `ret_ptr` as a call value, `ret_ptr` as an address (meaningful when not
`ret_by_arg`) and `args_ptr`. -/
def trampoline_marshal (h : Host) (t : Tramp) (args : List JSVal) (s : State) :
    Res State (JSVal × Nat × Nat) :=
  let orig_stack_ptr := s.sp
  let ret_addr := if t.ret_by_arg then orig_stack_ptr else STACK_ALLOC orig_stack_ptr 8 8
  let ret_ptr : JSVal := if t.ret_by_arg then args.headD .undefined else .num ret_addr
  let jsarg_idx := if t.ret_by_arg then 1 else 0
  let cur_ptr := ret_addr - 4 * t.nargs
  let args_ptr := cur_ptr
  let varargs := if t.nfixedargs < t.nargs then asAddr (args.getLast?.getD .undefined) else 0
  let args1 := if t.nfixedargs < t.nargs then args.dropLast else args
  match trampoline_args h t.unboxed_arg_type_id_list args_ptr (args1.drop jsarg_idx) 0
      cur_ptr s.mem with
  | .outOfFuel => .outOfFuel
  | .throw e mem1 => .throw e { s with mem := mem1 }
  | .ok cur_ptr1 mem1 =>
    let mem2 := trampoline_varargs t.unboxed_arg_type_id_list args_ptr
      (t.nargs - t.nfixedargs) t.nfixedargs varargs mem1
    .ok (ret_ptr, ret_addr, args_ptr) { s with mem := mem2, sp := cur_ptr1 }

/-- The function `trampoline` generated by `ffi_prep_closure_loc_helper`, with
its captured variables `t`, invoked with the call values `args`. -/
def trampoline (h : Host) (t : Tramp) (args : List JSVal) (s : State) : Res State JSVal :=
  let orig_stack_ptr := s.sp
  match trampoline_marshal h t args s with
  | .outOfFuel => .outOfFuel
  | .throw e s1 => .throw e s1
  | .ok (ret_ptr, ret_addr, args_ptr) s1 =>
    let func := CLOSURE__fun s1.mem t.closure
    let cargs : List JSVal := [.num (CLOSURE__cif s1.mem t.closure), ret_ptr, .num args_ptr,
      .num (CLOSURE__user_data s1.mem t.closure)]
    let r := h.callee func cargs s1.mem s1.sp
    let s2 : State := { s1 with mem := r.2.1, sp := orig_stack_ptr,
                                calls := s1.calls ++ [⟨func, cargs, s1.mem, s1.sp⟩] }
    if t.ret_by_arg then
      .ok .undefined s2
    else
      .ok (trampoline_result h s2.mem t.sig ret_addr) s2

/-- The state a result carries, when it carries one. -/
def Res.state? {σ α : Type} : Res σ α → Option σ
  | .ok _ s => some s
  | .throw _ s => some s
  | .outOfFuel => none

/-- The value of a normal completion. -/
def Res.value? {σ α : Type} : Res σ α → Option α
  | .ok v _ => some v
  | _ => none

/-- The error of a `throw`. -/
def Res.error? {σ α : Type} : Res σ α → Option Err
  | .throw e _ => some e
  | _ => none

/-- The eight bytes at `addr`, little-endian: what compiled C reads through a
pointer to an 8-byte scalar (no rounding of the address). -/
def load64 (mem : Mem) (addr : Nat) : Nat :=
  HEAPU8 mem addr + 256 * HEAPU8 mem (addr + 1) + 65536 * HEAPU8 mem (addr + 2)
    + 16777216 * HEAPU8 mem (addr + 3) + 4294967296 * HEAPU8 mem (addr + 4)
    + 1099511627776 * HEAPU8 mem (addr + 5) + 281474976710656 * HEAPU8 mem (addr + 6)
    + 72057594037927936 * HEAPU8 mem (addr + 7)

/-- The four bytes at `addr`, little-endian, with no rounding of the address. -/
def load32 (mem : Mem) (addr : Nat) : Nat :=
  HEAPU8 mem addr + 256 * HEAPU8 mem (addr + 1) + 65536 * HEAPU8 mem (addr + 2)
    + 16777216 * HEAPU8 mem (addr + 3)

/-- A memory given by a finite list of (address, byte) cells, zero elsewhere. -/
def memOfList : List (Nat × Nat) → Mem
  | [] => fun _ => 0
  | (a, v) :: rest => fun x => if x = a then v else memOfList rest x

/-- The cells of a 32-bit word `v` at address `a`. -/
def word32 (a v : Nat) : List (Nat × Nat) :=
  [(a, v % 256), (a + 1, v / 256 % 256), (a + 2, v / 65536 % 256), (a + 3, v / 16777216 % 256)]

/-- The cells of a type descriptor at `a`: size, alignment, kind tag, elements pointer. -/
def typeCells (a size align typeid elements : Nat) : List (Nat × Nat) :=
  word32 a size ++ [(a + 4, align % 256), (a + 5, align / 256 % 256),
    (a + 6, typeid % 256), (a + 7, typeid / 256 % 256)] ++ word32 (a + 8) elements


/-! ## Call interface preparation and closure lifecycle -/

/-- The C struct `ffi_cif`, by the fields that the sources read and write: `abi`,
`nargs`, `arg_types`, `rtype` and `nfixedargs` (the macros `CIF__*`, words 0 to 3
and 6) and `flags` (`cif->flags`); `bytes` stands for the word between them.  The
fields are in the order of the word offsets. -/
structure ffi_cif where
  abi : Nat
  nargs : Nat
  arg_types : Nat
  rtype : Nat
  bytes : Nat
  flags : Nat
  nfixedargs : Nat
  deriving DecidableEq, Repr

/-- Constant `VARARGS_FLAG`. -/
abbrev VARARGS_FLAG : Nat := 1

/-- Function `ffi_prep_cif_machdep(cif)`: the status and the CIF it leaves. -/
def ffi_prep_cif_machdep (cif : ffi_cif) : ffi_status × ffi_cif :=
  if cif.flags &&& VARARGS_FLAG = 0 then
    (.FFI_OK, { cif with nfixedargs := cif.nargs })
  else
    (.FFI_OK, cif)

/-- Function `ffi_prep_cif_machdep_var(cif, nfixedargs, ntotalargs)`: the status
and the CIF it leaves. -/
def ffi_prep_cif_machdep_var (cif : ffi_cif) (nfixedargs _ntotalargs : Nat) :
    ffi_status × ffi_cif :=
  (.FFI_OK, { cif with flags := cif.flags ||| VARARGS_FLAG, nfixedargs := nfixedargs })

/-- The raw memory allocator of the environment, `_malloc(size)` and
`_free(ptr)`, taken as a parameter: the block address and what the calls do to
linear memory are left open. -/
structure Allocator where
  malloc : Nat → Mem → Nat × Mem
  free : Nat → Mem → Mem

/-- Modelled from the spec: `getEmptyTableSlot` is a function of the host runtime,
not among the sources.  The spec has it reserve one free call-table slot, growing
the pool if necessary, and has a freed slot reused by the next allocation: an
index is taken off the end of `freeTableIndexes` (where a free pushes it) when
there is one, and otherwise the table grows by one entry and the new last index
is returned. -/
def getEmptyTableSlot (s : State) : Nat × State :=
  match s.freeTableIndexes.getLast? with
  | some index => (index, { s with freeTableIndexes := s.freeTableIndexes.dropLast })
  | none => (s.tableLength, { s with tableLength := s.tableLength + 1 })

/-- Function `ffi_closure_alloc_helper(size, code)`: the block it returns and the
state it leaves. -/
def ffi_closure_alloc_helper (al : Allocator) (size code : Nat) (s : State) : Nat × State :=
  let m := al.malloc size s.mem
  let closure := m.1
  let r := getEmptyTableSlot { s with mem := m.2 }
  let index := r.1
  let mem1 := DEREF_U32_set r.2.mem code 0 index
  let mem2 := DEREF_U32_set mem1 closure 0 index
  (closure, { r.2 with mem := mem2 })

/-- Function `ffi_closure_alloc(size, code)`. -/
def ffi_closure_alloc (al : Allocator) (size code : Nat) (s : State) : Nat × State :=
  ffi_closure_alloc_helper al size code s

/-- Function `ffi_closure_free_helper(closure)`. -/
def ffi_closure_free_helper (al : Allocator) (closure : Nat) (s : State) : State :=
  let index := CLOSURE__wrapper s.mem closure
  let s1 : State := { s with freeTableIndexes := s.freeTableIndexes ++ [index] }
  { s1 with mem := al.free closure s1.mem }

/-- Function `ffi_closure_free(closure)`. -/
def ffi_closure_free (al : Allocator) (closure : Nat) (s : State) : State :=
  ffi_closure_free_helper al closure s

/-! ## Vocabulary of the statements -/

/-- The 32-bit integer kinds. -/
def Is32BitInt (id : Nat) : Prop :=
  id = FFI_TYPE_INT ∨ id = FFI_TYPE_UINT32 ∨ id = FFI_TYPE_SINT32

/-- Width in bits of an integer scalar kind. -/
def intKindBits (k : Nat) : Option Nat :=
  if k = FFI_TYPE_UINT8 ∨ k = FFI_TYPE_SINT8 then some 8
  else if k = FFI_TYPE_UINT16 ∨ k = FFI_TYPE_SINT16 then some 16
  else if k = FFI_TYPE_INT ∨ k = FFI_TYPE_UINT32 ∨ k = FFI_TYPE_SINT32 then some 32
  else if k = FFI_TYPE_UINT64 ∨ k = FFI_TYPE_SINT64 then some 64
  else none

/-- The buffer at `addr` holds the `size` low bytes of `n`, little-endian. -/
def holdsLE (mem : Mem) (addr size n : Nat) : Prop :=
  ∀ j, j < size → HEAPU8 mem (addr + j) = n / 256 ^ j % 256

/-- The call value of an integer: a Number up to 32 bits, a BigInt for 64. -/
def intCallValue (w : Nat) (v : Int) : JSVal := if w = 64 then .big v else .num v

/-- Size and alignment of the slot of a variadic argument, by resolved kind, after
the table of the specification: 1/1, 2/2, 4/4 for the 32-bit scalars and single
floats, 8/8 for the 64-bit scalars and doubles, 16/16 for the extended float, 4/4
for an aggregate passed by pointer. -/
def varargSlot (k : Nat) : Option (Nat × Nat) :=
  if k = FFI_TYPE_UINT8 ∨ k = FFI_TYPE_SINT8 then some (1, 1)
  else if k = FFI_TYPE_UINT16 ∨ k = FFI_TYPE_SINT16 then some (2, 2)
  else if k = FFI_TYPE_INT ∨ k = FFI_TYPE_UINT32 ∨ k = FFI_TYPE_SINT32 ∨ k = FFI_TYPE_POINTER ∨
      k = FFI_TYPE_FLOAT then some (4, 4)
  else if k = FFI_TYPE_DOUBLE ∨ k = FFI_TYPE_UINT64 ∨ k = FFI_TYPE_SINT64 then some (8, 8)
  else if k = FFI_TYPE_LONGDOUBLE then some (16, 16)
  else if k = FFI_TYPE_STRUCT then some (4, 4)
  else none

/-- The slots that the variadic loop of `ffi_call` assigns, in the order in which
it processes the arguments: for each iteration the argument index, its resolved
kind and the value of `varargs_addr` after `STACK_ALLOC`.  It follows the
recursion of `ffi_call_varargs`. -/
def ffi_call_varargs_slots (fuel : Nat) (avalue arg_types_ptr nfixedargs : Nat) :
    Nat → Nat → Mem → List (Nat × Nat × Nat)
  | 0, _, _ => []
  | n + 1, varargs_addr, mem =>
    let i := nfixedargs + n
    let arg_ptr := DEREF_U32 mem avalue i
    match unbox_small_structs mem fuel (DEREF_U32 mem arg_types_ptr i) with
    | none => []
    | some (_, arg_type_id) =>
      match ffi_call_vararg mem arg_type_id arg_ptr varargs_addr with
      | .ok (va, mem1) =>
        (i, arg_type_id, va) ::
          ffi_call_varargs_slots fuel avalue arg_types_ptr nfixedargs n va mem1
      | .error _ => []

/-- A list of slots (index, kind, address) in processing order lies below `upper`
and descends: every slot is aligned for its kind and ends at or below the slot
processed before it (the first one at or below `upper`). -/
def SlotsDescend : List (Nat × Nat × Nat) → Nat → Prop
  | [], _ => True
  | (_, k, addr) :: rest, upper =>
    (∃ sz al, varargSlot k = some (sz, al) ∧ addr % al = 0 ∧ addr + sz ≤ upper) ∧
      SlotsDescend rest addr

/-- A kind tag that is complex or not one of the known kinds. -/
def BadKind (k : Nat) : Prop := k = FFI_TYPE_COMPLEX ∨ k > FFI_TYPE_LAST

/-- Size, equal to the natural alignment, of the stack slot of a fixed argument of
a non-aggregate kind, after the specification: 1, 2, 4 (32-bit scalars, pointers
and single floats), 8 (64-bit scalars and doubles), 16 (the extended float). -/
def specSlotSize (k : Nat) : Option Nat :=
  if k = FFI_TYPE_UINT8 ∨ k = FFI_TYPE_SINT8 then some 1
  else if k = FFI_TYPE_UINT16 ∨ k = FFI_TYPE_SINT16 then some 2
  else if k = FFI_TYPE_INT ∨ k = FFI_TYPE_UINT32 ∨ k = FFI_TYPE_SINT32 ∨ k = FFI_TYPE_POINTER ∨
      k = FFI_TYPE_FLOAT then some 4
  else if k = FFI_TYPE_DOUBLE ∨ k = FFI_TYPE_UINT64 ∨ k = FFI_TYPE_SINT64 then some 8
  else if k = FFI_TYPE_LONGDOUBLE then some 16
  else none

/-- The low bytes of an incoming Number read as an integer modulo `m`; `none` for
a value of another class. -/
def specNumLayout (m : Int) : JSVal → Option Nat
  | .num x => some (x % m).toNat
  | _ => none

/-- The bit pattern of an incoming single float; `none` for a value of another class. -/
def specF32Layout : JSVal → Option Nat
  | .f32 b => some b
  | _ => none

/-- The bit pattern of an incoming double; `none` for a value of another class. -/
def specF64Layout : JSVal → Option Nat
  | .f64 b => some b
  | _ => none

/-- The 64 bits of an incoming 64-bit integer; `none` for a value of another class. -/
def specBigLayout : JSVal → Option Nat
  | .big x => some (x % 18446744073709551616).toNat
  | _ => none

/-- The number whose little-endian bytes are the binary layout of kind `k` for the
incoming value `v` (and `w`, the value after it, for the extended float: `v` at
offset 0 and `w` at offset 8); `none` when the class of the value is not the one
the kind is passed in. -/
def specArgLayout (k : Nat) (v w : JSVal) : Option Nat :=
  if k = FFI_TYPE_UINT8 ∨ k = FFI_TYPE_SINT8 then specNumLayout 256 v
  else if k = FFI_TYPE_UINT16 ∨ k = FFI_TYPE_SINT16 then specNumLayout 65536 v
  else if k = FFI_TYPE_INT ∨ k = FFI_TYPE_UINT32 ∨ k = FFI_TYPE_SINT32 ∨
      k = FFI_TYPE_POINTER then specNumLayout 4294967296 v
  else if k = FFI_TYPE_FLOAT then specF32Layout v
  else if k = FFI_TYPE_DOUBLE then specF64Layout v
  else if k = FFI_TYPE_UINT64 ∨ k = FFI_TYPE_SINT64 then specBigLayout v
  else if k = FFI_TYPE_LONGDOUBLE then
    (specBigLayout v).bind fun x => (specBigLayout w).map fun y => x + 18446744073709551616 * y
  else none

/-- The incoming values of the fixed arguments, grouped by argument: the argument
index, its value, and the value after it, which is the second half of an extended
float (the one kind that consumes two values). -/
def fixedArgValues (ids : List Nat) : List JSVal → Nat → List (Nat × JSVal × JSVal)
  | [], _ => []
  | v :: rest, c =>
    (c, v, rest.headD .undefined) ::
      (if ids.get? c = some FFI_TYPE_LONGDOUBLE then
        match rest with
        | [] => []
        | _ :: rest1 => fixedArgValues ids rest1 (c + 1)
      else fixedArgValues ids rest (c + 1))

/-- Layout of the fixed arguments `l` in `mem`, the argument pointer array being at
`A`: the entry of an aggregate is the incoming address; the entry of every other
kind with a slot is the address of that slot, which is aligned to its size, lies
in `[lower, upper)`, holds the incoming value in the layout of the kind, and has
the slots of the later arguments below it. -/
def ArgsLaidOut (ids : List Nat) (mem : Mem) (A lower : Nat) :
    List (Nat × JSVal × JSVal) → Nat → Prop
  | [], upper => lower ≤ upper
  | (c, v, w) :: rest, upper =>
    match ids.get? c with
    | none => ArgsLaidOut ids mem A lower rest upper
    | some k =>
      if k = FFI_TYPE_STRUCT then
        (∀ a : Nat, v = .num a → a < 4294967296 → DEREF_U32 mem A c = a) ∧
          ArgsLaidOut ids mem A lower rest upper
      else
        match specSlotSize k with
        | none => ArgsLaidOut ids mem A lower rest upper
        | some sz =>
          DEREF_U32 mem A c % sz = 0 ∧ lower ≤ DEREF_U32 mem A c ∧
          DEREF_U32 mem A c + sz ≤ upper ∧
          (∀ n, specArgLayout k v w = some n → holdsLE mem (DEREF_U32 mem A c) sz n) ∧
          ArgsLaidOut ids mem A lower rest (DEREF_U32 mem A c)

/-- The values left to the loop after one argument: an extended float takes two. -/
def restAfter (ids : List Nat) (c : Nat) (rest : List JSVal) : List JSVal :=
  if ids.get? c = some FFI_TYPE_LONGDOUBLE then rest.tail else rest

/-- The signature character of the class of a call value: `i` for a Number that
stands for an integer or an address, `f` for a single float, `d` for a double,
`j` for a 64-bit integer; `undefined` has none. -/
def valueClass : JSVal → Option Char
  | .num _ => some 'i'
  | .f32 _ => some 'f'
  | .f64 _ => some 'd'
  | .big _ => some 'j'
  | .undefined => none

/-! ## Concrete inputs -/

/-- The cells of a call interface at `a`: abi, nargs, arg_types, rtype, nfixedargs. -/
def cifCells (a abi nargs arg_types rtype nfixedargs : Nat) : List (Nat × Nat) :=
  word32 a abi ++ word32 (a + 4) nargs ++ word32 (a + 8) arg_types ++ word32 (a + 12) rtype ++
    word32 (a + 24) nfixedargs

/-- The cells of a 64-bit value `v` at address `a`. -/
def word64 (a v : Nat) : List (Nat × Nat) :=
  word32 a (v % 4294967296) ++ word32 (a + 4) (v / 4294967296)

/-- A state with the given memory and stack pointer, an empty call table of
length 0 and no host call made. -/
def stateOf (mem : Mem) (sp : Nat) : State := ⟨mem, sp, fun _ => none, [], [], 0⟩

/-- A host without `WASM_BIGINT` whose callees add their two Number arguments
and touch neither memory nor stack pointer; any other call returns `undefined`. -/
def addHost : Host where
  WASM_BIGINT := false
  callee := fun _ args mem sp =>
    match args with
    | [.num a, .num b] => (.num (a + b), mem, sp)
    | _ => (.undefined, mem, sp)
  toInteger := fun _ => 0
  toF32 := fun _ => 0
  toF64 := fun _ => 0

/-- Memory of the scenario "add two ints": a CIF at 16 with two fixed signed
32-bit arguments and a signed 32-bit return (descriptor at 96), the argument
pointer array at 128 with buffers at 144 (holding 3) and 148 (holding 4). -/
def addMem : Mem := memOfList (
  cifCells 16 FFI_WASM32_EMSCRIPTEN 2 64 96 2 ++ word32 64 96 ++ word32 68 96 ++
  typeCells 96 4 4 FFI_TYPE_SINT32 0 ++
  word32 128 144 ++ word32 132 148 ++ word32 144 3 ++ word32 148 4)

/-- Memory of the scenario "aggregate return": a CIF at 16 returning the
two-member aggregate at 400 (members: the double at 96, twice), with one fixed
double argument whose buffer at 144 holds the bit pattern of 2.5. -/
def structRetMem : Mem := memOfList (
  cifCells 16 FFI_WASM32_EMSCRIPTEN 1 64 400 1 ++ word32 64 96 ++
  typeCells 96 8 8 FFI_TYPE_DOUBLE 0 ++
  typeCells 400 16 8 FFI_TYPE_STRUCT 228 ++ word32 228 96 ++ word32 232 96 ++ word32 236 0 ++
  word32 128 144 ++ word64 144 4612811918334230528)

/-- Memory of the scenario "negative argument": a CIF at 16 with one fixed signed
32-bit argument whose buffer at 144 holds -1 in two's complement. -/
def negMem : Mem := memOfList (
  cifCells 16 FFI_WASM32_EMSCRIPTEN 1 64 96 1 ++ word32 64 96 ++
  typeCells 96 4 4 FFI_TYPE_SINT32 0 ++
  word32 128 144 ++ word32 144 4294967295)

/-- Memory of the scenario "negative signed 8-bit argument": a CIF at 16 with one
fixed signed 8-bit argument (descriptor at 96) whose buffer at 144 holds -1 in
the binary layout of the kind, the byte 255. -/
def neg8Mem : Mem := memOfList (
  cifCells 16 FFI_WASM32_EMSCRIPTEN 1 64 96 1 ++ word32 64 96 ++
  typeCells 96 1 1 FFI_TYPE_SINT8 0 ++
  word32 128 144 ++ [(144, 255)])

/-- The last host call recorded in the state of a result. -/
def Res.lastCall? {α : Type} (r : Res State α) : Option CallRecord :=
  r.state?.bind (fun s => s.calls.getLast?)

/-- Bind a closure for `cif` at table slot `codeloc`, then invoke its trampoline
with the call values `args`: the host call the trampoline makes to the user
handler. -/
def closureHandlerCall (h : Host) (fuel closure cif fn user_data codeloc : Nat)
    (args : List JSVal) (s : State) : Option CallRecord :=
  match ffi_prep_closure_loc fuel closure cif fn user_data codeloc s with
  | .ok _ s1 =>
    match s1.table codeloc with
    | some t => (trampoline h t args s1).lastCall?
    | none => none
  | _ => none

/-- Bind a closure for `cif` at table slot `codeloc`, run `ffi_call` on the same
`cif` with that slot as callee, and enter the closure's trampoline with the
argument list, memory and stack pointer of the host call that `ffi_call` made:
the host call the trampoline makes to the user handler. -/
def roundTripHandlerCall (h : Host) (fuel closure cif fn user_data codeloc rvalue avalue : Nat)
    (s : State) : Option CallRecord :=
  match ffi_prep_closure_loc fuel closure cif fn user_data codeloc s with
  | .ok _ s1 =>
    match s1.table codeloc, (ffi_call h fuel cif codeloc rvalue avalue s1).lastCall? with
    | some t, some c => (trampoline h t c.args { s1 with mem := c.mem, sp := c.sp }).lastCall?
    | _, _ => none
  | _ => none

/-- Memory of the scenario "variadic round trip": a CIF at 16 with one fixed
signed 32-bit argument and two variadic ones, a signed 64-bit (descriptor at 108)
and a signed 32-bit (descriptor at 96); buffers at 144 (1), 152 (the 64-bit value
with low word 10 and high word 11) and 160 (7). -/
def variadicMem : Mem := memOfList (
  cifCells 16 FFI_WASM32_EMSCRIPTEN 3 64 96 1 ++ word32 64 96 ++ word32 68 108 ++ word32 72 96 ++
  typeCells 96 4 4 FFI_TYPE_SINT32 0 ++ typeCells 108 8 8 FFI_TYPE_SINT64 0 ++
  word32 128 144 ++ word32 132 152 ++ word32 136 160 ++
  word32 144 1 ++ word64 152 47244640266 ++ word32 160 7)

/-- Memory of the scenario "closure with two variadic doubles": a CIF at 16 with
one fixed signed 32-bit argument (descriptor at 96) and two variadic doubles
(descriptor at 108), and at 2048 a variadic block holding the bit patterns of 2.5
and 3.5 in two consecutive 8-byte slots. -/
def doublesMem : Mem := memOfList (
  cifCells 16 FFI_WASM32_EMSCRIPTEN 3 64 96 1 ++ word32 64 96 ++ word32 68 108 ++ word32 72 108 ++
  typeCells 96 4 4 FFI_TYPE_SINT32 0 ++ typeCells 108 8 8 FFI_TYPE_DOUBLE 0 ++
  word64 2048 4612811918334230528 ++ word64 2056 4615063718147915776)

/-- Memory of the scenario "variadic long double": a CIF at 16 with one fixed
signed 32-bit argument (descriptor at 96) and one variadic extended float
(descriptor at 112); buffers at 144 (1) and 160 (the four words 1, 2, 3, 4). -/
def longDoubleMem : Mem := memOfList (
  cifCells 16 FFI_WASM32_EMSCRIPTEN 2 64 96 1 ++ word32 64 96 ++ word32 68 112 ++
  typeCells 96 4 4 FFI_TYPE_SINT32 0 ++ typeCells 112 16 16 FFI_TYPE_LONGDOUBLE 0 ++
  word32 128 144 ++ word32 132 160 ++
  word32 144 1 ++ word32 160 1 ++ word32 164 2 ++ word32 168 3 ++ word32 172 4)

/-- Memory of the scenario "wrong ABI": the CIF of `addMem` with the abi tag 1. -/
def badAbiMem : Mem := memOfList (
  cifCells 16 1 2 64 96 2 ++ word32 64 96 ++ word32 68 96 ++
  typeCells 96 4 4 FFI_TYPE_SINT32 0)

/-- A descriptor graph: at 100 an aggregate whose only member is the aggregate at
120, whose only member is the signed 32-bit scalar at 140; at 300 an aggregate
with no member; at 320 an aggregate wrapping it; at 400 an aggregate with the two
members 140 and 140. -/
def typesMem : Mem := memOfList (
  typeCells 100 4 4 FFI_TYPE_STRUCT 200 ++ word32 200 120 ++ word32 204 0 ++
  typeCells 120 4 4 FFI_TYPE_STRUCT 208 ++ word32 208 140 ++ word32 212 0 ++
  typeCells 140 4 4 FFI_TYPE_SINT32 0 ++
  typeCells 300 0 1 FFI_TYPE_STRUCT 216 ++ word32 216 0 ++
  typeCells 320 0 1 FFI_TYPE_STRUCT 220 ++ word32 220 300 ++ word32 224 0 ++
  typeCells 400 8 4 FFI_TYPE_STRUCT 228 ++ word32 228 140 ++ word32 232 140 ++ word32 236 0)

/-- The state a result carries, `d` when it carries none. -/
def Res.stateD {σ α : Type} (r : Res σ α) (d : σ) : σ :=
  match r with
  | .ok _ s => s
  | .throw _ s => s
  | .outOfFuel => d

/-- The host `addHost` built with `WASM_BIGINT`. -/
def bigintHost : Host := { addHost with WASM_BIGINT := true }

/-- A host without `WASM_BIGINT` whose user handler (a callee entered with the
four values cif, return buffer, argument pointer array, user data) stores 7 as a
32-bit word to the return buffer and leaves the stack pointer alone. -/
def storeHost : Host where
  WASM_BIGINT := false
  callee := fun _ args mem sp =>
    match args with
    | [_, .num r, _, _] => (.undefined, DEREF_U32_set mem r.toNat 0 7, sp)
    | _ => (.undefined, mem, sp)
  toInteger := fun _ => 0
  toF32 := fun _ => 0
  toF64 := fun _ => 0

/-- Memory of the scenario "complex variadic argument": a CIF at 16 with one fixed
signed 32-bit argument (descriptor at 96) and one variadic argument of the complex
kind (descriptor at 112); buffers at 144 and 160. -/
def complexVarMem : Mem := memOfList (
  cifCells 16 FFI_WASM32_EMSCRIPTEN 2 64 96 1 ++ word32 64 96 ++ word32 68 112 ++
  typeCells 96 4 4 FFI_TYPE_SINT32 0 ++ typeCells 112 8 4 FFI_TYPE_COMPLEX 0 ++
  word32 128 144 ++ word32 132 160 ++ word32 144 1)

/-- An allocator that hands out the block at 512 and whose `free` leaves memory as
it is. -/
def fixedAllocator : Allocator where
  malloc := fun _ mem => (512, mem)
  free := fun _ mem => mem

/-- A state whose slot pool holds the free index 3, with a call table of length 7. -/
def poolState : State :=
  { stateOf (memOfList []) 4096 with freeTableIndexes := [3], tableLength := 7 }

/-- The captured variables of the trampoline of a closure at 300 for
`(int, int) -> int`. -/
def addTramp : Tramp := ⟨['i', 'i', 'i'], false, 2, 2, [FFI_TYPE_SINT32, FFI_TYPE_SINT32], 300⟩

/-- The captured variables of the trampoline of a closure at 300 for
`(int, double, long double) -> int`. -/
def mixedTramp : Tramp :=
  ⟨['i', 'i', 'd', 'j', 'j'], false, 3, 3,
    [FFI_TYPE_SINT32, FFI_TYPE_DOUBLE, FFI_TYPE_LONGDOUBLE], 300⟩

/-- The captured variables of the trampoline of a closure at 300 for
`(int, ...) -> int` called with two variadic doubles. -/
def doublesTramp : Tramp :=
  ⟨['i', 'i', 'i'], false, 3, 1, [FFI_TYPE_SINT32, FFI_TYPE_DOUBLE, FFI_TYPE_DOUBLE], 300⟩

/-! # Theorems -/

theorem unbox_loop_nonstruct (mem : Mem) (fuel t id : Nat) (h : id ≠ FFI_TYPE_STRUCT) :
    unbox_loop mem fuel t id = some (t, id) := by
  unfold unbox_loop
  simp [h]

theorem unbox_loop_succ (mem : Mem) (fuel t : Nat) :
    unbox_loop mem (fuel + 1) t FFI_TYPE_STRUCT =
      if DEREF_U32 mem (FFI_TYPE__ELEMENTS mem t) 0 = 0 then some (t, FFI_TYPE_VOID)
      else if DEREF_U32 mem (FFI_TYPE__ELEMENTS mem t) 1 = 0 then
        unbox_small_structs mem fuel (DEREF_U32 mem (FFI_TYPE__ELEMENTS mem t) 0)
      else some (t, FFI_TYPE_STRUCT) := by
  rw [unbox_loop]
  simp [unbox_small_structs]

theorem unbox_single_step (mem : Mem) (t m : Nat) (h : IsSingleMemberStruct mem t m) (fuel : Nat) :
    unbox_small_structs mem (fuel + 1) t = unbox_small_structs mem fuel m := by
  obtain ⟨hid, hm, hne, h2⟩ := h
  rw [unbox_small_structs, hid, unbox_loop_succ, hm, h2]
  simp [hne]

theorem unbox_loop_mono (mem : Mem) (k : Nat) :
    ∀ (fuel t id : Nat) (r : Nat × Nat), unbox_loop mem fuel t id = some r →
      unbox_loop mem (fuel + k) t id = some r := by
  intro fuel
  induction fuel with
  | zero =>
    intro t id r h
    by_cases hid : id = FFI_TYPE_STRUCT
    · subst hid
      rw [unbox_loop] at h
      simp at h
    · rw [unbox_loop_nonstruct mem _ t id hid] at h ⊢
      exact h
  | succ n ih =>
    intro t id r h
    by_cases hid : id = FFI_TYPE_STRUCT
    · subst hid
      have e : n + 1 + k = (n + k) + 1 := by omega
      rw [e, unbox_loop_succ]
      rw [unbox_loop_succ] at h
      by_cases h1 : DEREF_U32 mem (FFI_TYPE__ELEMENTS mem t) 0 = 0
      · rw [if_pos h1] at h ⊢; exact h
      · rw [if_neg h1] at h ⊢
        by_cases h2 : DEREF_U32 mem (FFI_TYPE__ELEMENTS mem t) 1 = 0
        · rw [if_pos h2] at h ⊢; exact ih _ _ _ h
        · rw [if_neg h2] at h ⊢; exact h
    · rw [unbox_loop_nonstruct mem _ t id hid] at h ⊢
      exact h

theorem unbox_mono (mem : Mem) (fuel k t : Nat) (r : Nat × Nat)
    (h : unbox_small_structs mem fuel t = some r) :
    unbox_small_structs mem (fuel + k) t = some r :=
  unbox_loop_mono mem k fuel t _ r h

theorem unbox_wraps (mem : Mem) : ∀ (n t m : Nat), Wraps mem n t m → ∀ fuel,
    unbox_small_structs mem (fuel + n) t = unbox_small_structs mem fuel m := by
  intro n
  induction n with
  | zero => intro t m h fuel; simp [Wraps] at h; subst h; rfl
  | succ n ih =>
    intro t m h fuel
    obtain ⟨u, hu, hw⟩ := h
    have e : fuel + (n + 1) = (fuel + n) + 1 := by omega
    rw [e, unbox_single_step mem t u hu, ih u m hw]


theorem unbox_zero_struct (mem : Mem) (t : Nat) (h : FFI_TYPE__TYPEID mem t = FFI_TYPE_STRUCT) :
    unbox_small_structs mem 0 t = none := by
  rw [unbox_small_structs, h, unbox_loop]
  simp

theorem unbox_single_iff (mem : Mem) (t m : Nat) (h : IsSingleMemberStruct mem t m)
    (r : Nat × Nat) :
    (∃ fuel, unbox_small_structs mem fuel t = some r) ↔
      (∃ fuel, unbox_small_structs mem fuel m = some r) := by
  constructor
  · rintro ⟨fuel, hf⟩
    cases fuel with
    | zero => rw [unbox_zero_struct mem t h.1] at hf; cases hf
    | succ f => exact ⟨f, by rw [← unbox_single_step mem t m h f]; exact hf⟩
  · rintro ⟨fuel, hf⟩
    exact ⟨fuel + 1, by rw [unbox_single_step mem t m h fuel]; exact hf⟩

theorem unbox_wraps_iff (mem : Mem) : ∀ (n t m : Nat), Wraps mem n t m → ∀ r : Nat × Nat,
    ((∃ fuel, unbox_small_structs mem fuel t = some r) ↔
      (∃ fuel, unbox_small_structs mem fuel m = some r)) := by
  intro n
  induction n with
  | zero => intro t m h r; simp [Wraps] at h; subst h; rfl
  | succ n ih =>
    intro t m h r
    obtain ⟨u, hu, hw⟩ := h
    exact (unbox_single_iff mem t u hu r).trans (ih u m hw r)

theorem unbox_empty_step (mem : Mem) (t : Nat) (h : IsEmptyStruct mem t) (fuel : Nat) :
    unbox_small_structs mem (fuel + 1) t = some (t, FFI_TYPE_VOID) := by
  obtain ⟨hid, h0⟩ := h
  rw [unbox_small_structs, hid, unbox_loop_succ, if_pos h0]

theorem unbox_two_step (mem : Mem) (t : Nat) (h : HasTwoMembers mem t) (fuel : Nat) :
    unbox_small_structs mem (fuel + 1) t = some (t, FFI_TYPE_STRUCT) := by
  obtain ⟨hid, h0, h1⟩ := h
  rw [unbox_small_structs, hid, unbox_loop_succ, if_neg h0, if_neg h1]

theorem unbox_struct_two (mem : Mem) : ∀ (fuel t t' k : Nat),
    unbox_small_structs mem fuel t = some (t', k) → k = FFI_TYPE_STRUCT →
      HasTwoMembers mem t' := by
  intro fuel
  induction fuel with
  | zero =>
    intro t t' k h hk
    by_cases hid : FFI_TYPE__TYPEID mem t = FFI_TYPE_STRUCT
    · rw [unbox_zero_struct mem t hid] at h; cases h
    · rw [unbox_small_structs, unbox_loop_nonstruct mem _ t _ hid] at h
      simp only [Option.some.injEq, Prod.mk.injEq] at h
      exact absurd (h.2.trans hk) hid
  | succ n ih =>
    intro t t' k h hk
    by_cases hid : FFI_TYPE__TYPEID mem t = FFI_TYPE_STRUCT
    · rw [unbox_small_structs, hid, unbox_loop_succ] at h
      by_cases h1 : DEREF_U32 mem (FFI_TYPE__ELEMENTS mem t) 0 = 0
      · rw [if_pos h1] at h
        simp only [Option.some.injEq, Prod.mk.injEq] at h
        rw [← h.2] at hk; cases hk
      · rw [if_neg h1] at h
        by_cases h2 : DEREF_U32 mem (FFI_TYPE__ELEMENTS mem t) 1 = 0
        · rw [if_pos h2] at h; exact ih _ _ _ h hk
        · rw [if_neg h2] at h
          simp only [Option.some.injEq, Prod.mk.injEq] at h
          rw [← h.1]; exact ⟨hid, h1, h2⟩
    · rw [unbox_small_structs, unbox_loop_nonstruct mem _ t _ hid] at h
      simp only [Option.some.injEq, Prod.mk.injEq] at h
      exact absurd (h.2.trans hk) hid

theorem unbox_idem (mem : Mem) : ∀ (fuel t t' k : Nat),
    unbox_small_structs mem fuel t = some (t', k) →
      unbox_small_structs mem fuel t' = some (t', k) := by
  intro fuel
  induction fuel with
  | zero =>
    intro t t' k h
    by_cases hid : FFI_TYPE__TYPEID mem t = FFI_TYPE_STRUCT
    · rw [unbox_zero_struct mem t hid] at h; cases h
    · have h' := h
      rw [unbox_small_structs, unbox_loop_nonstruct mem _ t _ hid] at h'
      simp only [Option.some.injEq, Prod.mk.injEq] at h'
      rw [← h'.1]; rw [← h'.1] at h; exact h
  | succ n ih =>
    intro t t' k h
    have h' := h
    by_cases hid : FFI_TYPE__TYPEID mem t = FFI_TYPE_STRUCT
    · rw [unbox_small_structs, hid, unbox_loop_succ] at h'
      by_cases h1 : DEREF_U32 mem (FFI_TYPE__ELEMENTS mem t) 0 = 0
      · rw [if_pos h1] at h'
        simp only [Option.some.injEq, Prod.mk.injEq] at h'
        rw [← h'.1]; rw [← h'.1] at h; exact h
      · rw [if_neg h1] at h'
        by_cases h2 : DEREF_U32 mem (FFI_TYPE__ELEMENTS mem t) 1 = 0
        · rw [if_pos h2] at h'
          exact unbox_mono mem n 1 t' _ (ih _ _ _ h')
        · rw [if_neg h2] at h'
          simp only [Option.some.injEq, Prod.mk.injEq] at h'
          rw [← h'.1]; rw [← h'.1] at h; exact h
    · rw [unbox_small_structs, unbox_loop_nonstruct mem _ t _ hid] at h'
      simp only [Option.some.injEq, Prod.mk.injEq] at h'
      rw [← h'.1]; rw [← h'.1] at h; exact h

/-- C3: for an aggregate descriptor `t` whose member list is exactly `[m]`,
`unbox_small_structs(t)` returns the pair that `unbox_small_structs(m)` returns
(one more loop iteration, and `t` terminates with `r` exactly when `m` does);
through any number `n` of further single-member aggregates down to `inner`, the
result is the one of the innermost member. -/
theorem unbox_small_structs_single_member (mem : Mem) (t m : Nat)
    (h : IsSingleMemberStruct mem t m) :
    (∀ fuel, unbox_small_structs mem (fuel + 1) t = unbox_small_structs mem fuel m) ∧
    (∀ r, (∃ fuel, unbox_small_structs mem fuel t = some r) ↔
      (∃ fuel, unbox_small_structs mem fuel m = some r)) ∧
    (∀ n inner, Wraps mem n m inner →
      (∀ fuel, unbox_small_structs mem (fuel + (n + 1)) t =
        unbox_small_structs mem fuel inner) ∧
      (∀ r, (∃ fuel, unbox_small_structs mem fuel t = some r) ↔
        (∃ fuel, unbox_small_structs mem fuel inner = some r))) :=
  ⟨unbox_single_step mem t m h, unbox_single_iff mem t m h, fun n inner hw =>
    ⟨unbox_wraps mem (n + 1) t inner ⟨m, h, hw⟩,
     unbox_wraps_iff mem (n + 1) t inner ⟨m, h, hw⟩⟩⟩

/-- C4: for an aggregate descriptor `t` with an empty member list,
`unbox_small_structs(t)` returns `(t, FFI_TYPE_VOID)`; when the empty aggregate is
reached from `outer` through `n` single-member wrappers the pair returned for
`outer` is still `(t, FFI_TYPE_VOID)`, with the empty aggregate as descriptor, and
no amount of fuel gives another result. -/
theorem unbox_small_structs_empty (mem : Mem) (t : Nat) (h : IsEmptyStruct mem t) :
    (∀ fuel, unbox_small_structs mem (fuel + 1) t = some (t, FFI_TYPE_VOID)) ∧
    (∀ n outer, Wraps mem n outer t →
      (∀ fuel, unbox_small_structs mem (fuel + 1 + n) outer = some (t, FFI_TYPE_VOID)) ∧
      (∀ fuel r, unbox_small_structs mem fuel outer = some r → r = (t, FFI_TYPE_VOID))) := by
  refine ⟨unbox_empty_step mem t h, fun n outer hw => ⟨fun fuel => ?_, fun fuel r hr => ?_⟩⟩
  · rw [unbox_wraps mem n outer t hw]; exact unbox_empty_step mem t h fuel
  · have h1 := unbox_mono mem fuel (1 + n) outer r hr
    have e : fuel + (1 + n) = fuel + 1 + n := by omega
    rw [e, unbox_wraps mem n outer t hw, unbox_empty_step mem t h fuel] at h1
    exact (Option.some.inj h1).symm

/-- C5: a descriptor of a non-aggregate kind, and an aggregate with two or more
members, resolve to themselves with their own kind tag; and for every descriptor,
when the resolver returns `(t', k)` then `k = FFI_TYPE_STRUCT` implies that `t'`
has at least two members, and resolving `t'` again returns `(t', k)`. -/
theorem unbox_small_structs_effective (mem : Mem) (t : Nat) :
    (FFI_TYPE__TYPEID mem t ≠ FFI_TYPE_STRUCT →
      ∀ fuel, unbox_small_structs mem fuel t = some (t, FFI_TYPE__TYPEID mem t)) ∧
    (HasTwoMembers mem t →
      ∀ fuel, unbox_small_structs mem (fuel + 1) t = some (t, FFI_TYPE__TYPEID mem t)) ∧
    (∀ fuel t' k, unbox_small_structs mem fuel t = some (t', k) →
      (k = FFI_TYPE_STRUCT → HasTwoMembers mem t') ∧
      unbox_small_structs mem fuel t' = some (t', k)) := by
  refine ⟨fun hid fuel => unbox_loop_nonstruct mem fuel t _ hid, fun h2 fuel => ?_,
    fun fuel t' k h => ⟨unbox_struct_two mem fuel t t' k h, unbox_idem mem fuel t t' k h⟩⟩
  rw [h2.1]; exact unbox_two_step mem t h2 fuel


theorem unbox_small_structs_single_member_witness :
    unbox_small_structs typesMem 2 100 = unbox_small_structs typesMem 0 140 ∧
    unbox_small_structs typesMem 0 140 = some (140, FFI_TYPE_SINT32) :=
  ⟨((unbox_small_structs_single_member typesMem 100 120
      ⟨by decide, by decide, by decide, by decide⟩).2.2 1 140
      ⟨140, ⟨by decide, by decide, by decide, by decide⟩, rfl⟩).1 0, by decide⟩

theorem unbox_small_structs_empty_witness :
    unbox_small_structs typesMem 1 300 = some (300, FFI_TYPE_VOID) ∧
    unbox_small_structs typesMem 2 320 = some (300, FFI_TYPE_VOID) :=
  ⟨(unbox_small_structs_empty typesMem 300 ⟨by decide, by decide⟩).1 0,
   ((unbox_small_structs_empty typesMem 300 ⟨by decide, by decide⟩).2 1 320
      ⟨300, ⟨by decide, by decide, by decide, by decide⟩, rfl⟩).1 0⟩

theorem unbox_small_structs_effective_witness :
    unbox_small_structs typesMem 0 140 = some (140, FFI_TYPE_SINT32) ∧
    unbox_small_structs typesMem 1 400 = some (400, FFI_TYPE_STRUCT) ∧
    HasTwoMembers typesMem 400 ∧
    unbox_small_structs typesMem 2 120 = some (140, FFI_TYPE_SINT32) :=
  ⟨(unbox_small_structs_effective typesMem 140).1 (by decide) 0,
   (unbox_small_structs_effective typesMem 400).2.1 ⟨by decide, by decide, by decide⟩ 0,
   ((unbox_small_structs_effective typesMem 400).2.2 1 400 FFI_TYPE_STRUCT (by decide)).1 rfl,
   ((unbox_small_structs_effective typesMem 100).2.2 2 140 FFI_TYPE_SINT32 (by decide)).2⟩

theorem read8 (mem : Mem) (p n : Nat) (hv : holdsLE mem p 1 n) (hn : n < 256) :
    DEREF_U8 mem p 0 = n := by
  have h0 := hv 0 (by omega)
  simp at h0
  simp only [DEREF_U8, Nat.add_zero, h0]
  omega

theorem read16 (mem : Mem) (p n : Nat) (hv : holdsLE mem p 2 n) (hn : n < 65536)
    (hal : p % 2 = 0) : DEREF_U16 mem p 0 = n := by
  have h0 := hv 0 (by omega)
  have h1 := hv 1 (by omega)
  simp at h0 h1
  have e : 2 * (p / 2 + 0) = p := by omega
  simp only [DEREF_U16, HEAPU16, e, h0, h1]
  omega

theorem read32 (mem : Mem) (p n : Nat) (hv : holdsLE mem p 4 n) (hn : n < 4294967296)
    (hal : p % 4 = 0) : DEREF_U32 mem p 0 = n := by
  have h0 := hv 0 (by omega)
  have h1 := hv 1 (by omega)
  have h2 := hv 2 (by omega)
  have h3 := hv 3 (by omega)
  simp at h0 h1 h2 h3
  have e : 4 * (p / 4 + 0) = p := by omega
  simp only [DEREF_U32, HEAPU32, e, h0, h1, h2, h3]
  omega

theorem read64 (h : Host) (mem : Mem) (p n : Nat) (hv : holdsLE mem p 8 n)
    (hn : n < 18446744073709551616) (hal : p % 8 = 0) : LOAD_U64 h mem p 0 = .big n := by
  have h0 := hv 0 (by omega)
  have h1 := hv 1 (by omega)
  have h2 := hv 2 (by omega)
  have h3 := hv 3 (by omega)
  have h4 := hv 4 (by omega)
  have h5 := hv 5 (by omega)
  have h6 := hv 6 (by omega)
  have h7 := hv 7 (by omega)
  simp at h0 h1 h2 h3 h4 h5 h6 h7
  have e1 : 4 * (2 * (p / 8 + 0)) = p := by omega
  have e2 : 4 * (2 * (p / 8 + 0) + 1) = p + 4 := by omega
  have e3 : 4 * (p / 4 + 0 * 2) = p := by omega
  have e4 : 4 * (p / 4 + (0 * 2 + 1)) = p + 4 := by omega
  have key : HEAPU8 mem p + 256 * HEAPU8 mem (p + 1) + 65536 * HEAPU8 mem (p + 2) +
      16777216 * HEAPU8 mem (p + 3) + 4294967296 * (HEAPU8 mem (p + 4) +
      256 * HEAPU8 mem (p + 4 + 1) + 65536 * HEAPU8 mem (p + 4 + 2) +
      16777216 * HEAPU8 mem (p + 4 + 3)) = n := by
    have a5 : p + 4 + 1 = p + 5 := by omega
    have a6 : p + 4 + 2 = p + 6 := by omega
    have a7 : p + 4 + 3 = p + 7 := by omega
    rw [a5, a6, a7, h0, h1, h2, h3, h4, h5, h6, h7]
    omega
  unfold LOAD_U64
  split
  · simp only [DEREF_U64, HEAPU64, HEAPU32, e1, e2]
    congr 1
    exact_mod_cast key
  · simp only [DEREF_U32, HEAPU32, e3, e4]
    congr 1
    exact_mod_cast key


theorem ffi_call_fixed_args_acc (h : Host) (fuel : Nat) (mem : Mem) (av at_ : Nat) :
    ∀ (n i : Nat) (args : List JSVal),
      ffi_call_fixed_args h fuel mem av at_ n i args =
        match ffi_call_fixed_args h fuel mem av at_ n i [] with
        | .ok vs => .ok (args ++ vs)
        | .throw e => .throw e
        | .outOfFuel => .outOfFuel := by
  intro n
  induction n with
  | zero => intro i args; simp [ffi_call_fixed_args]
  | succ n ih =>
    intro i args
    simp only [ffi_call_fixed_args]
    cases hstep : ffi_call_fixed_arg h fuel mem av at_ i with
    | ok vs =>
      simp only []
      rw [ih (i + 1) (args ++ vs), ih (i + 1) ([] ++ vs)]
      cases ffi_call_fixed_args h fuel mem av at_ n (i + 1) [] with
      | ok ws => simp
      | throw e => rfl
      | outOfFuel => rfl
    | throw e => rfl
    | outOfFuel => rfl

theorem ffi_call_fixed_args_split (h : Host) (fuel : Nat) (mem : Mem) (av at_ : Nat) :
    ∀ (m n i : Nat) (args : List JSVal),
      ffi_call_fixed_args h fuel mem av at_ (m + n) i args =
        match ffi_call_fixed_args h fuel mem av at_ m i args with
        | .ok a => ffi_call_fixed_args h fuel mem av at_ n (i + m) a
        | .throw e => .throw e
        | .outOfFuel => .outOfFuel := by
  intro m
  induction m with
  | zero => intro n i args; simp [ffi_call_fixed_args]
  | succ m ih =>
    intro n i args
    have e : m + 1 + n = (m + n) + 1 := by omega
    rw [e]
    simp only [ffi_call_fixed_args]
    cases hstep : ffi_call_fixed_arg h fuel mem av at_ i with
    | ok vs =>
      simp only []
      rw [ih n (i + 1) (args ++ vs)]
      have e2 : i + 1 + m = i + (m + 1) := by omega
      rw [e2]
    | throw e => rfl
    | outOfFuel => rfl

/-- The values pushed at index `i` form a segment of the argument list. -/
theorem ffi_call_fixed_args_segment (h : Host) (fuel : Nat) (mem : Mem) (av at_ : Nat)
    (i n : Nat) (vs pre all : List JSVal) (hi : i < n)
    (hstep : ffi_call_fixed_arg h fuel mem av at_ i = .ok vs)
    (hpre : ffi_call_fixed_args h fuel mem av at_ i 0 [] = .ok pre)
    (hall : ffi_call_fixed_args h fuel mem av at_ n 0 [] = .ok all) :
    ∃ post, all = pre ++ vs ++ post := by
  have e : n = i + ((n - i - 1) + 1) := by omega
  rw [e, ffi_call_fixed_args_split, hpre] at hall
  simp only [ffi_call_fixed_args, Nat.zero_add, hstep] at hall
  rw [ffi_call_fixed_args_acc] at hall
  cases hrest : ffi_call_fixed_args h fuel mem av at_ (n - i - 1) (i + 1) [] with
  | ok post =>
    rw [hrest] at hall
    simp only [Outcome.ok.injEq] at hall
    exact ⟨post, hall.symm⟩
  | throw e => rw [hrest] at hall; cases hall
  | outOfFuel => rw [hrest] at hall; cases hall

theorem ffi_call_fixed_arg_int (h : Host) (fuel : Nat) (mem : Mem) (avalue arg_types_ptr i : Nat)
    (k w : Nat) (v : Int)
    (hk : intKindBits k = some w)
    (ht : FFI_TYPE__TYPEID mem (DEREF_U32 mem arg_types_ptr i) = k)
    (hal : DEREF_U32 mem avalue i % (w / 8) = 0)
    (hv : holdsLE mem (DEREF_U32 mem avalue i) (w / 8) (v % 2 ^ w).toNat) :
    ffi_call_fixed_arg h fuel mem avalue arg_types_ptr i =
      .ok [intCallValue w (v % 2 ^ w)] := by
  have hns : FFI_TYPE__TYPEID mem (DEREF_U32 mem arg_types_ptr i) ≠ FFI_TYPE_STRUCT := by
    rw [ht]; intro hh; rw [hh] at hk; simp [intKindBits] at hk
  have hu : unbox_small_structs mem fuel (DEREF_U32 mem arg_types_ptr i) =
      some (DEREF_U32 mem arg_types_ptr i, k) := by
    rw [← ht]; exact unbox_loop_nonstruct mem fuel (DEREF_U32 mem arg_types_ptr i) _ hns
  simp only [ffi_call_fixed_arg, hu]
  have hpos : (0 : Int) ≤ v % 2 ^ w := Int.emod_nonneg _ (by positivity)
  have hcast : (((v % 2 ^ w).toNat : Nat) : Int) = v % 2 ^ w := Int.toNat_of_nonneg hpos
  have hlt : v % 2 ^ w < 2 ^ w := Int.emod_lt_of_pos _ (by positivity)
  unfold intKindBits at hk
  split at hk
  · rename_i hc
    cases hk
    have hn : (v % 2 ^ 8).toNat < 256 := by
      have := hlt; omega
    have hr := read8 mem _ _ hv hn
    rcases hc with hc | hc <;> subst hc <;>
      (simp [ffi_call_arg, hr, intCallValue, hcast, hpos]; omega)
  · split at hk
    · rename_i hc
      cases hk
      have hn : (v % 2 ^ 16).toNat < 65536 := by
        have := hlt; omega
      have hr := read16 mem _ _ hv hn (by simpa using hal)
      rcases hc with hc | hc <;> subst hc <;>
        (simp [ffi_call_arg, hr, intCallValue, hcast, hpos]; omega)
    · split at hk
      · rename_i hc
        cases hk
        have hn : (v % 2 ^ 32).toNat < 4294967296 := by
          have := hlt; omega
        have hr := read32 mem _ _ hv hn (by simpa using hal)
        rcases hc with hc | hc | hc <;> subst hc <;>
          (simp [ffi_call_arg, hr, intCallValue, hcast, hpos]; omega)
      · split at hk
        · rename_i hc
          cases hk
          have hn : (v % 2 ^ 64).toNat < 18446744073709551616 := by
            have := hlt; omega
          have hr := read64 h mem _ _ hv hn (by simpa using hal)
          rcases hc with hc | hc <;> subst hc <;>
            (simp [ffi_call_arg, hr, intCallValue, hcast, hpos]; omega)
        · cases hk


theorem HEAPU32_set_same (mem : Mem) (i v : Nat) :
    HEAPU32 (HEAPU32_set mem i v) i = v % 4294967296 := by
  simp [HEAPU32, HEAPU32_set, HEAPU8, setByte]
  omega

theorem DEREF_U32_set_same (mem : Mem) (a off v : Nat) :
    DEREF_U32 (DEREF_U32_set mem a off v) a off = v % 4294967296 :=
  HEAPU32_set_same mem _ v

theorem ffi_call_arg_int32 (h : Host) (mem : Mem) (id p : Nat) (hid : Is32BitInt id) :
    ffi_call_arg h mem id p = .ok [.num (DEREF_U32 mem p 0)] := by
  rcases hid with hid | hid | hid <;> subst hid <;> simp [ffi_call_arg]

theorem ffi_call_result_int32 (h : Host) (mem : Mem) (id rv : Nat) (r : Int)
    (hid : Is32BitInt id) :
    ffi_call_result h mem id rv (.num r) =
      .ok (DEREF_U32_set mem rv 0 (r % 4294967296).toNat) := by
  rcases hid with hid | hid | hid <;> subst hid <;>
    simp [ffi_call_result, toUint, toIntegerView]

theorem unbox_int32 (mem : Mem) (fuel t : Nat) (hid : Is32BitInt (FFI_TYPE__TYPEID mem t)) :
    unbox_small_structs mem fuel t = some (t, FFI_TYPE__TYPEID mem t) := by
  apply unbox_loop_nonstruct
  rcases hid with hid | hid | hid <;> rw [hid] <;> decide

/-- C1: for a CIF with two fixed 32-bit integer arguments and a 32-bit integer
return (`nfixedargs = nargs = 2`) whose argument buffers hold `a` and `b`,
`ffi_call` completes, makes exactly one host call, with the argument list
`[a, b]` on the entry memory and stack pointer, and writes the callee's result
`r` as a 32-bit word to the return buffer, which then reads `r mod 2^32`; stack
pointer and call table are as on entry. -/
theorem ffi_call_two_int32 (h : Host) (fuel cif fn rvalue avalue : Nat) (s : State)
    (a b : Nat) (r : Int)
    (hn : CIF__NARGS s.mem cif = 2) (hf : CIF__NFIXEDARGS s.mem cif = 2)
    (hr : Is32BitInt (FFI_TYPE__TYPEID s.mem (CIF__RTYPE s.mem cif)))
    (h0 : Is32BitInt (FFI_TYPE__TYPEID s.mem (DEREF_U32 s.mem (CIF__ARGTYPES s.mem cif) 0)))
    (h1 : Is32BitInt (FFI_TYPE__TYPEID s.mem (DEREF_U32 s.mem (CIF__ARGTYPES s.mem cif) 1)))
    (ha : DEREF_U32 s.mem (DEREF_U32 s.mem avalue 0) 0 = a)
    (hb : DEREF_U32 s.mem (DEREF_U32 s.mem avalue 1) 0 = b)
    (hres : (h.callee fn [.num a, .num b] s.mem s.sp).1 = .num r) :
    ∃ s', ffi_call h fuel cif fn rvalue avalue s = .ok () s' ∧
      s'.calls = s.calls ++ [⟨fn, [.num a, .num b], s.mem, s.sp⟩] ∧
      s'.mem = DEREF_U32_set (h.callee fn [.num a, .num b] s.mem s.sp).2.1 rvalue 0
        (r % 4294967296).toNat ∧
      DEREF_U32 s'.mem rvalue 0 = (r % 4294967296).toNat ∧
      s'.sp = s.sp ∧ s'.table = s.table := by
  have hr2 : FFI_TYPE__TYPEID s.mem (CIF__RTYPE s.mem cif) ≠ FFI_TYPE_COMPLEX ∧
      ¬ FFI_TYPE__TYPEID s.mem (CIF__RTYPE s.mem cif) > FFI_TYPE_LAST ∧
      FFI_TYPE__TYPEID s.mem (CIF__RTYPE s.mem cif) ≠ FFI_TYPE_LONGDOUBLE ∧
      FFI_TYPE__TYPEID s.mem (CIF__RTYPE s.mem cif) ≠ FFI_TYPE_STRUCT := by
    rcases hr with hr | hr | hr <;> rw [hr] <;> decide
  obtain ⟨c1, c2, c3, c4⟩ := hr2
  refine ⟨{ s with mem := (DEREF_U32_set (h.callee fn [.num a, .num b] s.mem s.sp).2.1 rvalue 0
      (r % 4294967296).toNat), calls := s.calls ++ [⟨fn, [.num a, .num b], s.mem, s.sp⟩] },
    ?_, rfl, rfl, ?_, rfl, rfl⟩
  · simp only [ffi_call, unbox_int32 s.mem fuel _ hr, hn, hf, c1, c2, c3, c4, if_false, or_self,
      decide_False, ffi_call_fixed_args, ffi_call_fixed_arg, unbox_int32 s.mem fuel _ h0,
      unbox_int32 s.mem fuel _ h1, ffi_call_arg_int32 h s.mem _ _ h0,
      ffi_call_arg_int32 h s.mem _ _ h1, ha, hb, ne_eq, not_true_eq_false, List.nil_append,
      List.cons_append, ffi_call_invoke]
    simp only [ite_not, if_true, if_false, Bool.false_eq_true, List.nil_append, List.cons_append,
      List.singleton_append]
    rw [hres, ffi_call_result_int32 h _ _ _ _ hr]
  · simp only []
    rw [DEREF_U32_set_same]
    omega


/-- C2: let `(rtype_ptr, rtype_id)` be the resolved return descriptor of the CIF,
`fixed` the call values of the fixed arguments and `extra` the variadic block
address, if any.  When `rtype_id` is aggregate (then `rtype_ptr` has two or more
members) or the extended float, `ffi_call` completes with one host call whose
argument list is the return buffer address followed by `fixed ++ extra`, and the
final memory is the memory the callee left.  In every other case (known,
non-complex kind) the argument list of the host call is `fixed ++ extra`, with
no return buffer address added. -/
theorem ffi_call_return_by_reference (h : Host) (fuel cif fn rvalue avalue : Nat) (s : State)
    (rtype_ptr rtype_id : Nat) (fixed extra : List JSVal) (mem1 : Mem) (sp1 : Nat)
    (hu : unbox_small_structs s.mem fuel (CIF__RTYPE s.mem cif) = some (rtype_ptr, rtype_id))
    (hfix : ffi_call_fixed_args h fuel s.mem avalue (CIF__ARGTYPES s.mem cif)
      (CIF__NFIXEDARGS s.mem cif) 0 [] = .ok fixed)
    (hvar : (CIF__NFIXEDARGS s.mem cif = CIF__NARGS s.mem cif ∧ extra = [] ∧
        mem1 = s.mem ∧ sp1 = s.sp) ∨
      (CIF__NFIXEDARGS s.mem cif ≠ CIF__NARGS s.mem cif ∧
        ffi_call_varargs fuel avalue (CIF__ARGTYPES s.mem cif) (CIF__NFIXEDARGS s.mem cif)
          (CIF__NARGS s.mem cif - CIF__NFIXEDARGS s.mem cif) s.sp s.mem = .ok sp1 mem1 ∧
        extra = [.num sp1])) :
    (rtype_id = FFI_TYPE_STRUCT ∨ rtype_id = FFI_TYPE_LONGDOUBLE →
      (rtype_id = FFI_TYPE_STRUCT → HasTwoMembers s.mem rtype_ptr) ∧
      ffi_call h fuel cif fn rvalue avalue s = .ok ()
        { s with mem := (h.callee fn (.num rvalue :: (fixed ++ extra)) mem1 sp1).2.1,
                 calls := s.calls ++ [⟨fn, .num rvalue :: (fixed ++ extra), mem1, sp1⟩] }) ∧
    (¬ (rtype_id = FFI_TYPE_STRUCT ∨ rtype_id = FFI_TYPE_LONGDOUBLE) →
      rtype_id ≠ FFI_TYPE_COMPLEX → rtype_id ≤ FFI_TYPE_LAST →
      ∃ s', (ffi_call h fuel cif fn rvalue avalue s).state? = some s' ∧
        s'.calls = s.calls ++ [⟨fn, fixed ++ extra, mem1, sp1⟩] ∧ s'.sp = s.sp) := by
  constructor
  · intro hk
    refine ⟨fun hs => unbox_struct_two s.mem fuel _ rtype_ptr rtype_id hu hs, ?_⟩
    have c1 : rtype_id ≠ FFI_TYPE_COMPLEX := by rcases hk with hk | hk <;> rw [hk] <;> decide
    have c2 : ¬ rtype_id > FFI_TYPE_LAST := by rcases hk with hk | hk <;> rw [hk] <;> decide
    have c3 : (rtype_id = FFI_TYPE_LONGDOUBLE ∨ rtype_id = FFI_TYPE_STRUCT) := hk.symm
    simp only [ffi_call, hu, c1, c2, c3, if_false, if_true, decide_True]
    rw [ffi_call_fixed_args_acc, hfix]
    simp only []
    rcases hvar with ⟨e1, e2, e3, e4⟩ | ⟨e1, e2, e3⟩
    · subst e2 e3 e4
      simp [e1, ffi_call_invoke]
    · subst e3
      simp [e1, e2, ffi_call_invoke]
  · intro hk c1 c2
    have c3 : ¬ (rtype_id = FFI_TYPE_LONGDOUBLE ∨ rtype_id = FFI_TYPE_STRUCT) :=
      fun hh => hk hh.symm
    have c2' : ¬ rtype_id > FFI_TYPE_LAST := by omega
    simp only [ffi_call, hu, c1, c2', c3, if_false, decide_False, Bool.false_eq_true]
    rw [hfix]
    simp only []
    rcases hvar with ⟨e1, e2, e3, e4⟩ | ⟨e1, e2, e3⟩
    · subst e2 e3 e4
      simp only [e1, ne_eq, not_true_eq_false, if_false, ffi_call_invoke, Bool.false_eq_true,
        List.append_nil]
      cases ffi_call_result h (h.callee fn fixed s.mem s.sp).2.1 rtype_id rvalue
        (h.callee fn fixed s.mem s.sp).1 with
      | ok m => exact ⟨_, rfl, rfl, rfl⟩
      | error e => exact ⟨_, rfl, rfl, rfl⟩
    · subst e3
      simp only [e1, ne_eq, not_false_eq_true, if_true, e2, ffi_call_invoke, Bool.false_eq_true,
        if_false]
      cases ffi_call_result h (h.callee fn (fixed ++ [JSVal.num sp1]) mem1 sp1).2.1 rtype_id rvalue
        (h.callee fn (fixed ++ [JSVal.num sp1]) mem1 sp1).1 with
      | ok m => exact ⟨_, rfl, rfl, rfl⟩
      | error e => exact ⟨_, rfl, rfl, rfl⟩



theorem ffi_call_two_int32_witness :
    ∃ s', ffi_call addHost 0 16 1 160 128 (stateOf addMem 4096) = .ok () s' ∧
      s'.calls.map CallRecord.args = [[.num 3, .num 4]] ∧ DEREF_U32 s'.mem 160 0 = 7 := by
  obtain ⟨s', h1, h2, _, h4, _⟩ := ffi_call_two_int32 addHost 0 16 1 160 128
    (stateOf addMem 4096) 3 4 7 (by decide) (by decide) (Or.inr (Or.inr (by decide)))
    (Or.inr (Or.inr (by decide))) (Or.inr (Or.inr (by decide))) (by decide) (by decide)
    (by decide)
  exact ⟨s', h1, by rw [h2]; rfl, by rw [h4]; decide⟩

theorem ffi_call_return_by_reference_witness :
    HasTwoMembers structRetMem 400 ∧
    ∃ s', ffi_call addHost 1 16 1 160 128 (stateOf structRetMem 4096) = .ok () s' ∧
      s'.calls.map CallRecord.args = [[.num 160, .f64 4612811918334230528]] ∧
      s'.mem = structRetMem := by
  have h := (ffi_call_return_by_reference addHost 1 16 1 160 128 (stateOf structRetMem 4096)
    400 FFI_TYPE_STRUCT [.f64 4612811918334230528] [] structRetMem 4096 (by decide) (by decide)
    (Or.inl ⟨by decide, rfl, rfl, rfl⟩)).1 (Or.inl rfl)
  exact ⟨h.1 rfl, _, h.2, rfl, rfl⟩

/-- The call value of an integer argument: for an integer scalar kind `k` of `w`
bits and a value `v` stored in the aligned input buffer of fixed argument `i` in
two's complement, `ffi_call` pushes one call value `cv` for that argument, placed
in the argument list right after the values of the earlier arguments; `cv` is
exactly `v` when `0 ≤ v` (a Number up to 32 bits, a BigInt for 64), and for a
negative `v` of a 32- or 64-bit kind it is the unsigned reading `v + 2^w`, which
a slot of the same size interprets as `v`. -/
theorem ffi_call_int_arg_call_value (h : Host) (fuel : Nat) (mem : Mem)
    (avalue arg_types_ptr i k w : Nat) (v : Int)
    (hk : intKindBits k = some w)
    (ht : FFI_TYPE__TYPEID mem (DEREF_U32 mem arg_types_ptr i) = k)
    (hal : DEREF_U32 mem avalue i % (w / 8) = 0)
    (hv : holdsLE mem (DEREF_U32 mem avalue i) (w / 8) (v % 2 ^ w).toNat) :
    ∃ cv, ffi_call_fixed_arg h fuel mem avalue arg_types_ptr i = .ok [cv] ∧
      (∀ n pre all, i < n →
        ffi_call_fixed_args h fuel mem avalue arg_types_ptr i 0 [] = .ok pre →
        ffi_call_fixed_args h fuel mem avalue arg_types_ptr n 0 [] = .ok all →
        ∃ post, all = pre ++ [cv] ++ post) ∧
      (0 ≤ v → v < 2 ^ w → cv = intCallValue w v) ∧
      (w = 32 ∨ w = 64 → v < 0 → -2 ^ (w - 1) ≤ v → cv = intCallValue w (v + 2 ^ w)) := by
  have hstep := ffi_call_fixed_arg_int h fuel mem avalue arg_types_ptr i k w v hk ht hal hv
  refine ⟨_, hstep, fun n pre all hi hpre hall =>
    ffi_call_fixed_args_segment h fuel mem avalue arg_types_ptr i n _ pre all hi hstep hpre hall,
    fun h0 h1 => ?_, fun hw hneg hlo => ?_⟩
  · rw [Int.emod_eq_of_lt h0 h1]
  · have e : v % 2 ^ w = v + 2 ^ w := by
      rw [← Int.add_emod_self (a := v) (b := 2 ^ w)]
      apply Int.emod_eq_of_lt
      · rcases hw with hw | hw <;> subst hw <;> omega
      · omega
    rw [e]

theorem ffi_call_int_arg_call_value_witness :
    ∃ cv, ffi_call_fixed_arg addHost 0 negMem 128 64 0 = .ok [cv] ∧ cv = .num 4294967295 := by
  obtain ⟨cv, h1, _, _, h4⟩ := ffi_call_int_arg_call_value addHost 0 negMem 128 64 0
    FFI_TYPE_SINT32 32 (-1) (by decide) (by decide) (by decide) (by unfold holdsLE; decide)
  exact ⟨cv, h1, by rw [h4 (Or.inl rfl) (by decide) (by decide)]; decide⟩


/-- The unsigned reading of a 32-bit argument: a fixed signed 32-bit argument
whose buffer holds -1 in two's complement is passed as the call value 4294967295,
which a 32-bit slot interprets as -1. -/
theorem ffi_call_sint32_arg_unsigned :
    intKindBits FFI_TYPE_SINT32 = some 32 ∧
    FFI_TYPE__TYPEID negMem (DEREF_U32 negMem 64 0) = FFI_TYPE_SINT32 ∧
    holdsLE negMem (DEREF_U32 negMem 128 0) 4 ((-1 : Int) % 2 ^ 32).toNat ∧
    ffi_call_fixed_arg addHost 0 negMem 128 64 0 = .ok [.num 4294967295] ∧
    (ffi_call addHost 0 16 1 160 128 (stateOf negMem 4096)).state?.map
      (fun s => s.calls.map CallRecord.args) = some [[.num 4294967295]] ∧
    JSVal.num 4294967295 ≠ intCallValue 32 (-1) := by
  refine ⟨by decide, by decide, ?_, by decide, by decide, by decide⟩
  unfold holdsLE
  decide

/-- C6: a fixed signed 8-bit argument whose buffer holds -1 in the binary layout
of the kind (the byte 255) is passed to the host call as the call value 255, not
-1: `ffi_call` reads the signed 8-bit kind through the unsigned view `DEREF_U8`,
and the value goes into a 32-bit slot, which does not interpret 255 as -1. -/
theorem ffi_call_sint8_arg_failing :
    intKindBits FFI_TYPE_SINT8 = some 8 ∧
    FFI_TYPE__TYPEID neg8Mem (DEREF_U32 neg8Mem 64 0) = FFI_TYPE_SINT8 ∧
    holdsLE neg8Mem (DEREF_U32 neg8Mem 128 0) 1 ((-1 : Int) % 2 ^ 8).toNat ∧
    ffi_call_fixed_arg addHost 0 neg8Mem 128 64 0 = .ok [.num 255] ∧
    (ffi_call addHost 0 16 1 160 128 (stateOf neg8Mem 4096)).state?.map
      (fun s => s.calls.map CallRecord.args) = some [[.num 255]] ∧
    JSVal.num 255 ≠ intCallValue 8 (-1) ∧
    (255 : Int) % 4294967296 ≠ (-1) % 4294967296 := by
  refine ⟨by decide, by decide, ?_, by decide, by decide, by decide, by decide⟩
  unfold holdsLE
  decide



theorem closure_ret_sig_ok (rtype_id : Nat) (h1 : rtype_id ≤ FFI_TYPE_LAST)
    (h2 : rtype_id ≠ FFI_TYPE_COMPLEX) : ∃ r, closure_ret_sig rtype_id = .ok r := by
  have h3 : rtype_id ≤ 15 := h1
  have h4 : rtype_id ≠ 15 := h2
  interval_cases rtype_id <;> first | exact absurd rfl h4 | exact ⟨_, by simp [closure_ret_sig]; rfl⟩

theorem closure_arg_sig_ok (id : Nat) (last : Option Nat) (h0 : 1 ≤ id)
    (h1 : id ≤ FFI_TYPE_LAST) (h2 : id ≠ FFI_TYPE_COMPLEX) :
    ∃ cs, closure_arg_sig (some id) last = .ok cs := by
  have h3 : id ≤ 15 := h1
  have h4 : id ≠ 15 := h2
  interval_cases id <;> first | exact absurd rfl h4 | exact ⟨_, by simp [closure_arg_sig]; rfl⟩

theorem closure_args_sig_ok (ids : List Nat) :
    ∀ (n i : Nat) (sig : List Char),
      (∀ j, i ≤ j → j < i + n → ∃ id, ids.get? j = some id ∧ 1 ≤ id ∧ id ≤ FFI_TYPE_LAST ∧
        id ≠ FFI_TYPE_COMPLEX) →
      ∃ sig1, closure_args_sig ids n i sig = .ok sig1 := by
  intro n
  induction n with
  | zero => intro i sig _; exact ⟨sig, rfl⟩
  | succ n ih =>
    intro i sig hall
    obtain ⟨id, hid, h0, h1, h2⟩ := hall i (Nat.le_refl _) (by omega)
    obtain ⟨cs, hcs⟩ := closure_arg_sig_ok id ids.getLast? h0 h1 h2
    obtain ⟨sig1, hs⟩ := ih (i + 1) (sig ++ cs) (fun j hj1 hj2 => hall j (by omega) (by omega))
    refine ⟨sig1, ?_⟩
    simp only [closure_args_sig, hid, hcs]
    exact hs

/-- C10: when the abi tag of the CIF differs from `FFI_WASM32_EMSCRIPTEN`,
`ffi_prep_closure_loc` returns `FFI_BAD_ABI` and the state (memory with the
closure record, stack pointer, call table, free list, host calls) is
unchanged; when the tag matches, the return kind is a known non-complex kind,
every descriptor resolves and every fixed argument has a kind of the signature
switch, it returns `FFI_OK`, with a trampoline for this closure installed at
`codeloc`. -/
theorem ffi_prep_closure_loc_abi (fuel closure cif fn user_data codeloc : Nat) (s : State) :
    (CIF__ABI s.mem cif ≠ FFI_WASM32_EMSCRIPTEN →
      ffi_prep_closure_loc fuel closure cif fn user_data codeloc s = .ok .FFI_BAD_ABI s) ∧
    (CIF__ABI s.mem cif = FFI_WASM32_EMSCRIPTEN →
      ∀ rtype_ptr rtype_id ids,
        unbox_small_structs s.mem fuel (CIF__RTYPE s.mem cif) = some (rtype_ptr, rtype_id) →
        rtype_id ≤ FFI_TYPE_LAST → rtype_id ≠ FFI_TYPE_COMPLEX →
        closure_unbox_args s.mem fuel (CIF__ARGTYPES s.mem cif) (CIF__NARGS s.mem cif) 0 [] =
          some ids →
        (∀ i, i < CIF__NFIXEDARGS s.mem cif → ∃ id, ids.get? i = some id ∧ 1 ≤ id ∧
          id ≤ FFI_TYPE_LAST ∧ id ≠ FFI_TYPE_COMPLEX) →
        ∃ s', ffi_prep_closure_loc fuel closure cif fn user_data codeloc s = .ok .FFI_OK s' ∧
          ∃ t, s'.table codeloc = some t ∧ t.unboxed_arg_type_id_list = ids ∧
            t.closure = closure) := by
  constructor
  · intro h
    simp [ffi_prep_closure_loc, h]
  · intro h rtype_ptr rtype_id ids hu h1 h2 hids hall
    obtain ⟨⟨sig0, rba⟩, hr⟩ := closure_ret_sig_ok rtype_id h1 h2
    obtain ⟨sig1, hs⟩ := closure_args_sig_ok ids (CIF__NFIXEDARGS s.mem cif) 0 sig0
      (fun j _ hj => hall j (by omega))
    simp only [ffi_prep_closure_loc, h, ne_eq, not_true_eq_false, if_false,
      ffi_prep_closure_loc_helper, hu, hr, hids, hs]
    exact ⟨_, rfl, ⟨if CIF__NFIXEDARGS s.mem cif < CIF__NARGS s.mem cif then sig1 ++ ['i'] else sig1,
      rba, CIF__NARGS s.mem cif, CIF__NFIXEDARGS s.mem cif, ids, closure⟩, by simp, rfl, rfl⟩


theorem ffi_prep_closure_loc_abi_witness :
    ffi_prep_closure_loc 0 200 16 9 0 5 (stateOf badAbiMem 4096) =
      .ok .FFI_BAD_ABI (stateOf badAbiMem 4096) ∧
    ∃ s', ffi_prep_closure_loc 0 200 16 9 0 5 (stateOf addMem 4096) = .ok .FFI_OK s' := by
  refine ⟨(ffi_prep_closure_loc_abi 0 200 16 9 0 5 (stateOf badAbiMem 4096)).1 (by decide), ?_⟩
  obtain ⟨s', hs, _⟩ := (ffi_prep_closure_loc_abi 0 200 16 9 0 5 (stateOf addMem 4096)).2
    (by decide) 96 FFI_TYPE_SINT32 [FFI_TYPE_SINT32, FFI_TYPE_SINT32] (by decide) (by decide)
    (by decide) (by decide) (by
      intro i hi
      have e : CIF__NFIXEDARGS (stateOf addMem 4096).mem 16 = 2 := by decide
      rw [e] at hi
      interval_cases i
      · exact ⟨FFI_TYPE_SINT32, by decide, by decide, by decide, by decide⟩
      · exact ⟨FFI_TYPE_SINT32, by decide, by decide, by decide, by decide⟩)
  exact ⟨s', hs⟩

set_option maxRecDepth 4000 in
/-- C7, failing input: a closure is bound for a CIF with one fixed signed 32-bit
argument and the variadic arguments (signed 64-bit, signed 32-bit), `ffi_call`
is run on that CIF with the values (1, 11 * 2^32 + 10, 7), and the closure's
trampoline is entered with the argument list and memory of the host call.  The
builder put the 64-bit value at 4080 and the 32-bit value 7 at 4092; the
trampoline hands the user handler the entries 4080 and 4084 for them, and the
32-bit word at 4084 is 11, the high half of the 64-bit value, not 7. -/
theorem variadic_round_trip_failing :
    (roundTripHandlerCall addHost 0 200 16 9 0 5 176 128 (stateOf variadicMem 4096)).map
      (fun c => (c.args, DEREF_U32 c.mem 4060 1, DEREF_U32 c.mem 4060 2,
        load64 c.mem 4080, load32 c.mem 4084, load32 c.mem 4092)) =
      some ([.num 16, .num 4072, .num 4060, .num 0], 4080, 4084, 47244640266, 11, 7) := by
  decide

set_option maxRecDepth 4000 in
/-- C8, failing input: a closure bound with `nfixedargs = 1`, `nargs = 3` and two
variadic doubles, its trampoline invoked with the fixed value 1 and a variadic
block at 2048 holding 2.5 (at 2048) and 3.5 (at 2056).  Entry 1 of the argument
pointer array is 2048, where the 8 bytes are 2.5; entry 2 is 2052, not 2056: the
8 bytes there are the high half of 2.5 followed by the low half of 3.5, and the
view `HEAPF64` at 2052 reads 2.5 again. -/
theorem closure_variadic_doubles_failing :
    (closureHandlerCall addHost 0 200 16 9 0 5 [.num 1, .num 2048] (stateOf doublesMem 4096)).map
      (fun c => (c.args, DEREF_U32 c.mem 4076 1, DEREF_U32 c.mem 4076 2)) =
      some ([.num 16, .num 4088, .num 4076, .num 0], 2048, 2052) ∧
    (closureHandlerCall addHost 0 200 16 9 0 5 [.num 1, .num 2048] (stateOf doublesMem 4096)).map
      (fun c => (load64 c.mem 2048, load64 c.mem 2052, DEREF_F64 c.mem 2052 0, load64 c.mem 2056)) =
      some (4612811918334230528, 1074003968, 4612811918334230528, 4615063718147915776) := by
  decide

set_option maxRecDepth 4000 in
/-- C9, failing input: a variadic extended-float argument whose 16-byte input
buffer holds the words 1, 2, 3, 4.  Its slot at 4080 in the variadic block built
by `ffi_call` holds the words 1, 2, 2, 2: the last two words of the buffer are
not copied. -/
theorem ffi_call_vararg_longdouble_failing :
    (ffi_call addHost 0 16 1 176 128 (stateOf longDoubleMem 4096)).lastCall?.map
      (fun c => (c.args, DEREF_U32 c.mem 4080 0, DEREF_U32 c.mem 4080 1,
        DEREF_U32 c.mem 4080 2, DEREF_U32 c.mem 4080 3)) =
      some ([.num 1, .num 4080], 1, 2, 2, 2) ∧
    (DEREF_U32 longDoubleMem 160 2, DEREF_U32 longDoubleMem 160 3) = (3, 4) := by
  decide

/-! ## Call interface preparation, closures and trampolines -/

theorem HEAPU32_set_other (mem : Mem) (i j v : Nat) (h : i ≠ j) :
    HEAPU32 (HEAPU32_set mem i v) j = HEAPU32 mem j := by
  have e0 : 4 * j ≠ 4 * i + 3 := by omega
  have e1 : 4 * j ≠ 4 * i + 2 := by omega
  have e2 : 4 * j ≠ 4 * i + 1 := by omega
  have e3 : 4 * j ≠ 4 * i := by omega
  have f0 : 4 * j + 1 ≠ 4 * i + 3 := by omega
  have f1 : 4 * j + 1 ≠ 4 * i + 2 := by omega
  have f2 : 4 * j + 1 ≠ 4 * i + 1 := by omega
  have f3 : 4 * j + 1 ≠ 4 * i := by omega
  have g0 : 4 * j + 2 ≠ 4 * i + 3 := by omega
  have g1 : 4 * j + 2 ≠ 4 * i + 2 := by omega
  have g2 : 4 * j + 2 ≠ 4 * i + 1 := by omega
  have g3 : 4 * j + 2 ≠ 4 * i := by omega
  have k0 : 4 * j + 3 ≠ 4 * i + 3 := by omega
  have k1 : 4 * j + 3 ≠ 4 * i + 2 := by omega
  have k2 : 4 * j + 3 ≠ 4 * i + 1 := by omega
  have k3 : 4 * j + 3 ≠ 4 * i := by omega
  simp only [HEAPU32, HEAPU32_set, HEAPU8, setByte, e0, e1, e2, e3, f0, f1, f2, f3,
    g0, g1, g2, g3, k0, k1, k2, k3, if_false]

theorem HEAPU32_lt (mem : Mem) (i : Nat) : HEAPU32 mem i < 4294967296 := by
  simp only [HEAPU32, HEAPU8]; omega

/-- Storing into a word the value it reads leaves every view of memory as it was. -/
theorem HEAPU8_HEAPU32_set_self (mem : Mem) (i a : Nat) :
    HEAPU8 (HEAPU32_set mem i (HEAPU32 mem i)) a = HEAPU8 mem a := by
  simp only [HEAPU32, HEAPU32_set, HEAPU8, setByte]
  split_ifs <;> subst_vars <;> omega

theorem store_load_split (h : Host) (hb : h.WASM_BIGINT = false) (mem : Mem) (p : Nat)
    (x : Int) (hp : p % 8 = 0) :
    ∃ mem', STORE_U64 h mem p 0 (.big x) = .ok mem' ∧
      DEREF_U32 mem' p 0 = (x % 4294967296).toNat ∧
      DEREF_U32 mem' (p + 4) 0 = (x / 4294967296 % 4294967296).toNat ∧
      LOAD_U64 h mem' p 0 = .big (x % 18446744073709551616) := by
  have hlo : (0 : Int) ≤ x % 4294967296 := Int.emod_nonneg _ (by decide)
  have hlo2 : x % 4294967296 < 4294967296 := Int.emod_lt_of_pos _ (by decide)
  have hhi : (0 : Int) ≤ x / 4294967296 % 4294967296 := Int.emod_nonneg _ (by decide)
  have hhi2 : x / 4294967296 % 4294967296 < 4294967296 := Int.emod_lt_of_pos _ (by decide)
  have e1 : p / 4 + 0 * 2 = p / 4 := by omega
  have e2 : p / 4 + (0 * 2 + 1) = p / 4 + 1 := by omega
  have e3 : (p + 4) / 4 + 0 = p / 4 + 1 := by omega
  have e4 : p / 4 + 0 = p / 4 := by omega
  have w0 : DEREF_U32 (DEREF_U32_set (DEREF_U32_set mem p (0 * 2) (BIGINT_LOWER x)) p (0 * 2 + 1)
      (BIGINT_UPPER x)) p 0 = (x % 4294967296).toNat := by
    simp only [DEREF_U32, DEREF_U32_set, e1, e2, e4]
    rw [HEAPU32_set_other _ _ _ _ (by omega), HEAPU32_set_same, BIGINT_LOWER]
    omega
  have w1 : DEREF_U32 (DEREF_U32_set (DEREF_U32_set mem p (0 * 2) (BIGINT_LOWER x)) p (0 * 2 + 1)
      (BIGINT_UPPER x)) (p + 4) 0 = (x / 4294967296 % 4294967296).toNat := by
    simp only [DEREF_U32, DEREF_U32_set, e1, e2, e3]
    rw [HEAPU32_set_same, BIGINT_UPPER]
    omega
  refine ⟨_, by simp [STORE_U64, hb], w0, w1, ?_⟩
  have w1' : DEREF_U32 (DEREF_U32_set (DEREF_U32_set mem p (0 * 2) (BIGINT_LOWER x)) p (0 * 2 + 1)
      (BIGINT_UPPER x)) p 1 = (x / 4294967296 % 4294967296).toNat := by
    have e5 : DEREF_U32 (DEREF_U32_set (DEREF_U32_set mem p (0 * 2) (BIGINT_LOWER x)) p (0 * 2 + 1)
      (BIGINT_UPPER x)) p 1 = DEREF_U32 (DEREF_U32_set (DEREF_U32_set mem p (0 * 2)
      (BIGINT_LOWER x)) p (0 * 2 + 1) (BIGINT_UPPER x)) (p + 4) 0 := by
      simp only [DEREF_U32, e3]
    rw [e5, w1]
  simp only [LOAD_U64, hb, Bool.false_eq_true, if_false, Nat.zero_mul, Nat.zero_add]
  simp only [Nat.zero_mul, Nat.zero_add] at w0 w1'
  rw [w0, w1']
  congr 1
  omega

theorem setByte_frame (m : Mem) (a v x : Nat) (h : x ≠ a) : setByte m a v x = m x := by
  simp [setByte, h]

theorem HEAPU16_set_frame (m : Mem) (i v a : Nat) (h : a < 2 * i ∨ 2 * i + 2 ≤ a) :
    HEAPU16_set m i v a = m a := by
  simp only [HEAPU16_set, setByte]
  split_ifs <;> first | rfl | omega

theorem HEAPU32_set_frame (m : Mem) (i v a : Nat) (h : a < 4 * i ∨ 4 * i + 4 ≤ a) :
    HEAPU32_set m i v a = m a := by
  simp only [HEAPU32_set, setByte]
  split_ifs <;> first | rfl | omega

theorem HEAPU64_set_frame (m : Mem) (i v a : Nat) (h : a < 8 * i ∨ 8 * i + 8 ≤ a) :
    HEAPU64_set m i v a = m a := by
  simp only [HEAPU64_set]
  rw [HEAPU32_set_frame _ _ _ _ (by omega), HEAPU32_set_frame _ _ _ _ (by omega)]

theorem HEAPU16_set_bytes (m : Mem) (i v j : Nat) (hj : j < 2) :
    HEAPU8 (HEAPU16_set m i v) (2 * i + j) = v / 256 ^ j % 256 := by
  interval_cases j <;> simp [HEAPU16_set, setByte, HEAPU8]

theorem HEAPU32_set_bytes (m : Mem) (i v j : Nat) (hj : j < 4) :
    HEAPU8 (HEAPU32_set m i v) (4 * i + j) = v / 256 ^ j % 256 := by
  interval_cases j <;> simp [HEAPU32_set, setByte, HEAPU8]

theorem HEAPU32_congr (m m' : Mem) (i : Nat) (h : ∀ j, j < 4 → m' (4 * i + j) = m (4 * i + j)) :
    HEAPU32 m' i = HEAPU32 m i := by
  have h0 := h 0 (by omega)
  have h1 := h 1 (by omega)
  have h2 := h 2 (by omega)
  have h3 := h 3 (by omega)
  simp only [Nat.add_zero] at h0
  simp only [HEAPU32, HEAPU8, h0, h1, h2, h3]

theorem HEAPU16_congr (m m' : Mem) (i : Nat) (h : ∀ j, j < 2 → m' (2 * i + j) = m (2 * i + j)) :
    HEAPU16 m' i = HEAPU16 m i := by
  have h0 := h 0 (by omega)
  have h1 := h 1 (by omega)
  simp only [Nat.add_zero] at h0
  simp only [HEAPU16, HEAPU8, h0, h1]

/-- The loop over the variadic arguments of a trampoline writes entry `k` of the
argument pointer array for `c ≤ k < c + n` and nothing else. -/
theorem trampoline_varargs_spec (ids : List Nat) (A : Nat) (hA : A % 4 = 0) :
    ∀ (n c va : Nat) (mem : Mem), A + 4 * (c + n) ≤ va →
      (∀ a, a < A + 4 * c ∨ A + 4 * (c + n) ≤ a →
        trampoline_varargs ids A n c va mem a = mem a) ∧
      (∀ k, c ≤ k → k < c + n →
        DEREF_U32 (trampoline_varargs ids A n c va mem) A k =
          if ids.get? k = some FFI_TYPE_STRUCT then DEREF_U32 mem (va + 4 * (k - c)) 0
          else (va + 4 * (k - c)) % 4294967296) := by
  intro n
  induction n with
  | zero =>
    intro c va mem _
    exact ⟨fun a _ => rfl, fun k h1 h2 => by omega⟩
  | succ n ih =>
    intro c va mem hva
    have hidx : 4 * (A / 4 + c) = A + 4 * c := by omega
    -- the memory after the first iteration
    have hstep : ∀ v, (∀ a, a < A + 4 * c ∨ A + 4 * c + 4 ≤ a →
        DEREF_U32_set mem A c v a = mem a) ∧
        DEREF_U32 (DEREF_U32_set mem A c v) A c = v % 4294967296 := by
      intro v
      refine ⟨fun a ha => ?_, DEREF_U32_set_same mem A c v⟩
      exact HEAPU32_set_frame _ _ _ _ (by omega)
    simp only [trampoline_varargs]
    generalize hm1 : (if ids.get? c = some FFI_TYPE_STRUCT then
        DEREF_U32_set mem A c (DEREF_U32 mem va 0) else DEREF_U32_set mem A c va) = mem1
    have hfr1 : ∀ a, a < A + 4 * c ∨ A + 4 * c + 4 ≤ a → mem1 a = mem a := by
      intro a ha
      rw [← hm1]
      split
      · exact (hstep _).1 a ha
      · exact (hstep _).1 a ha
    have hent1 : DEREF_U32 mem1 A c =
        if ids.get? c = some FFI_TYPE_STRUCT then DEREF_U32 mem va 0 else va % 4294967296 := by
      rw [← hm1]
      split
      · rw [(hstep _).2]; exact Nat.mod_eq_of_lt (HEAPU32_lt _ _)
      · exact (hstep _).2
    obtain ⟨ihf, ihe⟩ := ih (c + 1) (va + 4) mem1 (by omega)
    constructor
    · intro a ha
      rw [ihf a (by omega), hfr1 a (by omega)]
    · intro k hk1 hk2
      by_cases hkc : k = c
      · subst hkc
        have : DEREF_U32 (trampoline_varargs ids A n (k + 1) (va + 4) mem1) A k =
            DEREF_U32 mem1 A k := by
          apply HEAPU32_congr
          intro j hj
          exact ihf _ (by omega)
        rw [this, hent1]
        simp
      · rw [ihe k (by omega) (by omega)]
        have e : va + 4 + 4 * (k - (c + 1)) = va + 4 * (k - c) := by omega
        rw [e]
        split
        · apply HEAPU32_congr
          intro j hj
          exact hfr1 _ (by omega)
        · rfl

theorem toUint_num (h : Host) (x : Int) :
    toUint h 8 (.num x) = .ok (x % 256).toNat ∧ toUint h 16 (.num x) = .ok (x % 65536).toNat ∧
    toUint h 32 (.num x) = .ok (x % 4294967296).toNat := by
  simp [toUint, toIntegerView]

theorem HEAPU64_set_bytes (m : Mem) (i v j : Nat) (hj : j < 8) :
    HEAPU8 (HEAPU64_set m i v) (8 * i + j) = v / 256 ^ j % 256 := by
  by_cases h4 : j < 4
  · have e : 8 * i + j = 4 * (2 * i) + j := by omega
    simp only [HEAPU64_set, HEAPU8]
    rw [HEAPU32_set_frame _ _ _ _ (by omega), e]
    exact HEAPU32_set_bytes _ _ _ _ h4
  · have e : 8 * i + j = 4 * (2 * i + 1) + (j - 4) := by omega
    simp only [HEAPU64_set]
    rw [e, HEAPU32_set_bytes _ _ _ _ (by omega)]
    have hj' : j = 4 ∨ j = 5 ∨ j = 6 ∨ j = 7 := by omega
    rcases hj' with hj' | hj' | hj' | hj' <;> subst hj' <;> norm_num <;> omega

theorem holdsLE_set8 (m : Mem) (a v : Nat) : holdsLE (DEREF_U8_set m a 0 v) a 1 v := by
  intro j hj
  have : j = 0 := by omega
  subst this
  simp [DEREF_U8_set, HEAPU8_set, setByte, HEAPU8]

theorem holdsLE_set16 (m : Mem) (a v : Nat) (ha : a % 2 = 0) :
    holdsLE (DEREF_U16_set m a 0 v) a 2 v := by
  intro j hj
  have e : a + j = 2 * (a / 2 + 0) + j := by omega
  rw [e]
  exact HEAPU16_set_bytes _ _ _ _ hj

theorem holdsLE_set32 (m : Mem) (a v : Nat) (ha : a % 4 = 0) :
    holdsLE (DEREF_U32_set m a 0 v) a 4 v := by
  intro j hj
  have e : a + j = 4 * (a / 4 + 0) + j := by omega
  rw [e]
  exact HEAPU32_set_bytes _ _ _ _ hj

theorem holdsLE_set64 (m : Mem) (a off v : Nat) (ha : a % 8 = 0) :
    holdsLE (DEREF_U64_set m a off v) (a + 8 * off) 8 v := by
  intro j hj
  have e : a + 8 * off + j = 8 * (a / 8 + off) + j := by omega
  rw [e]
  exact HEAPU64_set_bytes _ _ _ _ hj

theorem STORE_U64_eq (h : Host) (m : Mem) (a off : Nat) (x : Int) (ha : a % 8 = 0) :
    STORE_U64 h m a off (.big x) =
      .ok (DEREF_U64_set m a off (x % 18446744073709551616).toNat) := by
  cases hb : h.WASM_BIGINT with
  | true => simp only [STORE_U64, hb, if_true]
  | false =>
    have e1 : a / 4 + off * 2 = 2 * (a / 8 + off) := by omega
    have e2 : a / 4 + (off * 2 + 1) = 2 * (a / 8 + off) + 1 := by omega
    simp only [STORE_U64, hb, Bool.false_eq_true, if_false, DEREF_U64_set,
      DEREF_U32_set, HEAPU64_set, e1, e2, BIGINT_LOWER, BIGINT_UPPER]
    congr 1
    funext b
    simp only [HEAPU32_set, setByte]
    split_ifs <;> omega

theorem STORE_U64_big (h : Host) (m m' : Mem) (a off : Nat) (v : JSVal)
    (hs : STORE_U64 h m a off v = .ok m') : ∃ x, v = .big x := by
  cases v with
  | big x => exact ⟨x, rfl⟩
  | num n => simp [STORE_U64] at hs
  | f32 b => simp [STORE_U64] at hs
  | f64 b => simp [STORE_U64] at hs
  | undefined => simp [STORE_U64] at hs

theorem DEREF_U64_set_frame (m : Mem) (a off v b : Nat) (ha : a % 8 = 0)
    (hb : b < a + 8 * off ∨ a + 8 * off + 8 ≤ b) : DEREF_U64_set m a off v b = m b := by
  simp only [DEREF_U64_set]
  exact HEAPU64_set_frame _ _ _ _ (by omega)

theorem DEREF_U32_set_frame (m : Mem) (a off v b : Nat) (ha : a % 4 = 0)
    (hb : b < a + 4 * off ∨ a + 4 * off + 4 ≤ b) : DEREF_U32_set m a off v b = m b := by
  simp only [DEREF_U32_set]
  exact HEAPU32_set_frame _ _ _ _ (by omega)

theorem DEREF_U16_set_frame (m : Mem) (a v b : Nat) (ha : a % 2 = 0)
    (hb : b < a ∨ a + 2 ≤ b) : DEREF_U16_set m a 0 v b = m b := by
  simp only [DEREF_U16_set]
  exact HEAPU16_set_frame _ _ _ _ (by omega)

theorem DEREF_U8_set_frame (m : Mem) (a v b : Nat)
    (hb : b < a ∨ a + 1 ≤ b) : DEREF_U8_set m a 0 v b = m b := by
  simp only [DEREF_U8_set, HEAPU8_set]
  exact setByte_frame _ _ _ _ (by omega)

/-- A word of the argument pointer array reads what was stored, when later stores
leave its four bytes alone. -/
theorem entry_read (m m' : Mem) (A c v : Nat) (hA : A % 4 = 0) (hv : v < 4294967296)
    (hfr : ∀ b, A + 4 * c ≤ b → b < A + 4 * c + 4 → m' b = DEREF_U32_set m A c v b) :
    DEREF_U32 m' A c = v := by
  have e : DEREF_U32 m' A c = DEREF_U32 (DEREF_U32_set m A c v) A c := by
    simp only [DEREF_U32]
    apply HEAPU32_congr
    intro j hj
    exact hfr _ (by omega) (by omega)
  rw [e, DEREF_U32_set_same]
  omega

theorem holdsLE_congr (m m' : Mem) (a sz n : Nat) (hfr : ∀ b, a ≤ b → b < a + sz → m' b = m b)
    (hl : holdsLE m a sz n) : holdsLE m' a sz n := by
  intro j hj
  have := hl j hj
  simp only [HEAPU8] at this ⊢
  rw [hfr _ (by omega) (by omega)]
  exact this

theorem holdsLE_16 (m : Mem) (a X Y : Nat) (hX : X < 18446744073709551616)
    (h1 : holdsLE m a 8 X) (h2 : holdsLE m (a + 8) 8 Y) :
    holdsLE m a 16 (X + 18446744073709551616 * Y) := by
  intro j hj
  by_cases h8 : j < 8
  · rw [h1 j h8]
    interval_cases j <;> norm_num <;> omega
  · have e : a + j = a + 8 + (j - 8) := by omega
    rw [e, h2 (j - 8) (by omega)]
    have hj' : j = 8 ∨ j = 9 ∨ j = 10 ∨ j = 11 ∨ j = 12 ∨ j = 13 ∨ j = 14 ∨ j = 15 := by omega
    rcases hj' with hj' | hj' | hj' | hj' | hj' | hj' | hj' | hj' <;> subst hj' <;>
      norm_num <;> omega

/-- On an 8-aligned address both forms of `STORE_U64` store the same bytes. -/
theorem store_native_eq_split (hs hn : Host) (mem : Mem) (p : Nat) (x : Int) (hp : p % 8 = 0) :
    STORE_U64 hn mem p 0 (.big x) = STORE_U64 hs mem p 0 (.big x) := by
  rw [STORE_U64_eq hn mem p 0 x hp, STORE_U64_eq hs mem p 0 x hp]

theorem load_native_eq_split (hs hn : Host) (h1 : hs.WASM_BIGINT = false)
    (h2 : hn.WASM_BIGINT = true) (mem : Mem) (p : Nat) (hp : p % 8 = 0) :
    LOAD_U64 hn mem p 0 = LOAD_U64 hs mem p 0 := by
  have e1 : p / 4 + 0 * 2 = p / 4 := by omega
  have e2 : p / 4 + (0 * 2 + 1) = p / 4 + 1 := by omega
  have e3 : 2 * (p / 8 + 0) = p / 4 := by omega
  simp only [LOAD_U64, h1, h2, if_true, Bool.false_eq_true, if_false, DEREF_U64, HEAPU64,
    DEREF_U32, e1, e2, e3]
  congr 1

/-- C20: without native 64-bit host values, for an 8-aligned address `p` and an
integer `x`: `STORE_U64 (p, 0, x)` stores `x mod 2^32` to the word at `p` and
`floor (x / 2^32) mod 2^32` to the word at `p + 4`, and `LOAD_U64 (p, 0)` then
returns `x mod 2^64`; `LOAD_U64` followed by `STORE_U64` leaves both words as
they were; and on an 8-aligned address the native (`HEAPU64`) variant loads and
stores the same as the split variant. -/
theorem store_load_u64 (hs hn : Host) (h1 : hs.WASM_BIGINT = false)
    (h2 : hn.WASM_BIGINT = true) (mem : Mem) (p : Nat) (x : Int) (hp : p % 8 = 0) :
    (∃ mem', STORE_U64 hs mem p 0 (.big x) = .ok mem' ∧
      DEREF_U32 mem' p 0 = (x % 4294967296).toNat ∧
      DEREF_U32 mem' (p + 4) 0 = (x / 4294967296 % 4294967296).toNat ∧
      LOAD_U64 hs mem' p 0 = .big (x % 18446744073709551616)) ∧
    (∃ mem', STORE_U64 hs mem p 0 (LOAD_U64 hs mem p 0) = .ok mem' ∧
      DEREF_U32 mem' p 0 = DEREF_U32 mem p 0 ∧
      DEREF_U32 mem' (p + 4) 0 = DEREF_U32 mem (p + 4) 0) ∧
    LOAD_U64 hn mem p 0 = LOAD_U64 hs mem p 0 ∧
    STORE_U64 hn mem p 0 (.big x) = STORE_U64 hs mem p 0 (.big x) := by
  refine ⟨store_load_split hs h1 mem p x hp, ?_, load_native_eq_split hs hn h1 h2 mem p hp,
    store_native_eq_split hs hn mem p x hp⟩
  have hl : LOAD_U64 hs mem p 0 = .big ((DEREF_U32 mem p 0 : Nat) +
      4294967296 * (DEREF_U32 mem (p + 4) 0 : Nat)) := by
    have e3 : (p + 4) / 4 + 0 = p / 4 + (0 * 2 + 1) := by omega
    simp only [LOAD_U64, h1, Bool.false_eq_true, if_false, DEREF_U32, e3, Nat.zero_mul]
  obtain ⟨mem', hm, w0, w1, _⟩ := store_load_split hs h1 mem p
    ((DEREF_U32 mem p 0 : Nat) + 4294967296 * (DEREF_U32 mem (p + 4) 0 : Nat)) hp
  have b0 : DEREF_U32 mem p 0 < 4294967296 := HEAPU32_lt _ _
  have b1 : DEREF_U32 mem (p + 4) 0 < 4294967296 := HEAPU32_lt _ _
  refine ⟨mem', by rw [hl]; exact hm, ?_, ?_⟩
  · rw [w0]; omega
  · rw [w1]; omega

theorem lor_one_land_one (f : Nat) : (f ||| 1) &&& 1 = 1 := by
  rw [Nat.and_one_is_mod, Nat.or_mod_two_eq_one]
  exact Or.inr rfl

/-- C13, amended: for a fixed CIF (variadic flag clear on entry)
`ffi_prep_cif_machdep` returns `FFI_OK`, sets the fixed-argument count to the total
argument count and leaves the flag clear.  For a variadic one
(`ffi_prep_cif_machdep_var (cif, nfixedargs, ntotalargs)` followed by
`ffi_prep_cif_machdep`, with `cif.nargs = ntotalargs`) both steps return `FFI_OK`,
the variadic flag is set and the fixed-argument count is `nfixedargs`, for every
`nfixedargs` and `ntotalargs`; so fixed ≤ total holds when the caller passed
`nfixedargs ≤ ntotalargs`, and the flag is set also when `nfixedargs = ntotalargs`. -/
theorem ffi_prep_cif_machdep_invariant (cif : ffi_cif) (nfixedargs ntotalargs : Nat) :
    (cif.flags &&& VARARGS_FLAG = 0 →
      ffi_prep_cif_machdep cif = (.FFI_OK, { cif with nfixedargs := cif.nargs })) ∧
    (cif.nargs = ntotalargs →
      ∃ c, ffi_prep_cif_machdep (ffi_prep_cif_machdep_var cif nfixedargs ntotalargs).2 =
          (.FFI_OK, c) ∧
        (ffi_prep_cif_machdep_var cif nfixedargs ntotalargs).1 = .FFI_OK ∧
        c.nargs = ntotalargs ∧ c.nfixedargs = nfixedargs ∧ c.flags &&& VARARGS_FLAG = 1 ∧
        (nfixedargs ≤ ntotalargs → c.nfixedargs ≤ c.nargs)) := by
  constructor
  · intro h
    simp [ffi_prep_cif_machdep, h]
  · intro h
    refine ⟨{ cif with flags := cif.flags ||| VARARGS_FLAG, nfixedargs := nfixedargs }, ?_, rfl,
      h, rfl, lor_one_land_one _, fun hle => by simpa [h] using hle⟩
    simp [ffi_prep_cif_machdep, ffi_prep_cif_machdep_var, lor_one_land_one]

/-- C13, counterexample: the variadic prepare step with `nfixedargs = ntotalargs = 1`
leaves the variadic flag set although fixed < total is false; and with
`nfixedargs = 2`, `ntotalargs = 1` it is accepted (`FFI_OK`) and leaves a
fixed-argument count above the total argument count. -/
theorem ffi_prep_cif_machdep_counterexample :
    (ffi_prep_cif_machdep (ffi_prep_cif_machdep_var ⟨2, 1, 0, 0, 0, 0, 0⟩ 1 1).2 =
        (.FFI_OK, ⟨2, 1, 0, 0, 0, 1, 1⟩) ∧
      ¬ ((1 : Nat) &&& VARARGS_FLAG = 1 ↔ (1 : Nat) < 1)) ∧
    (ffi_prep_cif_machdep (ffi_prep_cif_machdep_var ⟨2, 1, 0, 0, 0, 0, 0⟩ 2 1).2 =
        (.FFI_OK, ⟨2, 1, 0, 0, 0, 1, 2⟩) ∧ ¬ ((2 : Nat) ≤ 1)) := by
  decide

theorem getLast_concat_lt (l : List Nat) (x : Nat) : (l ++ [x]).getLast? = some x := by
  simp

theorem getEmptyTableSlot_lt (s : State) (hf : ∀ i ∈ s.freeTableIndexes, i < 4294967296)
    (hl : s.tableLength < 4294967296) : (getEmptyTableSlot s).1 < 4294967296 := by
  unfold getEmptyTableSlot
  cases hg : s.freeTableIndexes.getLast? with
  | none => exact hl
  | some index => exact hf index (List.mem_of_getLast?_eq_some hg)

theorem alloc_words (al : Allocator) (size code : Nat) (s : State)
    (hf : ∀ i ∈ s.freeTableIndexes, i < 4294967296) (hl : s.tableLength < 4294967296) :
    DEREF_U32 (ffi_closure_alloc al size code s).2.mem code 0 =
      (getEmptyTableSlot { s with mem := (al.malloc size s.mem).2 }).1 ∧
    CLOSURE__wrapper (ffi_closure_alloc al size code s).2.mem
      (ffi_closure_alloc al size code s).1 =
      (getEmptyTableSlot { s with mem := (al.malloc size s.mem).2 }).1 := by
  have hlt := getEmptyTableSlot_lt { s with mem := (al.malloc size s.mem).2 } hf hl
  constructor
  · simp only [ffi_closure_alloc, ffi_closure_alloc_helper, DEREF_U32, DEREF_U32_set]
    by_cases he : (al.malloc size s.mem).1 / 4 + 0 = code / 4 + 0
    · rw [he, HEAPU32_set_same]; omega
    · rw [HEAPU32_set_other _ _ _ _ he, HEAPU32_set_same]; omega
  · simp only [ffi_closure_alloc, ffi_closure_alloc_helper, CLOSURE__wrapper, DEREF_U32,
      DEREF_U32_set]
    rw [HEAPU32_set_same]; omega

/-- C14: from any state of the slot pool whose indices fit a 32-bit word,
`ffi_closure_alloc`, then `ffi_closure_free` of the returned block, then a second
`ffi_closure_alloc` stores to the second code location the slot index that the
first call stored to the first code location; each of the two indices is the one
recorded in word 0 of the block that the same call returned; and the pool after
the second allocation is the pool after the first. -/
theorem ffi_closure_alloc_free_alloc (al : Allocator) (size1 code1 size2 code2 : Nat) (s : State)
    (hf : ∀ i ∈ s.freeTableIndexes, i < 4294967296) (hl : s.tableLength < 4294967296) :
    let r1 := ffi_closure_alloc al size1 code1 s
    let s2 := ffi_closure_free al r1.1 r1.2
    let r2 := ffi_closure_alloc al size2 code2 s2
    DEREF_U32 r2.2.mem code2 0 = DEREF_U32 r1.2.mem code1 0 ∧
    CLOSURE__wrapper r1.2.mem r1.1 = DEREF_U32 r1.2.mem code1 0 ∧
    CLOSURE__wrapper r2.2.mem r2.1 = DEREF_U32 r2.2.mem code2 0 ∧
    r2.2.freeTableIndexes = r1.2.freeTableIndexes ∧ r2.2.tableLength = r1.2.tableLength := by
  intro r1 s2 r2
  obtain ⟨a1, a2⟩ := alloc_words al size1 code1 s hf hl
  have hidx : CLOSURE__wrapper r1.2.mem r1.1 = DEREF_U32 r1.2.mem code1 0 := by
    rw [a1]; exact a2
  have hslot : getEmptyTableSlot { s2 with mem := (al.malloc size2 s2.mem).2 } =
      (DEREF_U32 r1.2.mem code1 0,
        { s2 with mem := (al.malloc size2 s2.mem).2,
                  freeTableIndexes := r1.2.freeTableIndexes }) := by
    simp [getEmptyTableSlot, s2, ffi_closure_free, ffi_closure_free_helper, hidx]
  have hlt : DEREF_U32 r1.2.mem code1 0 < 4294967296 := HEAPU32_lt _ _
  have b1 : DEREF_U32 r2.2.mem code2 0 = DEREF_U32 r1.2.mem code1 0 := by
    simp only [r2, ffi_closure_alloc, ffi_closure_alloc_helper, hslot, DEREF_U32, DEREF_U32_set]
    by_cases he : (al.malloc size2 s2.mem).1 / 4 + 0 = code2 / 4 + 0
    · rw [he, HEAPU32_set_same]; exact Nat.mod_eq_of_lt hlt
    · rw [HEAPU32_set_other _ _ _ _ he, HEAPU32_set_same]; exact Nat.mod_eq_of_lt hlt
  have b2 : CLOSURE__wrapper r2.2.mem r2.1 = DEREF_U32 r1.2.mem code1 0 := by
    simp only [r2, ffi_closure_alloc, ffi_closure_alloc_helper, hslot, CLOSURE__wrapper,
      DEREF_U32, DEREF_U32_set]
    rw [HEAPU32_set_same]; exact Nat.mod_eq_of_lt hlt
  refine ⟨b1, hidx, by rw [b2, b1], ?_, ?_⟩
  · simp [r2, ffi_closure_alloc, ffi_closure_alloc_helper, hslot]
  · simp only [r2, ffi_closure_alloc, ffi_closure_alloc_helper, hslot]
    simp [s2, ffi_closure_free, ffi_closure_free_helper]

theorem closure_unbox_args_length (mem : Mem) (fuel at_ : Nat) :
    ∀ (n i : Nat) (acc ids : List Nat), closure_unbox_args mem fuel at_ n i acc = some ids →
      ids.length = acc.length + n := by
  intro n
  induction n with
  | zero => intro i acc ids h; simp [closure_unbox_args] at h; subst h; rfl
  | succ n ih =>
    intro i acc ids h
    simp only [closure_unbox_args] at h
    cases hu : unbox_small_structs mem fuel (DEREF_U32 mem at_ i) with
    | none => rw [hu] at h; cases h
    | some r =>
      rw [hu] at h
      have := ih _ _ _ h
      simp at this
      omega

theorem ffi_call_invoke_sp (h : Host) (fn rvalue rtype_id : Nat) (rba : Bool) (orig : Nat)
    (args : List JSVal) (s s' : State)
    (hs : (ffi_call_invoke h fn rvalue rtype_id rba orig args s).state? = some s') :
    s'.sp = orig := by
  unfold ffi_call_invoke at hs
  simp only [] at hs
  split at hs
  · simp only [Res.state?, Option.some.injEq] at hs; rw [← hs]
  · split at hs
    · simp only [Res.state?, Option.some.injEq] at hs; rw [← hs]
    · simp only [Res.state?, Option.some.injEq] at hs; rw [← hs]

theorem ffi_call_sp (h : Host) (fuel cif fn rvalue avalue : Nat) (s s' : State)
    (hs : (ffi_call h fuel cif fn rvalue avalue s).state? = some s') : s'.sp = s.sp := by
  unfold ffi_call at hs
  simp only [] at hs
  split at hs
  · simp [Res.state?] at hs
  · split at hs
    · simp only [Res.state?, Option.some.injEq] at hs; rw [← hs]
    · split at hs
      · simp only [Res.state?, Option.some.injEq] at hs; rw [← hs]
      · split at hs
        · simp [Res.state?] at hs
        · simp only [Res.state?, Option.some.injEq] at hs; rw [← hs]
        · split at hs
          · split at hs
            · simp [Res.state?] at hs
            · simp only [Res.state?, Option.some.injEq] at hs; rw [← hs]
            · exact ffi_call_invoke_sp _ _ _ _ _ _ _ _ _ hs
          · exact ffi_call_invoke_sp _ _ _ _ _ _ _ _ _ hs

theorem trampoline_marshal_ok (h : Host) (t : Tramp) (args : List JSVal) (s s1 : State)
    (ret_ptr : JSVal) (ret_addr args_ptr : Nat)
    (hm : trampoline_marshal h t args s = .ok (ret_ptr, ret_addr, args_ptr) s1) :
    ret_addr = (if t.ret_by_arg then s.sp else STACK_ALLOC s.sp 8 8) ∧
    ret_ptr = (if t.ret_by_arg then args.headD .undefined else .num ret_addr) ∧
    args_ptr = ret_addr - 4 * t.nargs ∧
    s1.calls = s.calls ∧ s1.table = s.table ∧
    ∃ cur1 mem1,
      trampoline_args h t.unboxed_arg_type_id_list args_ptr
        ((if t.nfixedargs < t.nargs then args.dropLast else args).drop
          (if t.ret_by_arg then 1 else 0)) 0 args_ptr s.mem = .ok cur1 mem1 ∧
      s1.sp = cur1 ∧
      s1.mem = trampoline_varargs t.unboxed_arg_type_id_list args_ptr (t.nargs - t.nfixedargs)
        t.nfixedargs (if t.nfixedargs < t.nargs then asAddr (args.getLast?.getD .undefined) else 0)
        mem1 := by
  unfold trampoline_marshal at hm
  simp only [] at hm
  split at hm
  · cases hm
  · cases hm
  · rename_i cur1 mem1 hloop
    simp only [Res.ok.injEq, Prod.mk.injEq] at hm
    obtain ⟨⟨e1, e2, e3⟩, e4⟩ := hm
    subst e4
    refine ⟨e2.symm, ?_, ?_, rfl, rfl, cur1, mem1, ?_, rfl, ?_⟩
    · rw [← e1, ← e2]
    · rw [← e3, ← e2]
    · rw [← e3]; exact hloop
    · rw [← e3]

theorem trampoline_sp (h : Host) (t : Tramp) (args : List JSVal) (s s' : State)
    (hs : (trampoline h t args s).state? = some s') : s'.sp = s.sp := by
  unfold trampoline at hs
  simp only [] at hs
  split at hs
  · simp [Res.state?] at hs
  · rename_i e s1 hm
    simp only [Res.state?, Option.some.injEq] at hs
    subst hs
    unfold trampoline_marshal at hm
    simp only [] at hm
    split at hm
    · cases hm
    · simp only [Res.throw.injEq] at hm; rw [← hm.2]
    · cases hm
  · split at hs
    · simp only [Res.state?, Option.some.injEq] at hs; rw [← hs]
    · simp only [Res.state?, Option.some.injEq] at hs; rw [← hs]

/-- C12: on every path on which `ffi_call` finishes (normal return or a raise), and
on every path on which a generated trampoline finishes, the stack pointer of the
final state equals the stack pointer on entry, for every CIF and every closure,
fixed-only or variadic. -/
theorem stack_pointer_preserved (h : Host) (fuel cif fn rvalue avalue : Nat) (t : Tramp)
    (args : List JSVal) (s : State) :
    (∀ s', (ffi_call h fuel cif fn rvalue avalue s).state? = some s' → s'.sp = s.sp) ∧
    (∀ s', (trampoline h t args s).state? = some s' → s'.sp = s.sp) :=
  ⟨fun s' hs => ffi_call_sp h fuel cif fn rvalue avalue s s' hs,
   fun s' hs => trampoline_sp h t args s s' hs⟩

theorem STACK_ALLOC_le (cur size align : Nat) : STACK_ALLOC cur size align ≤ cur := by
  simp only [STACK_ALLOC, ALIGN_ADDRESS]
  have := Nat.div_mul_le_self cur align
  omega

theorem trampoline_arg_le (h : Host) (mem mem' : Mem) (id : Option Nat)
    (args_ptr c cur cur' : Nat) (v nxt : JSVal)
    (hh : trampoline_arg h mem id args_ptr c cur v nxt = .ok cur' mem') : cur' ≤ cur := by
  unfold trampoline_arg at hh
  repeat' split at hh
  all_goals try (dsimp only at hh; split at hh)
  all_goals try split at hh
  all_goals
    cases hh <;> first | exact STACK_ALLOC_le _ _ _ | exact Nat.le_refl _

theorem trampoline_args_le (h : Host) (ids : List Nat) (args_ptr : Nat) :
    ∀ (n : Nat) (vals : List JSVal), vals.length ≤ n → ∀ (c cur : Nat) (mem : Mem)
      (cur1 : Nat) (mem1 : Mem),
      trampoline_args h ids args_ptr vals c cur mem = .ok cur1 mem1 → cur1 ≤ cur := by
  intro n
  induction n with
  | zero =>
    intro vals hl c cur mem cur1 mem1 hh
    have : vals = [] := List.length_eq_zero.mp (by omega)
    subst this
    simp only [trampoline_args, Res.ok.injEq] at hh
    omega
  | succ n ih =>
    intro vals hl c cur mem cur1 mem1 hh
    cases vals with
    | nil => simp only [trampoline_args, Res.ok.injEq] at hh; omega
    | cons v rest =>
      simp only [trampoline_args] at hh
      split at hh
      · cases hh
      · cases hh
      · rename_i cur2 mem2 hstep
        have h1 := trampoline_arg_le _ _ _ _ _ _ _ _ _ _ hstep
        simp only [List.length_cons] at hl
        split at hh
        · cases rest with
          | nil => simp only [Res.ok.injEq] at hh; omega
          | cons w rest1 =>
            simp only [List.length_cons] at hl
            have := ih rest1 (by omega) _ _ _ _ _ hh
            omega
        · have := ih rest (by omega) _ _ _ _ _ hh
          omega

theorem DEREF_U32_aligned (mem : Mem) (a : Nat) (ha : a % 4 = 0) :
    DEREF_U32 mem a 0 = load32 mem a := by
  have e : 4 * (a / 4 + 0) = a := by omega
  simp only [DEREF_U32, HEAPU32, load32, e]

theorem LOAD_U64_aligned (h : Host) (mem : Mem) (a : Nat) (ha : a % 8 = 0) :
    LOAD_U64 h mem a 0 = .big (load64 mem a) := by
  have e1 : 4 * (2 * (a / 8 + 0)) = a := by omega
  have e2 : 4 * (2 * (a / 8 + 0) + 1) = a + 4 := by omega
  have e3 : 4 * (a / 4 + 0 * 2) = a := by omega
  have e4 : 4 * (a / 4 + (0 * 2 + 1)) = a + 4 := by omega
  have a5 : a + 4 + 1 = a + 5 := by omega
  have a6 : a + 4 + 2 = a + 6 := by omega
  have a7 : a + 4 + 3 = a + 7 := by omega
  unfold LOAD_U64
  split
  · simp only [DEREF_U64, HEAPU64, HEAPU32, e1, e2, load64, a5, a6, a7]
    congr 1
    push_cast
    ring
  · simp only [DEREF_U32, HEAPU32, e3, e4, load64, a5, a6, a7]
    congr 1
    push_cast
    ring

/-- C19: when the marshalling part of a trampoline completes, the trampoline
completes, having called the user handler once with the CIF, the return buffer, the
argument pointer array and the user data.  When the CIF is not return-by-reference
(and the entry stack pointer is at least 8) the return buffer passed is an
8-aligned slot of 8 bytes on the stack below the entry stack pointer, and the
value returned to the host caller is read from that buffer in the memory the
handler left: the 32-bit word for `i`, the 64-bit integer for `j`, no value for
`v`.  When the CIF is return-by-reference the return buffer passed is the first
incoming value and no value is returned. -/
theorem trampoline_return_value (h : Host) (t : Tramp) (args : List JSVal) (s s1 : State)
    (ret_ptr : JSVal) (ret_addr args_ptr : Nat)
    (hm : trampoline_marshal h t args s = .ok (ret_ptr, ret_addr, args_ptr) s1) :
    ∃ s2 v, trampoline h t args s = .ok v s2 ∧
      s2.calls = s.calls ++ [⟨CLOSURE__fun s1.mem t.closure,
        [.num (CLOSURE__cif s1.mem t.closure), ret_ptr, .num args_ptr,
          .num (CLOSURE__user_data s1.mem t.closure)], s1.mem, s1.sp⟩] ∧
      s2.mem = (h.callee (CLOSURE__fun s1.mem t.closure)
        [.num (CLOSURE__cif s1.mem t.closure), ret_ptr, .num args_ptr,
          .num (CLOSURE__user_data s1.mem t.closure)] s1.mem s1.sp).2.1 ∧
      (t.ret_by_arg = false → 8 ≤ s.sp →
        ret_ptr = .num ret_addr ∧ ret_addr % 8 = 0 ∧ ret_addr + 8 ≤ s.sp ∧
        s1.sp ≤ ret_addr ∧
        (t.sig.head? = some 'i' → v = .num (load32 s2.mem ret_addr)) ∧
        (t.sig.head? = some 'j' → v = .big (load64 s2.mem ret_addr)) ∧
        (t.sig.head? = some 'v' → v = .undefined)) ∧
      (t.ret_by_arg = true → ret_ptr = args.headD .undefined ∧ v = .undefined) := by
  obtain ⟨e1, e2, e3, e4, _, cur1, mem1, hloop, e5, _⟩ :=
    trampoline_marshal_ok h t args s s1 ret_ptr ret_addr args_ptr hm
  cases hrb : t.ret_by_arg with
  | true =>
    refine ⟨_, .undefined, by simp only [trampoline, hm, hrb, if_true]; rfl, by simp [e4], rfl,
      (fun hf => by cases hf), fun _ => ⟨by rw [e2, hrb]; rfl, rfl⟩⟩
  | false =>
    refine ⟨_, _, by simp only [trampoline, hm, hrb, Bool.false_eq_true, if_false]; rfl,
      by simp [e4], rfl, fun _ h8 => ?_, (fun hf => by cases hf)⟩
    rw [hrb] at e1 e2
    simp only [Bool.false_eq_true, if_false, STACK_ALLOC, ALIGN_ADDRESS] at e1 e2
    have a8 : ret_addr % 8 = 0 := by omega
    have hsp : s1.sp ≤ ret_addr := by
      have := trampoline_args_le h _ _ _ _ (Nat.le_refl _) _ _ _ _ _ hloop
      omega
    refine ⟨e2, a8, by omega, hsp, fun hi => ?_, fun hj => ?_, fun hv => ?_⟩
    · simp only [trampoline_result, hi]
      exact congrArg JSVal.num (congrArg Nat.cast (DEREF_U32_aligned _ _ (by omega)))
    · simp only [trampoline_result, hj]
      exact LOAD_U64_aligned _ _ _ a8
    · simp only [trampoline_result, hv]
      rfl

/-- C18: when the marshalling part of the trampoline of a variadic closure
(`nfixedargs < nargs`) completes and the last incoming value is the block address
`B` (at or above the entry stack pointer, the block inside the 32-bit address
space): for every variadic index `k`, entry `k` of the argument pointer array is
`B + 4 * (k - nfixedargs)` when the resolved kind of argument `k` is not aggregate,
and the 32-bit word stored at `B + 4 * (k - nfixedargs)` when it is; the stride is
4 bytes whatever the kind.  The variadic loop leaves the entries of the fixed
arguments, and every byte outside the variadic entries, as the fixed loop left
them. -/
theorem trampoline_variadic_entries (h : Host) (t : Tramp) (args : List JSVal) (s s1 : State)
    (ret_ptr : JSVal) (ret_addr args_ptr B : Nat)
    (hm : trampoline_marshal h t args s = .ok (ret_ptr, ret_addr, args_ptr) s1)
    (hvar : t.nfixedargs < t.nargs)
    (hlast : args.getLast? = some (.num B))
    (hsp : s.sp % 4 = 0) (hdeep : 4 * t.nargs + 16 ≤ s.sp) (hB : s.sp ≤ B)
    (hB32 : B + 4 * (t.nargs - t.nfixedargs) ≤ 4294967296) :
    ∃ cur1 mem1,
      trampoline_args h t.unboxed_arg_type_id_list args_ptr
        (args.dropLast.drop (if t.ret_by_arg then 1 else 0)) 0 args_ptr s.mem = .ok cur1 mem1 ∧
      (∀ k, t.nfixedargs ≤ k → k < t.nargs →
        (t.unboxed_arg_type_id_list.get? k ≠ some FFI_TYPE_STRUCT →
          DEREF_U32 s1.mem args_ptr k = B + 4 * (k - t.nfixedargs)) ∧
        (t.unboxed_arg_type_id_list.get? k = some FFI_TYPE_STRUCT →
          DEREF_U32 s1.mem args_ptr k = DEREF_U32 s1.mem (B + 4 * (k - t.nfixedargs)) 0)) ∧
      (∀ i, i < t.nfixedargs → DEREF_U32 s1.mem args_ptr i = DEREF_U32 mem1 args_ptr i) ∧
      (∀ a, a < args_ptr + 4 * t.nfixedargs ∨ args_ptr + 4 * t.nargs ≤ a →
        s1.mem a = mem1 a) := by
  obtain ⟨e1, e2, e3, e4, _, cur1, mem1, hloop, e5, e6⟩ :=
    trampoline_marshal_ok h t args s s1 ret_ptr ret_addr args_ptr hm
  simp only [hvar, if_true, hlast, Option.getD_some, asAddr, Int.toNat_ofNat] at hloop e6
  have hret : ret_addr ≤ s.sp ∧ ret_addr % 4 = 0 ∧ 4 * t.nargs ≤ ret_addr := by
    rw [e1]
    split
    · exact ⟨Nat.le_refl _, hsp, by omega⟩
    · simp only [STACK_ALLOC, ALIGN_ADDRESS]; omega
  have hA : args_ptr % 4 = 0 := by omega
  have hab : args_ptr + 4 * (t.nfixedargs + (t.nargs - t.nfixedargs)) ≤ B := by omega
  obtain ⟨hf, he⟩ := trampoline_varargs_spec t.unboxed_arg_type_id_list args_ptr hA
    (t.nargs - t.nfixedargs) t.nfixedargs B mem1 hab
  have hfr : ∀ a, a < args_ptr + 4 * t.nfixedargs ∨ args_ptr + 4 * t.nargs ≤ a →
      s1.mem a = mem1 a := by
    intro a ha
    rw [e6]
    exact hf a (by omega)
  refine ⟨cur1, mem1, hloop, fun k hk1 hk2 => ⟨fun hns => ?_, fun hst => ?_⟩, fun i hi => ?_, hfr⟩
  · rw [e6, he k hk1 (by omega), if_neg hns]
    exact Nat.mod_eq_of_lt (by omega)
  · have hblk : DEREF_U32 s1.mem (B + 4 * (k - t.nfixedargs)) 0 =
        DEREF_U32 mem1 (B + 4 * (k - t.nfixedargs)) 0 := by
      apply HEAPU32_congr
      intro j hj
      exact hfr _ (by omega)
    rw [hblk, e6, he k hk1 (by omega), if_pos hst]
  · apply HEAPU32_congr
    intro j hj
    exact hfr _ (by omega)

theorem ffi_call_vararg_ok (mem mem1 : Mem) (id p va va1 : Nat) (hva : 16 ≤ va)
    (hh : ffi_call_vararg mem id p va = .ok (va1, mem1)) :
    ∃ sz al, varargSlot id = some (sz, al) ∧ va1 = STACK_ALLOC va sz al ∧ 0 < al ∧
      va1 % al = 0 ∧ va1 + sz ≤ va ∧ va ≤ va1 + 31 ∧
      ∀ a, a < va1 ∨ va1 + sz ≤ a → mem1 a = mem a := by
  unfold ffi_call_vararg at hh
  split at hh
  · rename_i hc
    simp only [Except.ok.injEq, Prod.mk.injEq] at hh
    obtain ⟨e1, e2⟩ := hh
    refine ⟨1, 1, by simp [varargSlot, hc], e1.symm, by omega, by omega, ?_, ?_, ?_⟩
    · rw [← e1]; simp only [STACK_ALLOC, ALIGN_ADDRESS]; omega
    · rw [← e1]; simp only [STACK_ALLOC, ALIGN_ADDRESS]; omega
    · intro a ha
      rw [← e2]
      simp only [DEREF_U8_set, HEAPU8_set]
      exact setByte_frame _ _ _ _ (by omega)
  · split at hh
    · rename_i hc0 hc
      simp only [Except.ok.injEq, Prod.mk.injEq] at hh
      obtain ⟨e1, e2⟩ := hh
      have hv : va1 = va / 2 * 2 - 2 := by rw [← e1]; rfl
      refine ⟨2, 2, by simp [varargSlot, hc0, hc], e1.symm, by omega, by omega, by omega,
        by omega, ?_⟩
      intro a ha
      rw [← e2]
      simp only [DEREF_U16_set]
      rw [e1]
      exact HEAPU16_set_frame _ _ _ _ (by omega)
    · split at hh
      · rename_i hc0 hc1 hc
        simp only [Except.ok.injEq, Prod.mk.injEq] at hh
        obtain ⟨e1, e2⟩ := hh
        have hv : va1 = va / 4 * 4 - 4 := by rw [← e1]; rfl
        refine ⟨4, 4, by simp [varargSlot, hc0, hc1, hc], e1.symm, by omega, by omega,
          by omega, by omega, ?_⟩
        intro a ha
        rw [← e2]
        simp only [DEREF_U32_set]
        rw [e1]
        exact HEAPU32_set_frame _ _ _ _ (by omega)
      · split at hh
        · rename_i hc0 hc1 hc2 hc
          simp only [Except.ok.injEq, Prod.mk.injEq] at hh
          obtain ⟨e1, e2⟩ := hh
          have hv : va1 = va / 8 * 8 - 8 := by rw [← e1]; rfl
          refine ⟨8, 8, by simp [varargSlot, hc0, hc1, hc2, hc], e1.symm, by omega, by omega,
            by omega, by omega, ?_⟩
          intro a ha
          rw [← e2]
          simp only [DEREF_U32_set]
          rw [e1, HEAPU32_set_frame _ _ _ _ (by omega), HEAPU32_set_frame _ _ _ _ (by omega)]
        · split at hh
          · rename_i hc0 hc1 hc2 hc3 hc
            simp only [Except.ok.injEq, Prod.mk.injEq] at hh
            obtain ⟨e1, e2⟩ := hh
            have hv : va1 = va / 16 * 16 - 16 := by rw [← e1]; rfl
            refine ⟨16, 16, by simp [varargSlot, hc0, hc1, hc2, hc3, hc], e1.symm, by omega,
              by omega, by omega, by omega, ?_⟩
            intro a ha
            rw [← e2]
            simp only [DEREF_U32_set]
            rw [e1, HEAPU32_set_frame _ _ _ _ (by omega), HEAPU32_set_frame _ _ _ _ (by omega),
              HEAPU32_set_frame _ _ _ _ (by omega), HEAPU32_set_frame _ _ _ _ (by omega)]
          · split at hh
            · rename_i hc0 hc1 hc2 hc3 hc4 hc
              simp only [Except.ok.injEq, Prod.mk.injEq] at hh
              obtain ⟨e1, e2⟩ := hh
              have hv : va1 = va / 4 * 4 - 4 := by rw [← e1]; rfl
              refine ⟨4, 4, by simp [varargSlot, hc0, hc1, hc2, hc3, hc4, hc], e1.symm,
                by omega, by omega, by omega, by omega, ?_⟩
              intro a ha
              rw [← e2]
              simp only [DEREF_U32_set]
              rw [e1]
              exact HEAPU32_set_frame _ _ _ _ (by omega)
            · split at hh
              · cases hh
              · cases hh

theorem ffi_call_varargs_slots_spec (fuel av at_ nf : Nat) :
    ∀ (n S : Nat) (mem : Mem) (va' : Nat) (mem' : Mem),
      ffi_call_varargs fuel av at_ nf n S mem = .ok va' mem' → 32 * n ≤ S →
      (ffi_call_varargs_slots fuel av at_ nf n S mem).map (fun x => x.1) =
        (List.range n).reverse.map (fun j => nf + j) ∧
      SlotsDescend (ffi_call_varargs_slots fuel av at_ nf n S mem) S ∧
      ((ffi_call_varargs_slots fuel av at_ nf n S mem).getLast?.map (fun x => x.2.2)).getD S =
        va' := by
  intro n
  induction n with
  | zero =>
    intro S mem va' mem' hok _
    simp only [ffi_call_varargs, Res.ok.injEq] at hok
    simp [ffi_call_varargs_slots, SlotsDescend, hok.1]
  | succ n ih =>
    intro S mem va' mem' hok hdeep
    simp only [ffi_call_varargs] at hok
    simp only [ffi_call_varargs_slots]
    cases hu : unbox_small_structs mem fuel (DEREF_U32 mem at_ (nf + n)) with
    | none => rw [hu] at hok; cases hok
    | some r =>
      obtain ⟨p, k⟩ := r
      rw [hu] at hok
      simp only [] at hok ⊢
      cases hv : ffi_call_vararg mem k (DEREF_U32 mem av (nf + n)) S with
      | error e => rw [hv] at hok; cases hok
      | ok r1 =>
        obtain ⟨va1, mem1⟩ := r1
        rw [hv] at hok
        simp only [] at hok ⊢
        obtain ⟨sz, al, hslot, _, _, hal, hle, hlow, _⟩ :=
          ffi_call_vararg_ok mem mem1 k _ S va1 (by omega) hv
        obtain ⟨i1, i2, i3⟩ := ih va1 mem1 va' mem' hok (by omega)
        refine ⟨?_, ⟨⟨sz, al, hslot, hal, hle⟩, i2⟩, ?_⟩
        · simp only [List.map_cons, i1, List.range_succ, List.reverse_append,
            List.reverse_singleton, List.singleton_append]
        · cases hs : ffi_call_varargs_slots fuel av at_ nf n va1 mem1 with
          | nil => rw [hs] at i3; simpa using i3
          | cons x xs =>
            rw [hs] at i3
            rw [List.getLast?_cons_cons]
            exact i3

theorem ffi_call_varargs_frame (fuel av at_ nf : Nat) :
    ∀ (n va : Nat) (mem : Mem), 32 * n ≤ va →
      ∀ s', (ffi_call_varargs fuel av at_ nf n va mem).state? = some s' →
        ∀ a, a < va - 32 * n ∨ va ≤ a → s' a = mem a := by
  intro n
  induction n with
  | zero =>
    intro va mem _ s' hs a _
    simp only [ffi_call_varargs, Res.state?, Option.some.injEq] at hs
    rw [← hs]
  | succ n ih =>
    intro va mem hdeep s' hs a ha
    simp only [ffi_call_varargs] at hs
    cases hu : unbox_small_structs mem fuel (DEREF_U32 mem at_ (nf + n)) with
    | none => rw [hu] at hs; simp [Res.state?] at hs
    | some r =>
      obtain ⟨p, k⟩ := r
      rw [hu] at hs
      simp only [] at hs
      cases hv : ffi_call_vararg mem k (DEREF_U32 mem av (nf + n)) va with
      | error e =>
        rw [hv] at hs
        simp only [Res.state?, Option.some.injEq] at hs
        rw [← hs]
      | ok r1 =>
        obtain ⟨va1, mem1⟩ := r1
        rw [hv] at hs
        simp only [] at hs
        obtain ⟨sz, al, _, _, _, _, hle, hlow, hfr⟩ :=
          ffi_call_vararg_ok mem mem1 k _ va va1 (by omega) hv
        rw [ih va1 mem1 (by omega) s' hs a (by omega), hfr a (by omega)]

/-- The host call of a variadic `ffi_call`: its argument list ends with the
address that the variadic loop returns, and it runs on the memory and stack
pointer that the loop leaves. -/
theorem ffi_call_variadic_call (h : Host) (fuel cif fn rvalue avalue : Nat) (s : State)
    (rtype_ptr rtype_id : Nat) (fixed : List JSVal) (va' : Nat) (mem' : Mem)
    (hu : unbox_small_structs s.mem fuel (CIF__RTYPE s.mem cif) = some (rtype_ptr, rtype_id))
    (hc : rtype_id ≠ FFI_TYPE_COMPLEX) (hl : rtype_id ≤ FFI_TYPE_LAST)
    (hfix : ffi_call_fixed_args h fuel s.mem avalue (CIF__ARGTYPES s.mem cif)
      (CIF__NFIXEDARGS s.mem cif) 0 [] = .ok fixed)
    (hne : CIF__NFIXEDARGS s.mem cif ≠ CIF__NARGS s.mem cif)
    (hok : ffi_call_varargs fuel avalue (CIF__ARGTYPES s.mem cif) (CIF__NFIXEDARGS s.mem cif)
      (CIF__NARGS s.mem cif - CIF__NFIXEDARGS s.mem cif) s.sp s.mem = .ok va' mem') :
    ∃ s', (ffi_call h fuel cif fn rvalue avalue s).state? = some s' ∧
      s'.calls = s.calls ++ [⟨fn,
        (if rtype_id = FFI_TYPE_LONGDOUBLE ∨ rtype_id = FFI_TYPE_STRUCT then [.num rvalue]
          else []) ++ fixed ++ [.num va'], mem', va'⟩] := by
  have hl' : ¬ rtype_id > FFI_TYPE_LAST := by omega
  simp only [ffi_call, hu, hc, hl', if_false]
  rw [ffi_call_fixed_args_acc, hfix]
  simp only [hne, ne_eq, not_false_eq_true, if_true, hok, ffi_call_invoke]
  by_cases hb : rtype_id = FFI_TYPE_LONGDOUBLE ∨ rtype_id = FFI_TYPE_STRUCT
  · simp only [hb, decide_True, if_true]
    exact ⟨_, rfl, rfl⟩
  · simp only [hb, decide_False, Bool.false_eq_true, if_false]
    cases ffi_call_result h (h.callee fn ([] ++ fixed ++ [JSVal.num va']) mem' va').2.1 rtype_id
      rvalue (h.callee fn ([] ++ fixed ++ [JSVal.num va']) mem' va').1 with
    | ok m => exact ⟨_, rfl, rfl⟩
    | error e => exact ⟨_, rfl, rfl⟩

/-- C16: for a variadic CIF (`nfixedargs < nargs`) with supported return kind, on
which the fixed and the variadic loop of `ffi_call` complete, with entry stack
pointer `S = s.sp` at least `32 * (nargs - nfixedargs)`: the variadic loop
processes the indices `nargs - 1` down to `nfixedargs`; every slot address is a
multiple of the alignment of its kind; the first slot processed ends at or below
`S` and every later one ends at or below the slot processed before it (sizes and
alignments as in `varargSlot`); the last slot processed is the one of index
`nfixedargs`, at the address `va` that the loop returns; and `ffi_call` makes one
host call whose argument list is the fixed arguments followed by the single value
`va`, run with `va` as stack pointer. -/
theorem ffi_call_variadic_slots (h : Host) (fuel cif fn rvalue avalue : Nat) (s : State)
    (rtype_ptr rtype_id : Nat) (fixed : List JSVal) (va' : Nat) (mem' : Mem)
    (hu : unbox_small_structs s.mem fuel (CIF__RTYPE s.mem cif) = some (rtype_ptr, rtype_id))
    (hc : rtype_id ≠ FFI_TYPE_COMPLEX) (hl : rtype_id ≤ FFI_TYPE_LAST)
    (hfix : ffi_call_fixed_args h fuel s.mem avalue (CIF__ARGTYPES s.mem cif)
      (CIF__NFIXEDARGS s.mem cif) 0 [] = .ok fixed)
    (hlt : CIF__NFIXEDARGS s.mem cif < CIF__NARGS s.mem cif)
    (hok : ffi_call_varargs fuel avalue (CIF__ARGTYPES s.mem cif) (CIF__NFIXEDARGS s.mem cif)
      (CIF__NARGS s.mem cif - CIF__NFIXEDARGS s.mem cif) s.sp s.mem = .ok va' mem')
    (hdeep : 32 * (CIF__NARGS s.mem cif - CIF__NFIXEDARGS s.mem cif) ≤ s.sp) :
    (ffi_call_varargs_slots fuel avalue (CIF__ARGTYPES s.mem cif) (CIF__NFIXEDARGS s.mem cif)
        (CIF__NARGS s.mem cif - CIF__NFIXEDARGS s.mem cif) s.sp s.mem).map (fun x => x.1) =
      (List.range (CIF__NARGS s.mem cif - CIF__NFIXEDARGS s.mem cif)).reverse.map
        (fun j => CIF__NFIXEDARGS s.mem cif + j) ∧
    SlotsDescend (ffi_call_varargs_slots fuel avalue (CIF__ARGTYPES s.mem cif)
      (CIF__NFIXEDARGS s.mem cif) (CIF__NARGS s.mem cif - CIF__NFIXEDARGS s.mem cif) s.sp s.mem)
      s.sp ∧
    (ffi_call_varargs_slots fuel avalue (CIF__ARGTYPES s.mem cif) (CIF__NFIXEDARGS s.mem cif)
        (CIF__NARGS s.mem cif - CIF__NFIXEDARGS s.mem cif) s.sp s.mem).getLast?.map
      (fun x => (x.1, x.2.2)) = some (CIF__NFIXEDARGS s.mem cif, va') ∧
    ∃ s', (ffi_call h fuel cif fn rvalue avalue s).state? = some s' ∧
      s'.calls = s.calls ++ [⟨fn,
        (if rtype_id = FFI_TYPE_LONGDOUBLE ∨ rtype_id = FFI_TYPE_STRUCT then [.num rvalue]
          else []) ++ fixed ++ [.num va'], mem', va'⟩] := by
  obtain ⟨i1, i2, i3⟩ := ffi_call_varargs_slots_spec fuel avalue (CIF__ARGTYPES s.mem cif)
    (CIF__NFIXEDARGS s.mem cif) _ s.sp s.mem va' mem' hok hdeep
  refine ⟨i1, i2, ?_, ffi_call_variadic_call h fuel cif fn rvalue avalue s rtype_ptr rtype_id fixed
    va' mem' hu hc hl hfix (by omega) hok⟩
  generalize hsl : ffi_call_varargs_slots fuel avalue (CIF__ARGTYPES s.mem cif)
    (CIF__NFIXEDARGS s.mem cif) (CIF__NARGS s.mem cif - CIF__NFIXEDARGS s.mem cif) s.sp s.mem =
    slots at i1 i3
  obtain ⟨m, hm⟩ : ∃ m, CIF__NARGS s.mem cif - CIF__NFIXEDARGS s.mem cif = m + 1 :=
    ⟨CIF__NARGS s.mem cif - CIF__NFIXEDARGS s.mem cif - 1, by omega⟩
  rw [hm] at i1
  have hlast : (slots.map (fun x => x.1)).getLast? = some (CIF__NFIXEDARGS s.mem cif) := by
    rw [i1, List.range_succ_eq_map]
    simp
  cases hg : slots.getLast? with
  | none =>
    rw [List.getLast?_eq_none_iff] at hg
    subst hg
    simp at hlast
  | some x =>
    rw [hg] at i3
    simp only [Option.map_some', Option.getD_some] at i3
    rw [List.getLast?_map, hg] at hlast
    simp only [Option.map_some', Option.some.injEq] at hlast
    simp [hlast, i3]

theorem ffi_call_arg_bad (h : Host) (mem : Mem) (k p : Nat) (hk : BadKind k) :
    ∃ e, ffi_call_arg h mem k p = .error e := by
  rcases hk with hk | hk
  · subst hk; exact ⟨.complexArg, by simp [ffi_call_arg]⟩
  · have hk' : k > 15 := hk
    refine ⟨.unexpectedType k, ?_⟩
    have h1 : k ≠ 1 := by omega
    have h2 : k ≠ 2 := by omega
    have h3 : k ≠ 3 := by omega
    have h4 : k ≠ 4 := by omega
    have h5 : k ≠ 5 := by omega
    have h6 : k ≠ 6 := by omega
    have h7 : k ≠ 7 := by omega
    have h8 : k ≠ 8 := by omega
    have h9 : k ≠ 9 := by omega
    have h10 : k ≠ 10 := by omega
    have h11 : k ≠ 11 := by omega
    have h12 : k ≠ 12 := by omega
    have h13 : k ≠ 13 := by omega
    have h14 : k ≠ 14 := by omega
    have h15 : k ≠ 15 := by omega
    simp [ffi_call_arg, h1, h2, h3, h4, h5, h6, h7, h8, h9, h10, h11, h12, h13, h14, h15]

theorem ffi_call_vararg_bad (mem : Mem) (k p va : Nat) (hk : BadKind k) :
    ∃ e, ffi_call_vararg mem k p va = .error e := by
  rcases hk with hk | hk
  · subst hk; exact ⟨.complexArg, by simp [ffi_call_vararg]⟩
  · have hk' : k > 15 := hk
    refine ⟨.unexpectedArgtype (some k), ?_⟩
    have h1 : k ≠ 1 := by omega
    have h2 : k ≠ 2 := by omega
    have h3 : k ≠ 3 := by omega
    have h4 : k ≠ 4 := by omega
    have h5 : k ≠ 5 := by omega
    have h6 : k ≠ 6 := by omega
    have h7 : k ≠ 7 := by omega
    have h8 : k ≠ 8 := by omega
    have h9 : k ≠ 9 := by omega
    have h10 : k ≠ 10 := by omega
    have h11 : k ≠ 11 := by omega
    have h12 : k ≠ 12 := by omega
    have h13 : k ≠ 13 := by omega
    have h14 : k ≠ 14 := by omega
    have h15 : k ≠ 15 := by omega
    simp [ffi_call_vararg, h1, h2, h3, h4, h5, h6, h7, h8, h9, h10, h11, h12, h13, h14, h15]

/-- When every fixed argument resolves, the fixed-argument loop ends normally or
raises. -/
theorem ffi_call_fixed_args_total (h : Host) (fuel : Nat) (mem : Mem) (av at_ : Nat) :
    ∀ (n i0 : Nat) (args : List JSVal),
      (∀ j, i0 ≤ j → j < i0 + n → ∃ r, unbox_small_structs mem fuel (DEREF_U32 mem at_ j) = some r) →
      (∃ a, ffi_call_fixed_args h fuel mem av at_ n i0 args = .ok a) ∨
      (∃ e, ffi_call_fixed_args h fuel mem av at_ n i0 args = .throw e) := by
  intro n
  induction n with
  | zero => intro i0 args _; exact Or.inl ⟨args, rfl⟩
  | succ n ih =>
    intro i0 args hres
    obtain ⟨⟨p, k⟩, hr⟩ := hres i0 (Nat.le_refl _) (by omega)
    simp only [ffi_call_fixed_args, ffi_call_fixed_arg, hr]
    cases ffi_call_arg h mem k (DEREF_U32 mem av i0) with
    | error e => exact Or.inr ⟨e, rfl⟩
    | ok vs => exact ih (i0 + 1) (args ++ vs) (fun j h1 h2 => hres j (by omega) (by omega))

/-- When every fixed argument resolves and one of them has a bad kind, the
fixed-argument loop raises. -/
theorem ffi_call_fixed_args_bad (h : Host) (fuel : Nat) (mem : Mem) (av at_ : Nat)
    (i p k : Nat) (hi : unbox_small_structs mem fuel (DEREF_U32 mem at_ i) = some (p, k))
    (hk : BadKind k) :
    ∀ (n i0 : Nat) (args : List JSVal), i0 ≤ i → i < i0 + n →
      (∀ j, i0 ≤ j → j < i0 + n → ∃ r, unbox_small_structs mem fuel (DEREF_U32 mem at_ j) = some r) →
      ∃ e, ffi_call_fixed_args h fuel mem av at_ n i0 args = .throw e := by
  intro n
  induction n with
  | zero => intro i0 args h1 h2; omega
  | succ n ih =>
    intro i0 args h1 h2 hres
    by_cases he : i0 = i
    · subst he
      obtain ⟨e, he⟩ := ffi_call_arg_bad h mem k (DEREF_U32 mem av i0) hk
      exact ⟨e, by simp only [ffi_call_fixed_args, ffi_call_fixed_arg, hi, he]⟩
    · obtain ⟨⟨p', k'⟩, hr⟩ := hres i0 (Nat.le_refl _) (by omega)
      simp only [ffi_call_fixed_args, ffi_call_fixed_arg, hr]
      cases ffi_call_arg h mem k' (DEREF_U32 mem av i0) with
      | error e => exact ⟨e, rfl⟩
      | ok vs =>
        exact ih (i0 + 1) (args ++ vs) (by omega) (by omega)
          (fun j h1 h2 => hres j (by omega) (by omega))

/-- When the descriptors of the variadic arguments do not depend on the free stack
area `[lo, hi)` and one of them has a bad kind, the variadic loop raises, having
written inside that area only. -/
theorem ffi_call_varargs_bad (fuel av at_ nf : Nat) (m0 : Mem) (lo hi N : Nat)
    (hstab : ∀ m', (∀ a, a < lo ∨ hi ≤ a → m' a = m0 a) → ∀ j, nf ≤ j → j < nf + N →
      unbox_small_structs m' fuel (DEREF_U32 m' at_ j) =
        unbox_small_structs m0 fuel (DEREF_U32 m0 at_ j))
    (hres : ∀ j, nf ≤ j → j < nf + N →
      ∃ r, unbox_small_structs m0 fuel (DEREF_U32 m0 at_ j) = some r)
    (i p k : Nat) (hi1 : nf ≤ i)
    (hik : unbox_small_structs m0 fuel (DEREF_U32 m0 at_ i) = some (p, k)) (hk : BadKind k) :
    ∀ (n va : Nat) (mem : Mem), n ≤ N → i < nf + n → 32 * n ≤ va → va ≤ hi → lo + 32 * n ≤ va →
      (∀ a, a < lo ∨ hi ≤ a → mem a = m0 a) →
      ∃ e mem', ffi_call_varargs fuel av at_ nf n va mem = .throw e mem' ∧
        ∀ a, a < lo ∨ hi ≤ a → mem' a = m0 a := by
  intro n
  induction n with
  | zero => intro va mem _ h2; omega
  | succ n ih =>
    intro va mem hn hin hdeep hva hlo hag
    have hu := hstab mem hag (nf + n) (by omega) (by omega)
    simp only [ffi_call_varargs, hu]
    by_cases he : nf + n = i
    · rw [he, hik]
      obtain ⟨e, hbad⟩ := ffi_call_vararg_bad mem k (DEREF_U32 mem av i) va hk
      simp only [hbad]
      exact ⟨e, mem, rfl, hag⟩
    · obtain ⟨⟨p', k'⟩, hr⟩ := hres (nf + n) (by omega) (by omega)
      rw [hr]
      simp only []
      cases hv : ffi_call_vararg mem k' (DEREF_U32 mem av (nf + n)) va with
      | error e => exact ⟨e, mem, rfl, hag⟩
      | ok r1 =>
        obtain ⟨va1, mem1⟩ := r1
        simp only []
        obtain ⟨sz, al, _, _, _, _, hle, hlow, hfr⟩ :=
          ffi_call_vararg_ok mem mem1 k' _ va va1 (by omega) hv
        exact ih va1 mem1 (by omega) (by omega) (by omega) (by omega) (by omega)
          (fun a ha => by rw [hfr a (by omega), hag a ha])

/-- C11: let the return descriptor and every fixed-argument descriptor of the CIF
resolve.  When the resolved return kind is complex or not one of the known kinds,
or the resolved kind of a fixed argument is, `ffi_call` raises and the state at
the raise is the entry state: no host call was made and no byte of memory was
written.  When the resolved kind of a variadic argument is (the variadic
descriptors resolving, and not stored in the free stack area below the entry stack
pointer), `ffi_call` raises with no host call made, stack pointer and call table as
on entry, and memory changed only in the `32 * (nargs - nfixedargs)` bytes below
the entry stack pointer: nothing at or above it is modified, so the return buffer
of the caller is not written. -/
theorem ffi_call_bad_kind (h : Host) (fuel cif fn rvalue avalue : Nat) (s : State)
    (rtype_ptr rtype_id : Nat)
    (hu : unbox_small_structs s.mem fuel (CIF__RTYPE s.mem cif) = some (rtype_ptr, rtype_id))
    (hfr : ∀ j, j < CIF__NFIXEDARGS s.mem cif →
      ∃ r, unbox_small_structs s.mem fuel (DEREF_U32 s.mem (CIF__ARGTYPES s.mem cif) j) = some r) :
    (BadKind rtype_id → ∃ e, ffi_call h fuel cif fn rvalue avalue s = .throw e s) ∧
    (∀ i p k, i < CIF__NFIXEDARGS s.mem cif →
      unbox_small_structs s.mem fuel (DEREF_U32 s.mem (CIF__ARGTYPES s.mem cif) i) = some (p, k) →
      BadKind k → ∃ e, ffi_call h fuel cif fn rvalue avalue s = .throw e s) ∧
    (∀ i p k, CIF__NFIXEDARGS s.mem cif ≤ i → i < CIF__NARGS s.mem cif →
      unbox_small_structs s.mem fuel (DEREF_U32 s.mem (CIF__ARGTYPES s.mem cif) i) = some (p, k) →
      BadKind k →
      32 * (CIF__NARGS s.mem cif - CIF__NFIXEDARGS s.mem cif) ≤ s.sp →
      (∀ m', (∀ a, a < s.sp - 32 * (CIF__NARGS s.mem cif - CIF__NFIXEDARGS s.mem cif) ∨ s.sp ≤ a →
          m' a = s.mem a) →
        ∀ j, CIF__NFIXEDARGS s.mem cif ≤ j → j < CIF__NARGS s.mem cif →
          unbox_small_structs m' fuel (DEREF_U32 m' (CIF__ARGTYPES s.mem cif) j) =
            unbox_small_structs s.mem fuel (DEREF_U32 s.mem (CIF__ARGTYPES s.mem cif) j)) →
      (∀ j, CIF__NFIXEDARGS s.mem cif ≤ j → j < CIF__NARGS s.mem cif →
        ∃ r, unbox_small_structs s.mem fuel (DEREF_U32 s.mem (CIF__ARGTYPES s.mem cif) j) =
          some r) →
      ∃ e mem', ffi_call h fuel cif fn rvalue avalue s = .throw e { s with mem := mem' } ∧
        ∀ a, a < s.sp - 32 * (CIF__NARGS s.mem cif - CIF__NFIXEDARGS s.mem cif) ∨ s.sp ≤ a →
          mem' a = s.mem a) := by
  have hret : BadKind rtype_id → ∃ e, ffi_call h fuel cif fn rvalue avalue s = .throw e s := by
    intro hk
    rcases hk with hk | hk
    · exact ⟨.complexRet, by simp only [ffi_call, hu, hk, if_true]⟩
    · by_cases hc : rtype_id = FFI_TYPE_COMPLEX
      · exact ⟨.complexRet, by simp only [ffi_call, hu, hc, if_true]⟩
      · exact ⟨.unexpectedRtype rtype_id, by simp only [ffi_call, hu, hc, hk, if_true, if_false]⟩
  refine ⟨hret, fun i p k hi hik hk => ?_, fun i p k hi1 hi2 hik hk hdeep hstab hres => ?_⟩
  · by_cases hb : BadKind rtype_id
    · exact hret hb
    · have hc : rtype_id ≠ FFI_TYPE_COMPLEX := fun hh => hb (Or.inl hh)
      have hl : ¬ rtype_id > FFI_TYPE_LAST := fun hh => hb (Or.inr hh)
      obtain ⟨e, he⟩ := ffi_call_fixed_args_bad h fuel s.mem avalue (CIF__ARGTYPES s.mem cif)
        i p k hik hk (CIF__NFIXEDARGS s.mem cif) 0
        (if (decide (rtype_id = FFI_TYPE_LONGDOUBLE ∨ rtype_id = FFI_TYPE_STRUCT)) = true then
          [JSVal.num rvalue] else []) (Nat.zero_le _) (by omega)
        (fun j _ hj => hfr j (by omega))
      exact ⟨e, by simp only [ffi_call, hu, hc, hl, if_false, he]⟩
  · by_cases hb : BadKind rtype_id
    · obtain ⟨e, he⟩ := hret hb
      exact ⟨e, s.mem, he, fun a _ => rfl⟩
    · have hc : rtype_id ≠ FFI_TYPE_COMPLEX := fun hh => hb (Or.inl hh)
      have hl : ¬ rtype_id > FFI_TYPE_LAST := fun hh => hb (Or.inr hh)
      rcases ffi_call_fixed_args_total h fuel s.mem avalue (CIF__ARGTYPES s.mem cif)
        (CIF__NFIXEDARGS s.mem cif) 0
        (if (decide (rtype_id = FFI_TYPE_LONGDOUBLE ∨ rtype_id = FFI_TYPE_STRUCT)) = true then
          [JSVal.num rvalue] else []) (fun j _ hj => hfr j (by omega)) with ⟨a, ha⟩ | ⟨e, he⟩
      · have hne : CIF__NFIXEDARGS s.mem cif ≠ CIF__NARGS s.mem cif := by omega
        obtain ⟨e, mem', hthrow, hfrm⟩ := ffi_call_varargs_bad fuel avalue
          (CIF__ARGTYPES s.mem cif) (CIF__NFIXEDARGS s.mem cif) s.mem
          (s.sp - 32 * (CIF__NARGS s.mem cif - CIF__NFIXEDARGS s.mem cif)) s.sp
          (CIF__NARGS s.mem cif - CIF__NFIXEDARGS s.mem cif)
          (fun m' hm' j hj1 hj2 => hstab m' hm' j hj1 (by omega))
          (fun j hj1 hj2 => hres j hj1 (by omega)) i p k hi1 hik hk
          (CIF__NARGS s.mem cif - CIF__NFIXEDARGS s.mem cif) s.sp s.mem (Nat.le_refl _)
          (by omega) hdeep (Nat.le_refl _) (by omega) (fun a _ => rfl)
        exact ⟨e, mem', by simp only [ffi_call, hu, hc, hl, if_false, ha, hne, ne_eq,
          not_false_eq_true, if_true, hthrow], hfrm⟩
      · exact ⟨e, s.mem, by simp only [ffi_call, hu, hc, hl, if_false, he], fun a _ => rfl⟩

theorem specNumLayout_some (m : Int) (v : JSVal) (n : Nat) (hn : specNumLayout m v = some n) :
    ∃ x, v = .num x ∧ n = (x % m).toNat := by
  cases v with
  | num x => exact ⟨x, rfl, by simpa [specNumLayout] using hn.symm⟩
  | f32 b => simp [specNumLayout] at hn
  | f64 b => simp [specNumLayout] at hn
  | big x => simp [specNumLayout] at hn
  | undefined => simp [specNumLayout] at hn

theorem specF32Layout_some (v : JSVal) (n : Nat) (hn : specF32Layout v = some n) :
    v = .f32 n := by
  cases v with
  | f32 b => simp [specF32Layout] at hn; rw [hn]
  | num x => simp [specF32Layout] at hn
  | f64 b => simp [specF32Layout] at hn
  | big x => simp [specF32Layout] at hn
  | undefined => simp [specF32Layout] at hn

theorem specF64Layout_some (v : JSVal) (n : Nat) (hn : specF64Layout v = some n) :
    v = .f64 n := by
  cases v with
  | f64 b => simp [specF64Layout] at hn; rw [hn]
  | num x => simp [specF64Layout] at hn
  | f32 b => simp [specF64Layout] at hn
  | big x => simp [specF64Layout] at hn
  | undefined => simp [specF64Layout] at hn

theorem specBigLayout_big (x : Int) :
    specBigLayout (.big x) = some (x % 18446744073709551616).toNat := rfl

/-- One step of the fixed-argument loop of a trampoline that completes: the stack
pointer moves down by at most 31 bytes, memory changes only in the new slot and in
entry `c` of the argument pointer array, an aggregate gets no slot and its entry
is the incoming address, and every other kind gets an aligned slot below the old
stack pointer that holds the incoming value. -/
theorem trampoline_arg_spec (h : Host) (mem mem1 : Mem) (k A c cur cur1 : Nat) (v w : JSVal)
    (hA : A % 4 = 0) (hcur : cur ≤ A) (hdeep : 32 ≤ cur) (h32 : cur ≤ 4294967296)
    (hh : trampoline_arg h mem (some k) A c cur v w = .ok cur1 mem1) :
    cur1 ≤ cur ∧ cur ≤ cur1 + 31 ∧
    (∀ b, b < cur1 ∨ cur ≤ b → b < A + 4 * c ∨ A + 4 * c + 4 ≤ b → mem1 b = mem b) ∧
    (k = FFI_TYPE_STRUCT → cur1 = cur ∧
      ∀ a : Nat, v = .num a → a < 4294967296 → DEREF_U32 mem1 A c = a) ∧
    (k ≠ FFI_TYPE_STRUCT → specSlotSize k = none → cur1 = cur) ∧
    (∀ sz, k ≠ FFI_TYPE_STRUCT → specSlotSize k = some sz →
      cur1 % sz = 0 ∧ cur1 + sz ≤ cur ∧ DEREF_U32 mem1 A c = cur1 ∧
      ∀ n, specArgLayout k v w = some n → holdsLE mem1 cur1 sz n) := by
  unfold trampoline_arg at hh
  simp only [] at hh
  split at hh
  · -- 8-bit
    rename_i hc
    split at hh
    · rename_i val hv
      simp only [Res.ok.injEq] at hh
      obtain ⟨e1, e2⟩ := hh
      have hv1 : cur1 = cur / 1 * 1 - 1 := by rw [← e1]; rfl
      have hks : k ≠ FFI_TYPE_STRUCT := by rcases hc with hc | hc <;> rw [hc] <;> decide
      have hsz : specSlotSize k = some 1 := by simp [specSlotSize, hc]
      have hfr : ∀ b, b < cur1 ∨ cur1 + 1 ≤ b → b < A + 4 * c ∨ A + 4 * c + 4 ≤ b →
          mem1 b = mem b := by
        intro b hb1 hb2
        rw [← e2, e1, DEREF_U8_set_frame _ _ _ _ hb1, DEREF_U32_set_frame _ _ _ _ _ hA hb2]
      refine ⟨by omega, by omega, (fun b hb1 hb2 => hfr b (by omega) hb2),
        fun hs => absurd hs hks, (fun _ hn => by rw [hsz] at hn; cases hn), ?_⟩
      intro sz _ hsz'
      rw [hsz] at hsz'
      cases hsz'
      refine ⟨Nat.mod_one _, by omega, ?_, ?_⟩
      · apply entry_read mem mem1 A c cur1 hA (by omega)
        intro b hb1 hb2
        rw [← e2, e1, DEREF_U8_set_frame _ _ _ _ (by omega)]
      · intro n hn
        simp only [specArgLayout, hc, if_true] at hn
        obtain ⟨x, hx, hn⟩ := specNumLayout_some _ _ _ hn
        rw [hx, (toUint_num h x).1] at hv
        cases hv
        rw [← e2, e1, hn]
        exact holdsLE_set8 _ _ _
    · cases hh
  · rename_i hc0
    split at hh
    · -- 16-bit
      rename_i hc
      split at hh
      · rename_i val hv
        simp only [Res.ok.injEq] at hh
        obtain ⟨e1, e2⟩ := hh
        have hv1 : cur1 = cur / 2 * 2 - 2 := by rw [← e1]; rfl
        have hks : k ≠ FFI_TYPE_STRUCT := by rcases hc with hc | hc <;> rw [hc] <;> decide
        have hsz : specSlotSize k = some 2 := by simp [specSlotSize, hc0, hc]
        have hfr : ∀ b, b < cur1 ∨ cur1 + 2 ≤ b → b < A + 4 * c ∨ A + 4 * c + 4 ≤ b →
            mem1 b = mem b := by
          intro b hb1 hb2
          rw [← e2, e1, DEREF_U16_set_frame _ _ _ _ (by omega) hb1,
            DEREF_U32_set_frame _ _ _ _ _ hA hb2]
        refine ⟨by omega, by omega, (fun b hb1 hb2 => hfr b (by omega) hb2),
          fun hs => absurd hs hks, (fun _ hn => by rw [hsz] at hn; cases hn), ?_⟩
        intro sz _ hsz'
        rw [hsz] at hsz'
        cases hsz'
        refine ⟨by omega, by omega, ?_, ?_⟩
        · apply entry_read mem mem1 A c cur1 hA (by omega)
          intro b hb1 hb2
          rw [← e2, e1, DEREF_U16_set_frame _ _ _ _ (by omega) (by omega)]
        · intro n hn
          simp only [specArgLayout, hc0, hc, if_true, if_false] at hn
          obtain ⟨x, hx, hn⟩ := specNumLayout_some _ _ _ hn
          rw [hx, (toUint_num h x).2.1] at hv
          cases hv
          rw [← e2, e1, hn]
          exact holdsLE_set16 _ _ _ (by omega)
      · cases hh
    · rename_i hc1
      split at hh
      · -- 32-bit integers and pointers
        rename_i hc
        split at hh
        · rename_i val hv
          simp only [Res.ok.injEq] at hh
          obtain ⟨e1, e2⟩ := hh
          have hv1 : cur1 = cur / 4 * 4 - 4 := by rw [← e1]; rfl
          have hks : k ≠ FFI_TYPE_STRUCT := by
            rcases hc with hc | hc | hc | hc <;> rw [hc] <;> decide
          have hsz : specSlotSize k = some 4 := by
            rcases hc with hc | hc | hc | hc <;> rw [hc] <;> rfl
          have hfr : ∀ b, b < cur1 ∨ cur1 + 4 ≤ b → b < A + 4 * c ∨ A + 4 * c + 4 ≤ b →
              mem1 b = mem b := by
            intro b hb1 hb2
            rw [← e2, e1, DEREF_U32_set_frame _ _ _ _ _ (by omega) (by omega),
              DEREF_U32_set_frame _ _ _ _ _ hA hb2]
          refine ⟨by omega, by omega, (fun b hb1 hb2 => hfr b (by omega) hb2),
            fun hs => absurd hs hks, (fun _ hn => by rw [hsz] at hn; cases hn), ?_⟩
          intro sz _ hsz'
          rw [hsz] at hsz'
          cases hsz'
          refine ⟨by omega, by omega, ?_, ?_⟩
          · apply entry_read mem mem1 A c cur1 hA (by omega)
            intro b hb1 hb2
            rw [← e2, e1, DEREF_U32_set_frame _ _ _ _ _ (by omega) (by omega)]
          · intro n hn
            simp only [specArgLayout, hc0, hc1, hc, if_true, if_false] at hn
            obtain ⟨x, hx, hn⟩ := specNumLayout_some _ _ _ hn
            rw [hx, (toUint_num h x).2.2] at hv
            cases hv
            rw [← e2, e1, hn]
            exact holdsLE_set32 _ _ _ (by omega)
        · cases hh
      · rename_i hc2
        split at hh
        · -- aggregate
          rename_i hc
          split at hh
          · rename_i val hv
            simp only [Res.ok.injEq] at hh
            obtain ⟨e1, e2⟩ := hh
            have hsz : specSlotSize k = none := by rw [hc]; rfl
            refine ⟨by omega, by omega, ?_, fun _ => ⟨e1.symm, ?_⟩, fun hs => absurd hc hs,
              fun sz hs _ => absurd hc hs⟩
            · intro b _ hb2
              rw [← e2, DEREF_U32_set_frame _ _ _ _ _ hA hb2]
            · intro a ha ha32
              rw [ha, (toUint_num h a).2.2] at hv
              cases hv
              rw [← e2, DEREF_U32_set_same]
              omega
          · cases hh
        · rename_i hc3
          split at hh
          · -- float
            rename_i hc
            split at hh
            · rename_i val hv
              simp only [Res.ok.injEq] at hh
              obtain ⟨e1, e2⟩ := hh
              have hv1 : cur1 = cur / 4 * 4 - 4 := by rw [← e1]; rfl
              have hks : k ≠ FFI_TYPE_STRUCT := by rw [hc]; decide
              have hsz : specSlotSize k = some 4 := by rw [hc]; rfl
              have hfr : ∀ b, b < cur1 ∨ cur1 + 4 ≤ b → b < A + 4 * c ∨ A + 4 * c + 4 ≤ b →
                  mem1 b = mem b := by
                intro b hb1 hb2
                rw [← e2, e1]
                simp only [DEREF_F32_set]
                rw [HEAPU32_set_frame _ _ _ _ (by omega), DEREF_U32_set_frame _ _ _ _ _ hA hb2]
              refine ⟨by omega, by omega, (fun b hb1 hb2 => hfr b (by omega) hb2),
                fun hs => absurd hs hks, (fun _ hn => by rw [hsz] at hn; cases hn), ?_⟩
              intro sz _ hsz'
              rw [hsz] at hsz'
              cases hsz'
              refine ⟨by omega, by omega, ?_, ?_⟩
              · apply entry_read mem mem1 A c cur1 hA (by omega)
                intro b hb1 hb2
                rw [← e2, e1]
                simp only [DEREF_F32_set]
                rw [HEAPU32_set_frame _ _ _ _ (by omega)]
              · intro n hn
                rw [specArgLayout, if_neg hc0, if_neg hc1, if_neg hc2, if_pos hc] at hn
                have hx := specF32Layout_some _ _ hn
                rw [hx] at hv
                simp only [toF32Bits, Except.ok.injEq] at hv
                subst hv
                rw [← e2, e1]
                exact holdsLE_set32 _ _ _ (by omega)
            · cases hh
          · rename_i hc4
            split at hh
            · -- double
              rename_i hc
              split at hh
              · rename_i val hv
                simp only [Res.ok.injEq] at hh
                obtain ⟨e1, e2⟩ := hh
                have hv1 : cur1 = cur / 8 * 8 - 8 := by rw [← e1]; rfl
                have hks : k ≠ FFI_TYPE_STRUCT := by rw [hc]; decide
                have hsz : specSlotSize k = some 8 := by rw [hc]; rfl
                have hfr : ∀ b, b < cur1 ∨ cur1 + 8 ≤ b → b < A + 4 * c ∨ A + 4 * c + 4 ≤ b →
                    mem1 b = mem b := by
                  intro b hb1 hb2
                  rw [← e2, e1]
                  simp only [DEREF_F64_set]
                  rw [HEAPU64_set_frame _ _ _ _ (by omega), DEREF_U32_set_frame _ _ _ _ _ hA hb2]
                refine ⟨by omega, by omega, (fun b hb1 hb2 => hfr b (by omega) hb2),
                  fun hs => absurd hs hks, (fun _ hn => by rw [hsz] at hn; cases hn), ?_⟩
                intro sz _ hsz'
                rw [hsz] at hsz'
                cases hsz'
                refine ⟨by omega, by omega, ?_, ?_⟩
                · apply entry_read mem mem1 A c cur1 hA (by omega)
                  intro b hb1 hb2
                  rw [← e2, e1]
                  simp only [DEREF_F64_set]
                  rw [HEAPU64_set_frame _ _ _ _ (by omega)]
                · intro n hn
                  rw [specArgLayout, if_neg hc0, if_neg hc1, if_neg hc2, if_neg hc4,
                    if_pos hc] at hn
                  have hx := specF64Layout_some _ _ hn
                  rw [hx] at hv
                  simp only [toF64Bits, Except.ok.injEq] at hv
                  subst hv
                  rw [← e2, e1]
                  have := holdsLE_set64 (DEREF_U32_set mem A c cur1) cur1 0 n (by omega)
                  simpa [DEREF_F64_set, DEREF_U64_set] using this
              · cases hh
            · rename_i hc5
              split at hh
              · -- 64-bit integers
                rename_i hc
                split at hh
                · rename_i m1 hv
                  simp only [Res.ok.injEq] at hh
                  obtain ⟨e1, e2⟩ := hh
                  have hv1 : cur1 = cur / 8 * 8 - 8 := by rw [← e1]; rfl
                  rw [e1] at hv
                  obtain ⟨x, hx⟩ := STORE_U64_big _ _ _ _ _ _ hv
                  rw [hx, STORE_U64_eq _ _ _ _ _ (by omega)] at hv
                  cases hv
                  have hks : k ≠ FFI_TYPE_STRUCT := by rcases hc with hc | hc <;> rw [hc] <;> decide
                  have hsz : specSlotSize k = some 8 := by
                    rcases hc with hc | hc <;> rw [hc] <;> rfl
                  have hfr : ∀ b, b < cur1 ∨ cur1 + 8 ≤ b → b < A + 4 * c ∨ A + 4 * c + 4 ≤ b →
                      mem1 b = mem b := by
                    intro b hb1 hb2
                    rw [← e2, DEREF_U64_set_frame _ _ _ _ _ (by omega) (by omega),
                      DEREF_U32_set_frame _ _ _ _ _ hA hb2]
                  refine ⟨by omega, by omega, (fun b hb1 hb2 => hfr b (by omega) hb2),
                    fun hs => absurd hs hks, (fun _ hn => by rw [hsz] at hn; cases hn), ?_⟩
                  intro sz _ hsz'
                  rw [hsz] at hsz'
                  cases hsz'
                  refine ⟨by omega, by omega, ?_, ?_⟩
                  · apply entry_read mem mem1 A c cur1 hA (by omega)
                    intro b hb1 hb2
                    rw [← e2, DEREF_U64_set_frame _ _ _ _ _ (by omega) (by omega)]
                  · intro n hn
                    rw [specArgLayout, if_neg hc0, if_neg hc1, if_neg hc2, if_neg hc4,
                      if_neg hc5, if_pos hc, hx, specBigLayout_big] at hn
                    simp only [Option.some.injEq] at hn
                    subst hn
                    rw [← e2]
                    have := holdsLE_set64 (DEREF_U32_set mem A c cur1) cur1 0
                      (x % 18446744073709551616).toNat (by omega)
                    simpa using this
                · cases hh
              · rename_i hc6
                split at hh
                · -- extended float
                  rename_i hc
                  split at hh
                  · cases hh
                  · rename_i m1 hv
                    split at hh
                    · rename_i m2 hv2
                      simp only [Res.ok.injEq] at hh
                      obtain ⟨e1, e2⟩ := hh
                      have hv1 : cur1 = cur / 16 * 16 - 16 := by rw [← e1]; rfl
                      rw [e1] at hv hv2
                      obtain ⟨x, hx⟩ := STORE_U64_big _ _ _ _ _ _ hv
                      obtain ⟨y, hy⟩ := STORE_U64_big _ _ _ _ _ _ hv2
                      rw [hx, STORE_U64_eq _ _ _ _ _ (by omega)] at hv
                      rw [hy, STORE_U64_eq _ _ _ _ _ (by omega)] at hv2
                      cases hv
                      cases hv2
                      have hks : k ≠ FFI_TYPE_STRUCT := by rw [hc]; decide
                      have hsz : specSlotSize k = some 16 := by rw [hc]; rfl
                      have hfr : ∀ b, b < cur1 ∨ cur1 + 16 ≤ b →
                          b < A + 4 * c ∨ A + 4 * c + 4 ≤ b → mem1 b = mem b := by
                        intro b hb1 hb2
                        rw [← e2, DEREF_U64_set_frame _ _ _ _ _ (by omega) (by omega),
                          DEREF_U64_set_frame _ _ _ _ _ (by omega) (by omega),
                          DEREF_U32_set_frame _ _ _ _ _ hA hb2]
                      refine ⟨by omega, by omega, (fun b hb1 hb2 => hfr b (by omega) hb2),
                        fun hs => absurd hs hks, (fun _ hn => by rw [hsz] at hn; cases hn), ?_⟩
                      intro sz _ hsz'
                      rw [hsz] at hsz'
                      cases hsz'
                      refine ⟨by omega, by omega, ?_, ?_⟩
                      · apply entry_read mem mem1 A c cur1 hA (by omega)
                        intro b hb1 hb2
                        rw [← e2, DEREF_U64_set_frame _ _ _ _ _ (by omega) (by omega),
                          DEREF_U64_set_frame _ _ _ _ _ (by omega) (by omega)]
                      · intro n hn
                        rw [specArgLayout, if_neg hc0, if_neg hc1, if_neg hc2, if_neg hc4,
                          if_neg hc5, if_neg hc6, if_pos hc, hx, hy, specBigLayout_big,
                          specBigLayout_big] at hn
                        simp only [Option.some_bind, Option.map_some', Option.some.injEq] at hn
                        rw [← hn, ← e2]
                        apply holdsLE_16
                        · have := Int.emod_lt_of_pos x
                            (show (0 : Int) < 18446744073709551616 by decide)
                          have := Int.emod_nonneg x
                            (show (18446744073709551616 : Int) ≠ 0 by decide)
                          omega
                        · apply holdsLE_congr _ _ _ _ _ _
                            (holdsLE_set64 (DEREF_U32_set mem A c cur1) cur1 0
                              (x % 18446744073709551616).toNat (by omega))
                          intro b hb1 hb2
                          rw [DEREF_U64_set_frame _ _ _ _ _ (by omega) (by omega)]
                        · have := holdsLE_set64 (DEREF_U64_set (DEREF_U32_set mem A c cur1)
                            cur1 0 (x % 18446744073709551616).toNat) cur1 1
                            (y % 18446744073709551616).toNat (by omega)
                          simpa using this
                    · cases hh
                · -- no case of the switch
                  rename_i hc7
                  simp only [Res.ok.injEq] at hh
                  obtain ⟨e1, e2⟩ := hh
                  refine ⟨by omega, by omega, (fun b _ _ => by rw [e2]),
                    fun hs => absurd hs hc3, fun _ _ => e1.symm, ?_⟩
                  intro sz _ hsz
                  have g3 : ¬ (k = FFI_TYPE_INT ∨ k = FFI_TYPE_UINT32 ∨ k = FFI_TYPE_SINT32 ∨
                      k = FFI_TYPE_POINTER ∨ k = FFI_TYPE_FLOAT) := by
                    rintro (g | g | g | g | g)
                    · exact hc2 (Or.inl g)
                    · exact hc2 (Or.inr (Or.inl g))
                    · exact hc2 (Or.inr (Or.inr (Or.inl g)))
                    · exact hc2 (Or.inr (Or.inr (Or.inr g)))
                    · exact hc4 g
                  have g4 : ¬ (k = FFI_TYPE_DOUBLE ∨ k = FFI_TYPE_UINT64 ∨ k = FFI_TYPE_SINT64) := by
                    rintro (g | g | g)
                    · exact hc5 g
                    · exact hc6 (Or.inl g)
                    · exact hc6 (Or.inr g)
                  rw [specSlotSize, if_neg hc0, if_neg hc1, if_neg g3, if_neg g4, if_neg hc7] at hsz
                  cases hsz

theorem restAfter_length (ids : List Nat) (c : Nat) (rest : List JSVal) :
    (restAfter ids c rest).length ≤ rest.length := by
  unfold restAfter
  split
  · simp
  · exact Nat.le_refl _

theorem fixedArgValues_cons (ids : List Nat) (v : JSVal) (rest : List JSVal) (c : Nat) :
    fixedArgValues ids (v :: rest) c =
      (c, v, rest.headD .undefined) :: fixedArgValues ids (restAfter ids c rest) (c + 1) := by
  cases rest with
  | nil => simp [fixedArgValues, restAfter]
  | cons w r =>
    by_cases hk : ids.get? c = some FFI_TYPE_LONGDOUBLE <;>
      simp only [fixedArgValues, restAfter, hk, if_true, if_false, List.tail_cons]

theorem trampoline_args_cons (h : Host) (ids : List Nat) (A : Nat) (v : JSVal)
    (rest : List JSVal) (c cur cur2 : Nat) (mem mem2 : Mem)
    (hstep : trampoline_arg h mem (ids.get? c) A c cur v (rest.headD .undefined) =
      .ok cur2 mem2) :
    trampoline_args h ids A (v :: rest) c cur mem =
      trampoline_args h ids A (restAfter ids c rest) (c + 1) cur2 mem2 := by
  cases rest with
  | nil =>
    simp only [trampoline_args, List.headD_nil] at hstep ⊢
    rw [hstep]
    simp only [restAfter, List.tail_nil, ite_self, trampoline_args]
  | cons w r =>
    by_cases hk : ids.get? c = some FFI_TYPE_LONGDOUBLE
    · simp only [trampoline_args, restAfter, hk, if_true, List.tail_cons]
      rw [hk] at hstep
      rw [hstep]
    · simp only [trampoline_args, hstep, restAfter, hk, if_false]

theorem trampoline_varargs_frame (ids : List Nat) (A : Nat) (hA : A % 4 = 0) :
    ∀ (n c va : Nat) (mem : Mem) (a : Nat), a < A + 4 * c ∨ A + 4 * (c + n) ≤ a →
      trampoline_varargs ids A n c va mem a = mem a := by
  intro n
  induction n with
  | zero => intro c va mem a _; rfl
  | succ n ih =>
    intro c va mem a ha
    simp only [trampoline_varargs]
    rw [ih (c + 1) (va + 4) _ a (by omega)]
    split
    · exact DEREF_U32_set_frame _ _ _ _ _ hA (by omega)
    · exact DEREF_U32_set_frame _ _ _ _ _ hA (by omega)

theorem fixedArgValues_index (ids : List Nat) :
    ∀ (n : Nat) (vals : List JSVal), vals.length ≤ n → ∀ (c : Nat),
      ∀ x ∈ fixedArgValues ids vals c, x.1 < c + (fixedArgValues ids vals c).length := by
  intro n
  induction n with
  | zero =>
    intro vals hl c x hx
    have : vals = [] := List.length_eq_zero.mp (by omega)
    subst this
    simp [fixedArgValues] at hx
  | succ n ih =>
    intro vals hl c x hx
    cases vals with
    | nil => simp [fixedArgValues] at hx
    | cons v rest =>
      rw [fixedArgValues_cons] at hx ⊢
      simp only [List.length_cons] at hl ⊢
      rcases List.mem_cons.mp hx with hx | hx
      · rw [hx]; simp only []; omega
      · have := ih (restAfter ids c rest)
          (Nat.le_trans (restAfter_length ids c rest) (by omega)) (c + 1) x hx
        omega

theorem ArgsLaidOut_lower (ids : List Nat) (mem : Mem) (A lower : Nat) :
    ∀ (l : List (Nat × JSVal × JSVal)) (upper : Nat),
      ArgsLaidOut ids mem A lower l upper → lower ≤ upper := by
  intro l
  induction l with
  | nil => intro upper hl; exact hl
  | cons x rest ih =>
    intro upper hl
    obtain ⟨c, v, w⟩ := x
    simp only [ArgsLaidOut] at hl
    split at hl
    · exact ih _ hl
    · split at hl
      · exact ih _ hl.2
      · split at hl
        · exact ih _ hl
        · obtain ⟨_, h2, h3, _⟩ := hl
          omega

/-- The layout of the fixed arguments depends only on memory below the variadic
entries of the argument pointer array. -/
theorem ArgsLaidOut_congr (ids : List Nat) (m m' : Mem) (A lower nf : Nat) (hA : A % 4 = 0)
    (hfr : ∀ b, b < A + 4 * nf → m' b = m b) :
    ∀ (l : List (Nat × JSVal × JSVal)) (upper : Nat), upper ≤ A → (∀ x ∈ l, x.1 < nf) →
      ArgsLaidOut ids m A lower l upper → ArgsLaidOut ids m' A lower l upper := by
  intro l
  induction l with
  | nil => intro upper _ _ hl; exact hl
  | cons x rest ih =>
    intro upper hup hidx hl
    obtain ⟨c, v, w⟩ := x
    have hc : c < nf := hidx (c, v, w) (List.mem_cons_self _ _)
    have hrest : ∀ x ∈ rest, x.1 < nf := fun x hx => hidx x (List.mem_cons_of_mem _ hx)
    have he : DEREF_U32 m' A c = DEREF_U32 m A c := by
      apply HEAPU32_congr
      intro j hj
      exact hfr _ (by omega)
    simp only [ArgsLaidOut] at hl ⊢
    split
    · rename_i hk
      simp only [hk] at hl
      exact ih _ hup hrest hl
    · rename_i k hk
      simp only [hk] at hl
      split
      · rename_i hs
        rw [if_pos hs] at hl
        exact ⟨fun a h1 h2 => by rw [he]; exact hl.1 a h1 h2, ih _ hup hrest hl.2⟩
      · rename_i hs
        rw [if_neg hs] at hl
        split
        · rename_i hz
          simp only [hz] at hl
          exact ih _ hup hrest hl
        · rename_i sz hz
          simp only [hz] at hl
          obtain ⟨h1, h2, h3, h4, h5⟩ := hl
          rw [he]
          refine ⟨h1, h2, h3, fun n hn => ?_, ih _ (by omega) hrest h5⟩
          apply holdsLE_congr _ _ _ _ _ _ (h4 n hn)
          intro b hb1 hb2
          exact hfr _ (by omega)

/-- The fixed-argument loop of a trampoline, when it completes: the stack pointer
moves down, memory changes only between the new and the old stack pointer and in
the entries of the arguments read, and the arguments are laid out below the old
stack pointer. -/
theorem trampoline_args_spec (h : Host) (ids : List Nat) (A : Nat) (hA : A % 4 = 0) :
    ∀ (n : Nat) (vals : List JSVal), vals.length ≤ n → ∀ (c cur : Nat) (mem : Mem)
      (cur1 : Nat) (mem1 : Mem),
      trampoline_args h ids A vals c cur mem = .ok cur1 mem1 →
      cur ≤ A → 32 * vals.length ≤ cur → cur ≤ 4294967296 →
      (∀ b, b < cur1 ∨ cur ≤ b → b < A + 4 * c ∨ A + 4 * (c + vals.length) ≤ b →
        mem1 b = mem b) ∧
      ArgsLaidOut ids mem1 A cur1 (fixedArgValues ids vals c) cur := by
  intro n
  induction n with
  | zero =>
    intro vals hl c cur mem cur1 mem1 hh _ _ _
    have : vals = [] := List.length_eq_zero.mp (by omega)
    subst this
    simp only [trampoline_args, Res.ok.injEq] at hh
    obtain ⟨e1, e2⟩ := hh
    subst e1 e2
    exact ⟨fun _ _ _ => rfl, Nat.le_refl _⟩
  | succ n ih =>
    intro vals hl c cur mem cur1 mem1 hh hcA hdeep h32
    cases vals with
    | nil =>
      simp only [trampoline_args, Res.ok.injEq] at hh
      obtain ⟨e1, e2⟩ := hh
      subst e1 e2
      exact ⟨fun _ _ _ => rfl, Nat.le_refl _⟩
    | cons v rest =>
      simp only [List.length_cons] at hl hdeep ⊢
      have hrl := restAfter_length ids c rest
      cases hstep : trampoline_arg h mem (ids.get? c) A c cur v (rest.headD .undefined) with
      | outOfFuel => simp only [trampoline_args, hstep] at hh; cases hh
      | throw e m => simp only [trampoline_args, hstep] at hh; cases hh
      | ok cur2 mem2 =>
        rw [trampoline_args_cons h ids A v rest c cur cur2 mem mem2 hstep] at hh
        rw [fixedArgValues_cons]
        cases hk : ids.get? c with
        | none =>
          rw [hk] at hstep
          simp only [trampoline_arg, Res.ok.injEq] at hstep
          obtain ⟨e1, e2⟩ := hstep
          subst e1 e2
          obtain ⟨hf, hlay⟩ := ih (restAfter ids c rest) (by omega) (c + 1) cur mem cur1 mem1 hh
            hcA (by omega) h32
          refine ⟨fun b hb1 hb2 => hf b hb1 (by omega), ?_⟩
          simp only [ArgsLaidOut, hk]
          exact hlay
        | some k =>
          rw [hk] at hstep
          obtain ⟨s1, s2, s3, s4, s5, s6⟩ :=
            trampoline_arg_spec h mem mem2 k A c cur cur2 v (rest.headD .undefined) hA hcA
              (by omega) h32 hstep
          obtain ⟨hf, hlay⟩ := ih (restAfter ids c rest) (by omega) (c + 1) cur2 mem2 cur1 mem1 hh
            (by omega) (by omega) (by omega)
          have hlow := ArgsLaidOut_lower _ _ _ _ _ _ hlay
          have he : DEREF_U32 mem1 A c = DEREF_U32 mem2 A c := by
            apply HEAPU32_congr
            intro j hj
            exact hf _ (by omega) (by omega)
          refine ⟨fun b hb1 hb2 => ?_, ?_⟩
          · rw [hf b (by omega) (by omega), s3 b (by omega) (by omega)]
          · simp only [ArgsLaidOut, hk]
            by_cases hs : k = FFI_TYPE_STRUCT
            · rw [if_pos hs]
              obtain ⟨e1, e2⟩ := s4 hs
              rw [e1] at hlay
              exact ⟨fun a h1 h2 => by rw [he]; exact e2 a h1 h2, hlay⟩
            · rw [if_neg hs]
              cases hz : specSlotSize k with
              | none =>
                simp only []
                rw [s5 hs hz] at hlay
                exact hlay
              | some sz =>
                simp only []
                obtain ⟨t1, t2, t3, t4⟩ := s6 sz hs hz
                rw [he, t3]
                refine ⟨t1, hlow, t2, fun n hn => ?_, hlay⟩
                apply holdsLE_congr _ _ _ _ _ _ (t4 n hn)
                intro b hb1 hb2
                exact hf _ (by omega) (by omega)

/-- C17: when the marshalling part of a trampoline completes, on an entry stack
pointer that is a multiple of 4, at most `2^32` and deep enough, with no more
fixed values incoming than the closure has fixed arguments: for each fixed argument
(`ArgsLaidOut` over the incoming values grouped by argument) the entry of an
aggregate equals the incoming address; the entry of every other kind is the address
of a slot that is a multiple of the size of the kind, holds the incoming value in
the layout of the kind (an extended float: the two incoming 64-bit values at
offsets 0 and 8 of a 16-byte slot), ends at or below the slot of the argument
before it, and lies between the stack pointer in force during the handler call
(`s1.sp`) and the argument pointer array at `args_ptr`; the array of `4 * nargs`
bytes ends at the return buffer address, which is at or below the entry stack
pointer, and when the CIF is not return-by-reference the return buffer is an
8-aligned slot of 8 bytes below the entry stack pointer. -/
theorem trampoline_fixed_args_layout (h : Host) (t : Tramp) (args : List JSVal) (s s1 : State)
    (ret_ptr : JSVal) (ret_addr args_ptr : Nat)
    (hm : trampoline_marshal h t args s = .ok (ret_ptr, ret_addr, args_ptr) s1)
    (hsp : s.sp % 4 = 0) (h32 : s.sp ≤ 4294967296)
    (hdeep : 16 + 4 * t.nargs + 32 * args.length ≤ s.sp)
    (hcount : (fixedArgValues t.unboxed_arg_type_id_list
      ((if t.nfixedargs < t.nargs then args.dropLast else args).drop
        (if t.ret_by_arg then 1 else 0)) 0).length ≤ t.nfixedargs) :
    ArgsLaidOut t.unboxed_arg_type_id_list s1.mem args_ptr s1.sp
      (fixedArgValues t.unboxed_arg_type_id_list
        ((if t.nfixedargs < t.nargs then args.dropLast else args).drop
          (if t.ret_by_arg then 1 else 0)) 0) args_ptr ∧
    s1.sp ≤ args_ptr ∧ args_ptr % 4 = 0 ∧ args_ptr + 4 * t.nargs = ret_addr ∧
    ret_addr ≤ s.sp ∧
    (t.ret_by_arg = false → ret_ptr = .num ret_addr ∧ ret_addr % 8 = 0 ∧ ret_addr + 8 ≤ s.sp) := by
  obtain ⟨e1, e2, e3, _, _, cur1, mem1, hloop, e5, e6⟩ :=
    trampoline_marshal_ok h t args s s1 ret_ptr ret_addr args_ptr hm
  have hret : ret_addr ≤ s.sp ∧ ret_addr % 4 = 0 ∧ 4 * t.nargs + 32 * args.length ≤ ret_addr ∧
      (t.ret_by_arg = false → ret_addr % 8 = 0 ∧ ret_addr + 8 ≤ s.sp) := by
    rw [e1]
    split
    · rename_i hr
      exact ⟨Nat.le_refl _, hsp, by omega, fun hf => by rw [hr] at hf; cases hf⟩
    · simp only [STACK_ALLOC, ALIGN_ADDRESS]
      refine ⟨by omega, by omega, by omega, fun _ => ⟨by omega, by omega⟩⟩
  have hA : args_ptr % 4 = 0 := by omega
  have hlen : ((if t.nfixedargs < t.nargs then args.dropLast else args).drop
      (if t.ret_by_arg then 1 else 0)).length ≤ args.length := by
    rw [List.length_drop]
    split
    · rw [List.length_dropLast]; omega
    · omega
  obtain ⟨_, hlay⟩ := trampoline_args_spec h t.unboxed_arg_type_id_list args_ptr hA args.length
    ((if t.nfixedargs < t.nargs then args.dropLast else args).drop
      (if t.ret_by_arg then 1 else 0)) hlen 0 args_ptr s.mem cur1 mem1 hloop (Nat.le_refl _)
    (by omega) (by omega)
  have hlow := ArgsLaidOut_lower _ _ _ _ _ _ hlay
  have hidx := fixedArgValues_index t.unboxed_arg_type_id_list args.length
    ((if t.nfixedargs < t.nargs then args.dropLast else args).drop
      (if t.ret_by_arg then 1 else 0)) hlen 0
  refine ⟨?_, by omega, hA, by omega, hret.1, fun hr => ⟨?_, hret.2.2.2 hr⟩⟩
  · rw [e5]
    refine ArgsLaidOut_congr _ mem1 s1.mem args_ptr cur1 t.nfixedargs hA ?_ _ _ (Nat.le_refl _)
      (fun x hx => ?_) hlay
    · intro b hb
      rw [e6]
      exact trampoline_varargs_frame _ _ hA _ _ _ _ _ (Or.inl hb)
    · have := hidx x hx
      omega
  · rw [e2, hr]
    simp

/-! ## Concrete instances -/

theorem stack_pointer_preserved_witness :
    (∃ s', (ffi_call addHost 0 16 1 160 128 (stateOf addMem 4096)).state? = some s' ∧
      s'.sp = 4096) ∧
    (∃ s', (trampoline addHost addTramp [.num 3, .num 4] (stateOf addMem 4096)).state? = some s' ∧
      s'.sp = 4096) := by
  have h := stack_pointer_preserved addHost 0 16 1 160 128 addTramp [.num 3, .num 4]
    (stateOf addMem 4096)
  have h1 : ((ffi_call addHost 0 16 1 160 128 (stateOf addMem 4096)).state?).isSome = true := by
    decide
  have h2 : ((trampoline addHost addTramp [.num 3, .num 4] (stateOf addMem 4096)).state?).isSome
      = true := by decide
  obtain ⟨s1, e1⟩ := Option.isSome_iff_exists.mp h1
  obtain ⟨s2, e2⟩ := Option.isSome_iff_exists.mp h2
  exact ⟨⟨s1, e1, h.1 s1 e1⟩, ⟨s2, e2, h.2 s2 e2⟩⟩

theorem ffi_prep_cif_machdep_invariant_witness :
    ffi_prep_cif_machdep ⟨2, 3, 0, 0, 0, 0, 0⟩ = (.FFI_OK, ⟨2, 3, 0, 0, 0, 0, 3⟩) ∧
    ∃ c, ffi_prep_cif_machdep (ffi_prep_cif_machdep_var ⟨2, 3, 0, 0, 0, 0, 0⟩ 1 3).2 =
        (.FFI_OK, c) ∧ c.nfixedargs = 1 ∧ c.flags &&& VARARGS_FLAG = 1 ∧ c.nfixedargs ≤ c.nargs := by
  have h := ffi_prep_cif_machdep_invariant ⟨2, 3, 0, 0, 0, 0, 0⟩ 1 3
  obtain ⟨c, c1, _, _, c4, c5, c6⟩ := h.2 rfl
  exact ⟨h.1 (by decide), c, c1, c4, c5, c6 (by decide)⟩

theorem ffi_closure_alloc_free_alloc_witness :
    DEREF_U32 (ffi_closure_alloc fixedAllocator 16 604
      (ffi_closure_free fixedAllocator (ffi_closure_alloc fixedAllocator 16 600 poolState).1
        (ffi_closure_alloc fixedAllocator 16 600 poolState).2)).2.mem 604 0 =
      DEREF_U32 (ffi_closure_alloc fixedAllocator 16 600 poolState).2.mem 600 0 ∧
    DEREF_U32 (ffi_closure_alloc fixedAllocator 16 600 poolState).2.mem 600 0 = 3 :=
  ⟨(ffi_closure_alloc_free_alloc fixedAllocator 16 600 16 604 poolState (by decide)
    (by decide)).1, by decide⟩

theorem store_load_u64_witness :
    ∃ mem', STORE_U64 addHost addMem 4088 0 (.big (-1)) = .ok mem' ∧
      DEREF_U32 mem' 4088 0 = 4294967295 ∧ DEREF_U32 mem' 4092 0 = 4294967295 ∧
      LOAD_U64 addHost mem' 4088 0 = .big 18446744073709551615 := by
  obtain ⟨mem', h1, h2, h3, h4⟩ := (store_load_u64 addHost bigintHost rfl rfl addMem 4088 (-1)
    (by decide)).1
  exact ⟨mem', h1, by rw [h2]; decide, by rw [h3]; decide, by rw [h4]; decide⟩

/-- Resolving a descriptor that is not an aggregate reads its kind tag only. -/
theorem unbox_scalar_congr (m m' : Mem) (fuel p : Nat)
    (hne : FFI_TYPE__TYPEID m p ≠ FFI_TYPE_STRUCT)
    (hag : ∀ j, j < 2 → m' (2 * ((p + 6) / 2 + 0) + j) = m (2 * ((p + 6) / 2 + 0) + j)) :
    unbox_small_structs m' fuel p = unbox_small_structs m fuel p := by
  have e : FFI_TYPE__TYPEID m' p = FFI_TYPE__TYPEID m p := by
    simp only [FFI_TYPE__TYPEID, DEREF_U16]
    exact HEAPU16_congr _ _ _ hag
  simp only [unbox_small_structs]
  rw [e, unbox_loop_nonstruct _ _ _ _ hne, unbox_loop_nonstruct _ _ _ _ hne]

set_option maxRecDepth 4000 in
theorem ffi_call_bad_kind_witness :
    ∃ e mem', ffi_call addHost 0 16 1 200 128 (stateOf complexVarMem 4096) =
        .throw e { stateOf complexVarMem 4096 with mem := mem' } ∧
      ∀ a, a < 4064 ∨ 4096 ≤ a → mem' a = complexVarMem a := by
  have e1 : CIF__NFIXEDARGS (stateOf complexVarMem 4096).mem 16 = 1 := by decide
  have e2 : CIF__NARGS (stateOf complexVarMem 4096).mem 16 = 2 := by decide
  have e3 : CIF__ARGTYPES (stateOf complexVarMem 4096).mem 16 = 64 := by decide
  have e4 : DEREF_U32 complexVarMem 64 1 = 112 := by decide
  obtain ⟨e, mem', h1, h2⟩ := (ffi_call_bad_kind addHost 0 16 1 200 128
    (stateOf complexVarMem 4096) 96 FFI_TYPE_SINT32 (by decide)
    (fun j hj => by
      rw [e1] at hj
      have hj0 : j = 0 := by omega
      subst hj0
      exact ⟨(96, FFI_TYPE_SINT32), by decide⟩)).2.2 1 112 FFI_TYPE_COMPLEX (by decide) (by decide)
    (by decide) (Or.inl rfl) (by decide)
    (fun m' hm' j hj1 hj2 => by
      rw [e1] at hj1
      rw [e2] at hj2
      rw [e1, e2] at hm'
      have hj : j = 1 := by omega
      subst hj
      rw [e3]
      have hm : (stateOf complexVarMem 4096).mem = complexVarMem := rfl
      rw [hm] at hm' ⊢
      have e5 : DEREF_U32 m' 64 1 = DEREF_U32 complexVarMem 64 1 := by
        apply HEAPU32_congr
        intro i hi
        exact hm' _ (Or.inl (by simp only [stateOf]; omega))
      rw [e5, e4]
      apply unbox_scalar_congr
      · decide
      · intro i hi
        exact hm' _ (Or.inl (by simp only [stateOf]; omega)))
    (fun j hj1 hj2 => by
      rw [e1] at hj1
      rw [e2] at hj2
      have hj : j = 1 := by omega
      subst hj
      exact ⟨(112, FFI_TYPE_COMPLEX), by decide⟩)
  refine ⟨e, mem', h1, fun a ha => h2 a ?_⟩
  rw [e1, e2]
  exact ha

set_option maxRecDepth 4000 in
theorem ffi_call_variadic_slots_witness :
    ffi_call_varargs_slots 0 128 64 1 2 4096 variadicMem =
      [(2, FFI_TYPE_SINT32, 4092), (1, FFI_TYPE_SINT64, 4080)] ∧
    SlotsDescend [(2, FFI_TYPE_SINT32, 4092), (1, FFI_TYPE_SINT64, 4080)] 4096 ∧
    ∃ s', (ffi_call addHost 0 16 1 200 128 (stateOf variadicMem 4096)).state? = some s' ∧
      s'.calls.map CallRecord.args = [[.num 1, .num 4080]] := by
  have hs : ffi_call_varargs_slots 0 128 64 1 2 4096 variadicMem =
      [(2, FFI_TYPE_SINT32, 4092), (1, FFI_TYPE_SINT64, 4080)] := by decide
  obtain ⟨_, h2, _, s', h4, h5⟩ := ffi_call_variadic_slots addHost 0 16 1 200 128
    (stateOf variadicMem 4096) 96 FFI_TYPE_SINT32 [.num 1] 4080
    ((ffi_call_varargs 0 128 64 1 2 4096 variadicMem).stateD variadicMem)
    (by decide) (by decide) (by decide) (by decide) (by decide) rfl (by decide)
  refine ⟨hs, ?_, s', h4, by rw [h5]; rfl⟩
  rw [← hs]
  exact h2

set_option maxRecDepth 4000 in
theorem trampoline_fixed_args_layout_witness :
    ∃ s1, trampoline_marshal addHost mixedTramp
        [.num 7, .f64 4612811918334230528, .big 5, .big 6] (stateOf addMem 4096) =
        .ok (.num 4088, 4088, 4076) s1 ∧
      s1.sp = 4048 ∧
      fixedArgValues mixedTramp.unboxed_arg_type_id_list
        [.num 7, .f64 4612811918334230528, .big 5, .big 6] 0 =
        [(0, .num 7, .f64 4612811918334230528), (1, .f64 4612811918334230528, .big 5),
          (2, .big 5, .big 6)] ∧
      ArgsLaidOut mixedTramp.unboxed_arg_type_id_list s1.mem 4076 s1.sp
        [(0, .num 7, .f64 4612811918334230528), (1, .f64 4612811918334230528, .big 5),
          (2, .big 5, .big 6)] 4076 ∧
      DEREF_U32 s1.mem 4076 0 = 4072 ∧ DEREF_U32 s1.mem 4076 1 = 4064 ∧
      DEREF_U32 s1.mem 4076 2 = 4048 := by
  have hv : fixedArgValues mixedTramp.unboxed_arg_type_id_list
      [.num 7, .f64 4612811918334230528, .big 5, .big 6] 0 =
      [(0, .num 7, .f64 4612811918334230528), (1, .f64 4612811918334230528, .big 5),
        (2, .big 5, .big 6)] := by decide
  have h := trampoline_fixed_args_layout addHost mixedTramp
    [.num 7, .f64 4612811918334230528, .big 5, .big 6] (stateOf addMem 4096)
    ((trampoline_marshal addHost mixedTramp [.num 7, .f64 4612811918334230528, .big 5, .big 6]
      (stateOf addMem 4096)).stateD (stateOf addMem 4096))
    (.num 4088) 4088 4076 rfl (by decide) (by decide) (by decide) (by decide)
  refine ⟨_, rfl, by decide, hv, ?_, by decide, by decide, by decide⟩
  rw [← hv]
  exact h.1

set_option maxRecDepth 4000 in
theorem trampoline_variadic_entries_witness :
    ∃ s1, trampoline_marshal addHost doublesTramp [.num 1, .num 2048] (stateOf doublesMem 1024) =
        .ok (.num 1016, 1016, 1004) s1 ∧
      DEREF_U32 s1.mem 1004 1 = 2048 ∧ DEREF_U32 s1.mem 1004 2 = 2052 := by
  obtain ⟨_, _, _, h2, _, _⟩ := trampoline_variadic_entries addHost doublesTramp
    [.num 1, .num 2048] (stateOf doublesMem 1024)
    ((trampoline_marshal addHost doublesTramp [.num 1, .num 2048]
      (stateOf doublesMem 1024)).stateD (stateOf doublesMem 1024))
    (.num 1016) 1016 1004 2048 rfl (by decide) (by decide) (by decide) (by decide) (by decide)
    (by decide)
  exact ⟨_, rfl, (h2 1 (by decide) (by decide)).1 (by decide),
    (h2 2 (by decide) (by decide)).1 (by decide)⟩

set_option maxRecDepth 4000 in
theorem trampoline_return_value_witness :
    ∃ s2, trampoline storeHost addTramp [.num 3, .num 4] (stateOf addMem 4096) =
      .ok (.num 7) s2 := by
  obtain ⟨s2, v, h1, _, h3, h4, _⟩ := trampoline_return_value storeHost addTramp
    [.num 3, .num 4] (stateOf addMem 4096)
    ((trampoline_marshal storeHost addTramp [.num 3, .num 4]
      (stateOf addMem 4096)).stateD (stateOf addMem 4096))
    (.num 4088) 4088 4080 rfl
  have hv := (h4 rfl (by decide)).2.2.2.2.1 rfl
  rw [h3] at hv
  have hv7 : v = .num 7 := hv.trans (by decide)
  rw [hv7] at h1
  exact ⟨s2, h1⟩

/-! ## Agreement of the forward call and the closure signature -/

theorem LOAD_U64_class (h : Host) (mem : Mem) (a off : Nat) :
    valueClass (LOAD_U64 h mem a off) = some 'j' := by
  unfold LOAD_U64
  split <;> rfl

/-- For one argument kind, the values that `ffi_call` pushes have the classes of
the characters that the closure signature gets. -/
theorem ffi_call_arg_class (h : Host) (mem : Mem) (k p : Nat) (last : Option Nat)
    (vs : List JSVal) (cs : List Char)
    (hv : ffi_call_arg h mem k p = .ok vs) (hc : closure_arg_sig (some k) last = .ok cs) :
    vs.map valueClass = cs.map some := by
  unfold ffi_call_arg at hv
  simp only [closure_arg_sig] at hc
  split at hv
  · rename_i c1
    cases hv
    have c : k = FFI_TYPE_INT ∨ k = FFI_TYPE_UINT8 ∨ k = FFI_TYPE_SINT8 ∨ k = FFI_TYPE_UINT16 ∨
        k = FFI_TYPE_SINT16 ∨ k = FFI_TYPE_UINT32 ∨ k = FFI_TYPE_SINT32 ∨
        k = FFI_TYPE_POINTER ∨ k = FFI_TYPE_STRUCT := by
      rcases c1 with c | c | c | c <;> simp [c]
    rw [if_pos c] at hc
    cases hc
    rfl
  · split at hv
    · rename_i c1 c2
      cases hv
      subst c2
      rw [if_neg (by decide), if_pos rfl] at hc
      cases hc
      rfl
    · split at hv
      · rename_i c1 c2 c3
        cases hv
        subst c3
        rw [if_neg (by decide), if_neg (by decide), if_pos rfl] at hc
        cases hc
        rfl
      · split at hv
        · rename_i c1 c2 c3 c4
          cases hv
          have c : k = FFI_TYPE_INT ∨ k = FFI_TYPE_UINT8 ∨ k = FFI_TYPE_SINT8 ∨
              k = FFI_TYPE_UINT16 ∨ k = FFI_TYPE_SINT16 ∨ k = FFI_TYPE_UINT32 ∨
              k = FFI_TYPE_SINT32 ∨ k = FFI_TYPE_POINTER ∨ k = FFI_TYPE_STRUCT := by
            rcases c4 with c | c <;> simp [c]
          rw [if_pos c] at hc
          cases hc
          rfl
        · split at hv
          · rename_i c1 c2 c3 c4 c5
            cases hv
            have c : k = FFI_TYPE_INT ∨ k = FFI_TYPE_UINT8 ∨ k = FFI_TYPE_SINT8 ∨
                k = FFI_TYPE_UINT16 ∨ k = FFI_TYPE_SINT16 ∨ k = FFI_TYPE_UINT32 ∨
                k = FFI_TYPE_SINT32 ∨ k = FFI_TYPE_POINTER ∨ k = FFI_TYPE_STRUCT := by
              rcases c5 with c | c <;> simp [c]
            rw [if_pos c] at hc
            cases hc
            rfl
          · split at hv
            · rename_i c1 c2 c3 c4 c5 c6
              cases hv
              have e : cs = ['j'] := by
                rcases c6 with c | c <;> subst c <;>
                  rw [if_neg (by decide), if_neg (by decide), if_neg (by decide),
                    if_neg (by decide), if_pos (by decide)] at hc <;>
                  cases hc <;> rfl
              rw [e]
              simp only [List.map, LOAD_U64_class]
            · split at hv
              · rename_i c1 c2 c3 c4 c5 c6 c7
                cases hv
                subst c7
                rw [if_neg (by decide), if_neg (by decide), if_neg (by decide),
                  if_pos rfl] at hc
                cases hc
                simp only [List.map, LOAD_U64_class]
              · split at hv
                · rename_i c1 c2 c3 c4 c5 c6 c7 c8
                  cases hv
                  have c : k = FFI_TYPE_INT ∨ k = FFI_TYPE_UINT8 ∨ k = FFI_TYPE_SINT8 ∨
                      k = FFI_TYPE_UINT16 ∨ k = FFI_TYPE_SINT16 ∨ k = FFI_TYPE_UINT32 ∨
                      k = FFI_TYPE_SINT32 ∨ k = FFI_TYPE_POINTER ∨ k = FFI_TYPE_STRUCT := by
                    simp [c8]
                  rw [if_pos c] at hc
                  cases hc
                  rfl
                · split at hv
                  · cases hv
                  · cases hv

/-- The return part of a closure signature, without its return character, has the
classes of the values that `ffi_call` starts its argument list with: the return
buffer address when the result is returned by reference, nothing otherwise. -/
theorem closure_ret_sig_class (rk rvalue : Nat) (sig0 : List Char) (rba : Bool)
    (hr : closure_ret_sig rk = .ok (sig0, rba)) :
    ∃ c rest, sig0 = c :: rest ∧
      (if (decide (rk = FFI_TYPE_LONGDOUBLE ∨ rk = FFI_TYPE_STRUCT)) = true then
        [JSVal.num rvalue] else []).map valueClass = rest.map some := by
  unfold closure_ret_sig at hr
  split at hr
  · rename_i c
    cases hr
    subst c
    exact ⟨'v', [], rfl, by simp⟩
  · split at hr
    · rename_i c0 c
      cases hr
      have c' : rk = FFI_TYPE_LONGDOUBLE ∨ rk = FFI_TYPE_STRUCT := c.symm
      exact ⟨'v', ['i'], rfl, by simp [c', valueClass]⟩
    · rename_i c0 c1
      have c' : ¬ (rk = FFI_TYPE_LONGDOUBLE ∨ rk = FFI_TYPE_STRUCT) := fun hh => c1 hh.symm
      split at hr
      · cases hr; exact ⟨'i', [], rfl, by simp [c']⟩
      · split at hr
        · cases hr; exact ⟨'f', [], rfl, by simp [c']⟩
        · split at hr
          · cases hr; exact ⟨'d', [], rfl, by simp [c']⟩
          · split at hr
            · cases hr; exact ⟨'j', [], rfl, by simp [c']⟩
            · split at hr
              · cases hr
              · cases hr

/-- The list that the first loop of the closure helper builds holds, at every
index, the resolved kind of the argument descriptor with that index. -/
theorem closure_unbox_args_get (mem : Mem) (fuel at_ : Nat) :
    ∀ (n i : Nat) (acc ids : List Nat), closure_unbox_args mem fuel at_ n i acc = some ids →
      acc.length = i →
      (∀ j k, j < i → ids.get? j = some k → acc.get? j = some k) ∧
      (∀ j k, i ≤ j → ids.get? j = some k →
        ∃ p, unbox_small_structs mem fuel (DEREF_U32 mem at_ j) = some (p, k)) := by
  intro n
  induction n with
  | zero =>
    intro i acc ids h hl
    simp only [closure_unbox_args, Option.some.injEq] at h
    subst h
    refine ⟨fun j k _ hg => hg, fun j k hj hg => ?_⟩
    have := List.get?_eq_some.mp hg
    obtain ⟨hlt, _⟩ := this
    omega
  | succ n ih =>
    intro i acc ids h hl
    simp only [closure_unbox_args] at h
    cases hu : unbox_small_structs mem fuel (DEREF_U32 mem at_ i) with
    | none => rw [hu] at h; cases h
    | some r =>
      obtain ⟨p, k0⟩ := r
      rw [hu] at h
      simp only [] at h
      obtain ⟨h1, h2⟩ := ih (i + 1) (acc ++ [k0]) ids h (by simp [hl])
      refine ⟨fun j k hj hg => ?_, fun j k hj hg => ?_⟩
      · have := h1 j k (by omega) hg
        rw [List.get?_eq_getElem?, List.getElem?_append_left (by omega)] at this
        rw [List.get?_eq_getElem?]
        exact this
      · by_cases he : j = i
        · subst he
          have := h1 j k (by omega) hg
          rw [List.get?_eq_getElem?, List.getElem?_append_right (by omega)] at this
          simp [hl] at this
          subst this
          exact ⟨p, hu⟩
        · exact h2 j k (by omega) hg

/-- The fixed-argument loops of `ffi_call` and of the closure helper, run over the
same kinds, extend the argument list and the signature by values and characters
of the same classes. -/
theorem fixed_args_class (h : Host) (fuel : Nat) (mem : Mem) (av at_ : Nat) (ids : List Nat)
    (hrel : ∀ j k, ids.get? j = some k →
      ∃ p, unbox_small_structs mem fuel (DEREF_U32 mem at_ j) = some (p, k)) :
    ∀ (n i : Nat) (acc out : List JSVal) (sig sig1 : List Char),
      ffi_call_fixed_args h fuel mem av at_ n i acc = .ok out →
      closure_args_sig ids n i sig = .ok sig1 →
      (0 < n → i + n ≤ ids.length) ∧
      ∃ vs cs, out = acc ++ vs ∧ sig1 = sig ++ cs ∧ vs.map valueClass = cs.map some := by
  intro n
  induction n with
  | zero =>
    intro i acc out sig sig1 hf hc
    simp only [ffi_call_fixed_args, Outcome.ok.injEq] at hf
    simp only [closure_args_sig, Except.ok.injEq] at hc
    subst hf hc
    exact ⟨fun h0 => absurd h0 (Nat.lt_irrefl 0), [], [], by simp, by simp, rfl⟩
  | succ n ih =>
    intro i acc out sig sig1 hf hc
    simp only [ffi_call_fixed_args] at hf
    simp only [closure_args_sig] at hc
    cases hg : ids.get? i with
    | none => rw [hg] at hc; simp [closure_arg_sig] at hc
    | some k =>
      rw [hg] at hc
      obtain ⟨p, hu⟩ := hrel i k hg
      cases hcs : closure_arg_sig (some k) ids.getLast? with
      | error e => rw [hcs] at hc; cases hc
      | ok cs =>
        rw [hcs] at hc
        simp only [] at hc
        simp only [ffi_call_fixed_arg, hu] at hf
        cases hvs : ffi_call_arg h mem k (DEREF_U32 mem av i) with
        | error e => rw [hvs] at hf; cases hf
        | ok vs =>
          rw [hvs] at hf
          simp only [] at hf
          obtain ⟨hlen, vs', cs', e1, e2, e3⟩ := ih (i + 1) (acc ++ vs) out (sig ++ cs) sig1 hf hc
          have hcl := ffi_call_arg_class h mem k _ _ vs cs hvs hcs
          have hi : i < ids.length := (List.get?_eq_some.mp hg).1
          refine ⟨(fun _ => by omega), vs ++ vs', cs ++ cs', by rw [e1, List.append_assoc],
            by rw [e2, List.append_assoc], by rw [List.map_append, List.map_append, hcl, e3]⟩

/-- A host call of `ffi_call` that completes has appended one call record, with
the callee and the argument list it was given. -/
theorem ffi_call_invoke_calls (h : Host) (fn rvalue rtype_id : Nat) (rba : Bool) (orig : Nat)
    (args : List JSVal) (st s1 : State)
    (hi : ffi_call_invoke h fn rvalue rtype_id rba orig args st = .ok () s1) :
    s1.calls = st.calls ++ [⟨fn, args, st.mem, st.sp⟩] := by
  unfold ffi_call_invoke at hi
  simp only [] at hi
  split at hi
  · simp only [Res.ok.injEq, true_and] at hi
    rw [← hi]
  · split at hi
    · simp only [Res.ok.injEq, true_and] at hi
      rw [← hi]
    · cases hi

/-- C21: when `ffi_call` completes and `ffi_prep_closure_loc_helper` completes on
the same CIF (in the same state), `ffi_call` has made one host call, to `fn`, and
the closure helper has installed a trampoline at `codeloc`, such that the number
of values passed to the host call is the length of the trampoline's signature
minus the one return character, and position by position the class of the value
is the signature character: `i` for a Number (integers of 32 bits or fewer,
pointers, aggregate addresses, the return buffer address and the variadic block
address), `f` for a single float, `d` for a double, `j` for a 64-bit integer and
for each half of an extended float. -/
theorem ffi_call_closure_signature (h : Host) (fuel cif fn rvalue avalue : Nat)
    (closure fn1 user_data codeloc : Nat) (s s1 s2 : State) (st : ffi_status)
    (hcall : ffi_call h fuel cif fn rvalue avalue s = .ok () s1)
    (hprep : ffi_prep_closure_loc_helper fuel closure cif fn1 user_data codeloc s = .ok st s2) :
    ∃ c t, s1.calls = s.calls ++ [c] ∧ c.func = fn ∧ s2.table codeloc = some t ∧
      c.args.length = t.sig.length - 1 ∧
      c.args.map valueClass = (t.sig.drop 1).map some := by
  unfold ffi_prep_closure_loc_helper at hprep
  unfold ffi_call at hcall
  simp only [] at hprep hcall
  cases hu : unbox_small_structs s.mem fuel (CIF__RTYPE s.mem cif) with
  | none => rw [hu] at hcall; cases hcall
  | some r =>
    obtain ⟨rp, rk⟩ := r
    rw [hu] at hcall hprep
    simp only [] at hcall hprep
    cases hrs : closure_ret_sig rk with
    | error e => rw [hrs] at hprep; cases hprep
    | ok r0 =>
      obtain ⟨sig0, rba⟩ := r0
      rw [hrs] at hprep
      simp only [] at hprep
      cases hids : closure_unbox_args s.mem fuel (CIF__ARGTYPES s.mem cif)
          (CIF__NARGS s.mem cif) 0 [] with
      | none => rw [hids] at hprep; cases hprep
      | some ids =>
        rw [hids] at hprep
        simp only [] at hprep
        cases hsig : closure_args_sig ids (CIF__NFIXEDARGS s.mem cif) 0 sig0 with
        | error e => rw [hsig] at hprep; cases hprep
        | ok sig1 =>
          rw [hsig] at hprep
          simp only [Res.ok.injEq] at hprep
          obtain ⟨_, hs2⟩ := hprep
          have hlen : ids.length = CIF__NARGS s.mem cif := by
            have := closure_unbox_args_length s.mem fuel _ _ _ _ _ hids
            simpa using this
          have hrel := (closure_unbox_args_get s.mem fuel _ _ _ _ _ hids rfl).2
          obtain ⟨c0, rest0, hs0, hcl0⟩ := closure_ret_sig_class rk rvalue sig0 rba hrs
          split at hcall
          · cases hcall
          · split at hcall
            · cases hcall
            · cases hfix : ffi_call_fixed_args h fuel s.mem avalue (CIF__ARGTYPES s.mem cif)
                  (CIF__NFIXEDARGS s.mem cif) 0
                  (if (decide (rk = FFI_TYPE_LONGDOUBLE ∨ rk = FFI_TYPE_STRUCT)) = true then
                    [JSVal.num rvalue] else []) with
              | outOfFuel => rw [hfix] at hcall; cases hcall
              | throw e => rw [hfix] at hcall; cases hcall
              | ok args =>
                rw [hfix] at hcall
                simp only [] at hcall
                obtain ⟨hle, vs, cs, e1, e2, e3⟩ := fixed_args_class h fuel s.mem avalue _ ids
                  (fun j k hg => hrel j k (Nat.zero_le _) hg) _ _ _ _ _ _ hfix hsig
                have hle' : CIF__NFIXEDARGS s.mem cif ≤ CIF__NARGS s.mem cif := by
                  by_cases h0 : 0 < CIF__NFIXEDARGS s.mem cif
                  · have := hle h0
                    omega
                  · omega
                have hargs : args.map valueClass = (rest0 ++ cs).map some := by
                  rw [e1, List.map_append, List.map_append, hcl0, e3]
                have hsig1 : sig1 = c0 :: (rest0 ++ cs) := by
                  rw [e2, hs0]; rfl
                by_cases hne : CIF__NFIXEDARGS s.mem cif ≠ CIF__NARGS s.mem cif
                · rw [if_pos hne] at hcall
                  have hlt : CIF__NFIXEDARGS s.mem cif < CIF__NARGS s.mem cif := by omega
                  rw [if_pos hlt] at hs2
                  cases hva : ffi_call_varargs fuel avalue (CIF__ARGTYPES s.mem cif)
                      (CIF__NFIXEDARGS s.mem cif)
                      (CIF__NARGS s.mem cif - CIF__NFIXEDARGS s.mem cif) s.sp s.mem with
                  | outOfFuel => rw [hva] at hcall; cases hcall
                  | throw e m => rw [hva] at hcall; cases hcall
                  | ok va m =>
                    rw [hva] at hcall
                    simp only [] at hcall
                    have hc := ffi_call_invoke_calls _ _ _ _ _ _ _ _ _ hcall
                    refine ⟨⟨fn, args ++ [.num va], m, va⟩,
                      ⟨sig1 ++ ['i'], rba, CIF__NARGS s.mem cif, CIF__NFIXEDARGS s.mem cif, ids,
                        closure⟩, hc, rfl, (by rw [← hs2]; exact if_pos rfl), ?_, ?_⟩
                    · have := congrArg List.length hargs
                      simp only [List.length_map, List.length_append] at this
                      simp only [hsig1, List.length_append, List.length_cons, List.length_nil,
                        this]
                      omega
                    · simp only [hsig1, List.map_append, hargs, List.cons_append, List.drop_succ_cons,
                        List.drop_zero, List.map, valueClass]
                · rw [if_neg hne] at hcall
                  have hlt : ¬ CIF__NFIXEDARGS s.mem cif < CIF__NARGS s.mem cif := by omega
                  rw [if_neg hlt] at hs2
                  have hc := ffi_call_invoke_calls _ _ _ _ _ _ _ _ _ hcall
                  refine ⟨⟨fn, args, s.mem, s.sp⟩,
                    ⟨sig1, rba, CIF__NARGS s.mem cif, CIF__NFIXEDARGS s.mem cif, ids, closure⟩,
                    hc, rfl, (by rw [← hs2]; exact if_pos rfl), ?_, ?_⟩
                  · have := congrArg List.length hargs
                    simp only [List.length_map, List.length_append] at this
                    simp [hsig1, this]
                  · simp only [hsig1, hargs, List.drop_succ_cons, List.drop_zero]

set_option maxRecDepth 4000 in
theorem ffi_call_closure_signature_witness :
    ((ffi_call addHost 1 16 1 160 128 (stateOf structRetMem 4096)).stateD
        (stateOf structRetMem 4096)).calls.map CallRecord.args =
      [[.num 160, .f64 4612811918334230528]] ∧
    (((ffi_prep_closure_loc_helper 1 300 16 1 0 5 (stateOf structRetMem 4096)).stateD
        (stateOf structRetMem 4096)).table 5).map Tramp.sig = some ['v', 'i', 'd'] ∧
    ∃ c t,
      ((ffi_call addHost 1 16 1 160 128 (stateOf structRetMem 4096)).stateD
        (stateOf structRetMem 4096)).calls = (stateOf structRetMem 4096).calls ++ [c] ∧
      c.func = 1 ∧
      ((ffi_prep_closure_loc_helper 1 300 16 1 0 5 (stateOf structRetMem 4096)).stateD
        (stateOf structRetMem 4096)).table 5 = some t ∧
      c.args.length = t.sig.length - 1 ∧
      c.args.map valueClass = (t.sig.drop 1).map some :=
  ⟨by decide, by decide,
    ffi_call_closure_signature addHost 1 16 1 160 128 300 1 0 5 (stateOf structRetMem 4096)
      ((ffi_call addHost 1 16 1 160 128 (stateOf structRetMem 4096)).stateD
        (stateOf structRetMem 4096))
      ((ffi_prep_closure_loc_helper 1 300 16 1 0 5 (stateOf structRetMem 4096)).stateD
        (stateOf structRetMem 4096)) .FFI_OK rfl rfl⟩

end Wasm32
